import Mathlib

/-!
# BasicCalculator (calculator-app/frontend/js/calculator.js)

A shallow embedding of the immediate-execution calculator widget and of the
JavaScript primitives it relies on (`parseFloat`, `String(number)`,
`Math.round` and the binary64 arithmetic operators).

## Numbers

A JavaScript Number is an IEEE-754 binary64 value.  A finite value is kept as
a sign, a significand `m` and a biased exponent `e`, and stands for
`(-1)^neg * m * 2^e / 2^1074`.  The canonical form has `m < 2^53`,
`e ≤ 2045`, and `2^52 ≤ m` unless `e = 0` (subnormal numbers and zero).
-/

namespace JS

/-- A JavaScript Number (IEEE-754 binary64). -/
inductive JSNumber where
  | nan : JSNumber
  | inf (neg : Bool) : JSNumber
  | fin (neg : Bool) (m : Nat) (e : Nat) : JSNumber
  deriving DecidableEq, Repr

/-- The denominator shared by all finite values: `2^1074`. -/
@[irreducible] def unit : Nat := 2 ^ 1074

/-- Round the non-negative rational `N / D` to the nearest natural number,
ties going to the even neighbour. -/
def roundHalfEven (N D : Nat) : Nat :=
  let q := N / D
  let r := N % D
  if 2 * r < D then q
  else if D < 2 * r then q + 1
  else if q % 2 = 0 then q else q + 1

/-- The binary logarithm `⌊log₂ n⌋` by repeated halving (`0` for `n < 2`); the
first argument bounds the number of halvings. -/
def log2Aux : Nat → Nat → Nat
  | 0, _ => 0
  | fuel + 1, n => if n < 2 then 0 else log2Aux fuel (n / 2) + 1

/-- The binary logarithm `⌊log₂ n⌋` (`0` for `n = 0`). -/
def log2 (n : Nat) : Nat := log2Aux n n

/-- Round the non-negative rational `N / D`, counted in units of `2^-1074`, to
a significand and biased exponent (round to nearest, ties to even).  The
exponent is not yet checked for overflow. -/
def roundScaled (N D : Nat) : Nat × Nat :=
  let q := N / D
  let e := log2 q - 52
  let m := roundHalfEven N (D * 2 ^ e)
  if m = 2 ^ 53 then (2 ^ 52, e + 1) else (m, e)

/-- Build the Number for a rounded significand and exponent; exponents above
the binary64 range give an infinity. -/
def mkNumber (neg : Bool) (me : Nat × Nat) : JSNumber :=
  if 2045 < me.2 then JSNumber.inf neg else JSNumber.fin neg me.1 me.2

/-- The Number nearest to `(-1)^neg * n / d`. -/
def ofRatio (neg : Bool) (n d : Nat) : JSNumber :=
  mkNumber neg (roundScaled (n * unit) d)

/-- The Number of a natural number literal. -/
def ofNat (n : Nat) : JSNumber := ofRatio false n 1

/-- Unary minus. -/
def neg : JSNumber → JSNumber
  | JSNumber.nan => JSNumber.nan
  | JSNumber.inf s => JSNumber.inf (!s)
  | JSNumber.fin s m e => JSNumber.fin (!s) m e

/-- The integer `(-1)^s * m * 2^e`: a finite value counted in units of
`2^-1074`. -/
def scaledInt (s : Bool) (m e : Nat) : Int :=
  if s then -((m * 2 ^ e : Nat) : Int) else ((m * 2 ^ e : Nat) : Int)

/-- The operator `a + b` on Numbers. -/
def add : JSNumber → JSNumber → JSNumber
  | JSNumber.nan, _ => JSNumber.nan
  | _, JSNumber.nan => JSNumber.nan
  | JSNumber.inf s, JSNumber.inf t => if s = t then JSNumber.inf s else JSNumber.nan
  | JSNumber.inf s, JSNumber.fin _ _ _ => JSNumber.inf s
  | JSNumber.fin _ _ _, JSNumber.inf t => JSNumber.inf t
  | JSNumber.fin s m e, JSNumber.fin t n f =>
    let v := scaledInt s m e + scaledInt t n f
    if v = 0 then JSNumber.fin (s && t) 0 0
    else mkNumber (decide (v < 0)) (roundScaled v.natAbs 1)

/-- The operator `a - b` on Numbers. -/
def sub (a b : JSNumber) : JSNumber := add a (neg b)

/-- The operator `a * b` on Numbers. -/
def mul : JSNumber → JSNumber → JSNumber
  | JSNumber.nan, _ => JSNumber.nan
  | _, JSNumber.nan => JSNumber.nan
  | JSNumber.inf s, JSNumber.inf t => JSNumber.inf (xor s t)
  | JSNumber.inf s, JSNumber.fin t n _ =>
    if n = 0 then JSNumber.nan else JSNumber.inf (xor s t)
  | JSNumber.fin s m _, JSNumber.inf t =>
    if m = 0 then JSNumber.nan else JSNumber.inf (xor s t)
  | JSNumber.fin s m e, JSNumber.fin t n f =>
    mkNumber (xor s t) (roundScaled (m * n * 2 ^ (e + f)) unit)

/-- The operator `a / b` on Numbers. -/
def div : JSNumber → JSNumber → JSNumber
  | JSNumber.nan, _ => JSNumber.nan
  | _, JSNumber.nan => JSNumber.nan
  | JSNumber.inf _, JSNumber.inf _ => JSNumber.nan
  | JSNumber.inf s, JSNumber.fin t _ _ => JSNumber.inf (xor s t)
  | JSNumber.fin s _ _, JSNumber.inf t => JSNumber.fin (xor s t) 0 0
  | JSNumber.fin s m e, JSNumber.fin t n f =>
    if n = 0 then
      if m = 0 then JSNumber.nan else JSNumber.inf (xor s t)
    else mkNumber (xor s t) (roundScaled (m * 2 ^ e * unit) (n * 2 ^ f))

/-- The operator `a % b` on Numbers: the remainder takes the sign of the
dividend and is always exact. -/
def mod : JSNumber → JSNumber → JSNumber
  | JSNumber.nan, _ => JSNumber.nan
  | _, JSNumber.nan => JSNumber.nan
  | JSNumber.inf _, _ => JSNumber.nan
  | JSNumber.fin s m e, JSNumber.inf _ => JSNumber.fin s m e
  | JSNumber.fin s m e, JSNumber.fin _ n f =>
    if n = 0 then JSNumber.nan
    else mkNumber s (roundScaled ((m * 2 ^ e) % (n * 2 ^ f)) 1)

/-- `Math.round(x)`: the integer nearest to `x`, ties going towards
`+Infinity`; values in `[-0.5, -0]` give `-0`. -/
def mathRound : JSNumber → JSNumber
  | JSNumber.nan => JSNumber.nan
  | JSNumber.inf s => JSNumber.inf s
  | JSNumber.fin false m e =>
    mkNumber false (roundScaled ((2 * (m * 2 ^ e) + unit) / (2 * unit) * unit) 1)
  | JSNumber.fin true m e =>
    if 2 * (m * 2 ^ e) ≤ unit then JSNumber.fin true 0 0
    else mkNumber true
      (roundScaled ((2 * (m * 2 ^ e) - unit + (2 * unit - 1)) / (2 * unit) * unit) 1)

/-- The comparison `x !== 0`. -/
def strictNeZero : JSNumber → Bool
  | JSNumber.fin _ m _ => m != 0
  | _ => true

/-! ## `String(number)` -/

/-- The character of a decimal digit. -/
def digitChar (d : Nat) : Char := Char.ofNat (48 + d)

/-- The last `k` decimal digits of `s`, most significant first. -/
def digitsK : Nat → Nat → List Char
  | 0, _ => []
  | k + 1, s => digitsK k (s / 10) ++ [digitChar (s % 10)]

/-- The number of decimal digits of `v` (at least one), by bounded search. -/
def numDigitsAux : Nat → Nat → Nat → Nat
  | 0, _, k => k
  | fuel + 1, v, k => if v < 10 ^ k then k else numDigitsAux fuel v (k + 1)

/-- The number of decimal digits of `v` (at least one). -/
def numDigits (v : Nat) : Nat := numDigitsAux 400 v 1

/-- Scale the rational `N / D` by `10^p`. -/
def scale10 (N D : Nat) (p : Int) : Nat × Nat :=
  match p with
  | Int.ofNat j => (N * 10 ^ j, D)
  | Int.negSucc j => (N, D * 10 ^ (j + 1))

/-- For a positive value below one, the least `j` with
`10^(-j-1) ≤ M / unit`, by bounded search. -/
def leadingZeros : Nat → Nat → Nat → Nat
  | 0, _, j => j
  | fuel + 1, M, j => if unit ≤ M * 10 ^ (j + 1) then j else leadingZeros fuel M (j + 1)

/-- The decimal exponent `n` of the positive value `M / unit`:
`10^(n-1) ≤ M / unit < 10^n`. -/
def decimalExponent (M : Nat) : Int :=
  if unit ≤ M then (numDigits (M / unit) : Int) else -((leadingZeros 400 M 0 : Nat) : Int)

/-- Whether the decimal `s * 10^(-p)` converts back to the finite positive
Number with significand `m` and exponent `e`. -/
def roundTrips (m e s : Nat) (p : Int) : Bool :=
  let sc := scale10 (s * unit) 1 (-p)
  roundScaled sc.1 sc.2 = (m, e)

/-- The `k`-digit candidate for the positive value `m * 2^e / unit` with decimal
exponent `n`: the nearest decimal with `k` significant digits below or above
the value that converts back to it, the closer one when both do (the
even one on a tie). -/
def candidate (m e : Nat) (n : Int) (k : Nat) : Option Nat :=
  let p : Int := (k : Int) - n
  let sc := scale10 (m * 2 ^ e) unit p
  let lo := sc.1 / sc.2
  let r := sc.1 % sc.2
  let okLo := roundTrips m e lo p
  let okHi := roundTrips m e (lo + 1) p
  if okLo && okHi then
    if 2 * r < sc.2 then some lo
    else if sc.2 < 2 * r then some (lo + 1)
    else if lo % 2 = 0 then some lo else some (lo + 1)
  else if okLo then some lo
  else if okHi then some (lo + 1)
  else none

/-- Search for the least number of digits `k` that has a candidate; the
result is `(s, k)`. -/
def shortestAux (m e : Nat) (n : Int) : Nat → Nat → Option (Nat × Nat)
  | 0, _ => none
  | fuel + 1, k =>
    match candidate m e n k with
    | some s => some (s, k)
    | none => shortestAux m e n fuel (k + 1)

/-- The integers `(s, k, n)` of `Number::toString` for the positive value
`m * 2^e / unit`: `k` is the least number of digits for which a decimal
`s * 10^(n-k)` with `10^(k-1) ≤ s < 10^k` converts back to the value. -/
def shortest (m e : Nat) : Nat × Nat × Int :=
  let n := decimalExponent (m * 2 ^ e)
  match shortestAux m e n 1500 1 with
  | some (s, k) => if s = 10 ^ k then (10 ^ (k - 1), k, n + 1) else (s, k, n)
  | none => (0, 1, 0)

/-- The characters of `Number::toString` (radix 10) for the digits `s` of
length `k` and decimal exponent `n`. -/
def formatDecimal (s k : Nat) (n : Int) : List Char :=
  if -5 ≤ n ∧ n ≤ 21 then
    if (k : Int) ≤ n then digitsK k s ++ List.replicate (n.toNat - k) '0'
    else if 0 < n then
      digitsK n.toNat (s / 10 ^ (k - n.toNat)) ++ '.' :: digitsK (k - n.toNat) s
    else '0' :: '.' :: (List.replicate (-n).toNat '0' ++ digitsK k s)
  else
    let x := n - 1
    let sign := if 0 ≤ x then '+' else '-'
    let ex := digitsK (numDigits x.natAbs) x.natAbs
    if k = 1 then digitsK 1 s ++ 'e' :: sign :: ex
    else digitsK 1 (s / 10 ^ (k - 1)) ++ '.' :: (digitsK (k - 1) s ++ 'e' :: sign :: ex)

/-- The conversion `String(x)` of a Number (`Number::toString`, radix 10). -/
def toString : JSNumber → String
  | JSNumber.nan => "NaN"
  | JSNumber.inf false => "Infinity"
  | JSNumber.inf true => "-Infinity"
  | JSNumber.fin s m e =>
    if m = 0 then "0"
    else
      let skn := shortest m e
      String.mk ((if s then ['-'] else []) ++ formatDecimal skn.1 skn.2.1 skn.2.2)

/-! ## `parseFloat` -/

/-- The characters `parseFloat` skips at the start of its input (WhiteSpace
and LineTerminator code points). -/
def isWhiteSpace (c : Char) : Bool :=
  let n := c.toNat
  n = 9 || n = 10 || n = 11 || n = 12 || n = 13 || n = 32 || n = 160 || n = 5760
    || (8192 ≤ n && n ≤ 8202) || n = 8232 || n = 8233 || n = 8239 || n = 8287
    || n = 12288 || n = 65279

/-- A decimal digit character. -/
def isDigit (c : Char) : Bool := 48 ≤ c.toNat && c.toNat ≤ 57

/-- The natural number written by a list of decimal digit characters. -/
def digitsToNat (cs : List Char) : Nat :=
  cs.foldl (fun acc c => 10 * acc + (c.toNat - 48)) 0

/-- The exponent part of a decimal literal at the start of `cs`, when there is
one: `e` or `E`, an optional sign and at least one digit. -/
def parseExponent (cs : List Char) : Int :=
  match cs with
  | [] => 0
  | c :: rest =>
    if c = 'e' ∨ c = 'E' then
      match rest with
      | [] => 0
      | d :: rest2 =>
        if d = '+' then
          (if (rest2.takeWhile isDigit).isEmpty then 0
           else (digitsToNat (rest2.takeWhile isDigit) : Int))
        else if d = '-' then
          (if (rest2.takeWhile isDigit).isEmpty then 0
           else -(digitsToNat (rest2.takeWhile isDigit) : Int))
        else
          (if (rest.takeWhile isDigit).isEmpty then 0
           else (digitsToNat (rest.takeWhile isDigit) : Int))
    else 0

/-- The value of the longest prefix of `cs` that is an unsigned decimal
literal (`Infinity`, `digits[.digits][exp]` or `.digits[exp]`), with the
sign `neg`; `NaN` when no prefix is one. -/
def parseUnsigned (neg : Bool) (cs : List Char) : JSNumber :=
  if "Infinity".data <+: cs then JSNumber.inf neg
  else
    let ip := cs.takeWhile isDigit
    let rest := cs.dropWhile isDigit
    match rest with
    | '.' :: rest2 =>
      let fp := rest2.takeWhile isDigit
      if ip.isEmpty && fp.isEmpty then JSNumber.nan
      else
        let p : Int := parseExponent (rest2.dropWhile isDigit) - (fp.length : Int)
        let sc := scale10 (digitsToNat (ip ++ fp) * unit) 1 p
        mkNumber neg (roundScaled sc.1 sc.2)
    | _ =>
      if ip.isEmpty then JSNumber.nan
      else
        let sc := scale10 (digitsToNat ip * unit) 1 (parseExponent rest)
        mkNumber neg (roundScaled sc.1 sc.2)

/-- The function `parseFloat(string)`: leading white space is skipped and the
longest prefix that is a decimal literal is converted, rounded to the nearest
Number (ties to even) whatever the number of digits, as the engines do. -/
def parseFloat (str : String) : JSNumber :=
  match str.data.dropWhile isWhiteSpace with
  | '-' :: cs => parseUnsigned true cs
  | '+' :: cs => parseUnsigned false cs
  | cs => parseUnsigned false cs

/-! ## Strings

A string value is held by its characters.  The property `length` and the method
`slice` count UTF-16 code units, of which a character outside the Basic
Multilingual Plane has two. -/

/-- The property `str.length`: the number of UTF-16 code units of `str`. -/
def length (str : String) : Nat :=
  (str.data.map fun c => if c.toNat < 65536 then 1 else 2).sum

/-- The call `str.slice(0, -1)`: `str` without its last code unit.  When the
last character has two code units, the first of them, a high surrogate, stays
behind; it is no character by itself and is held as U+FFFD, the character that
`toWellFormed()` writes in its place and that has one code unit as well. -/
def sliceButLast (str : String) : String :=
  match str.data.getLast? with
  | none => ""
  | some c =>
    if c.toNat < 65536 then String.mk str.data.dropLast
    else String.mk (str.data.dropLast ++ [Char.ofNat 65533])

/-! ## Predicates used in the proofs -/

/-- The canonical form of a significand and biased exponent. -/
def Canon (m e : Nat) : Prop := m < 2 ^ 53 ∧ (2 ^ 52 ≤ m ∨ e = 0)

/-- The strict decimal upper bound `M / unit < 10^n`. -/
def Below (M : Nat) (n : Int) : Prop :=
  if 0 ≤ n then M < unit * 10 ^ n.toNat else M * 10 ^ (-n).toNat < unit

/-- A tail that ends the digits of a literal: nothing, or an exponent mark. -/
def ExpTail (tail : List Char) : Prop := tail = [] ∨ ∃ r, tail = 'e' :: r

/-- The values the arithmetic produces: `NaN`, the infinities and the finite
values in canonical form. -/
def Canonical : JSNumber → Prop
  | JSNumber.nan => True
  | JSNumber.inf _ => True
  | JSNumber.fin _ m e => Canon m e ∧ e ≤ 2045

/-- Equal, or both a zero (of either sign). -/
def ZeroLike (x y : JSNumber) : Prop :=
  x = y ∨ ∃ s t, x = JSNumber.fin s 0 0 ∧ y = JSNumber.fin t 0 0

end JS

/-! ## The calculator widget

The state of a `BasicCalculator` instance: its four own fields and the
properties of the DOM elements it writes to (`display.value`,
`exprSpan.textContent`, `resultSpan.textContent`, `resultBox.style.display`).
The length of a string is its number of UTF-16 code units (`JS.length`). -/

/-- The fields of a `BasicCalculator` and the DOM properties it writes. -/
structure BasicCalculator where
  currentInput : String
  operator : Option String
  previousValue : Option JS.JSNumber
  shouldResetDisplay : Bool
  display : String
  exprSpan : String
  resultSpan : String
  resultBox : String
  deriving DecidableEq, Repr

namespace BasicCalculator

open JS

/-- The state after the constructor has run.  The four DOM properties are
those of the page and are not written by the constructor. -/
def constructor (display exprSpan resultSpan resultBox : String) : BasicCalculator :=
  { currentInput := "0"
    operator := none
    previousValue := none
    shouldResetDisplay := false
    display := display
    exprSpan := exprSpan
    resultSpan := resultSpan
    resultBox := resultBox }

/-- The glyph shown for an operator: the nested conditional
`op === "*" ? "×" : op === "/" ? "÷" : op === "-" ? "−" : op`. -/
def operatorSymbol (op : String) : String :=
  if op = "*" then "×" else if op = "/" then "÷" else if op = "-" then "−" else op

/-- The text of `this.previousValue` inside a template literal. -/
def templateValue : Option JSNumber → String
  | none => "null"
  | some x => JS.toString x

/-- The numeric value of `this.previousValue` as an operand (`null` counts as
`+0`). -/
def toNumber : Option JSNumber → JSNumber
  | none => JSNumber.fin false 0 0
  | some x => x

/-- Whether `this.operator` is truthy: neither `null` nor the empty string. -/
def truthy : Option String → Bool
  | none => false
  | some op => op != ""

/-- The method `updateDisplay()`. -/
def updateDisplay (s : BasicCalculator) : BasicCalculator :=
  match s.operator with
  | some op =>
    if truthy (some op) ∧ s.previousValue ≠ none ∧ s.shouldResetDisplay = false then
      { s with display :=
          templateValue s.previousValue ++ " " ++ operatorSymbol op ++ " " ++ s.currentInput }
    else if truthy (some op) ∧ s.previousValue ≠ none then
      { s with display := templateValue s.previousValue ++ " " ++ operatorSymbol op }
    else { s with display := s.currentInput }
  | none => { s with display := s.currentInput }

/-- The method `showResult(expr, result)`. -/
def showResult (expr : String) (result : JSNumber) (s : BasicCalculator) : BasicCalculator :=
  { s with exprSpan := expr, resultSpan := JS.toString result, resultBox := "block" }

/-- The method `onNumberClick(num)`. -/
def onNumberClick (num : String) (s : BasicCalculator) : BasicCalculator :=
  updateDisplay
    (if s.shouldResetDisplay then
      { s with currentInput := if num = "." then "0." else num, shouldResetDisplay := false }
    else if num = "." then
      (if '.' ∈ s.currentInput.data then s
       else { s with currentInput := s.currentInput ++ num })
    else
      { s with currentInput := if s.currentInput = "0" then num else s.currentInput ++ num })

/-- The `switch (this.operator)` of `calculate()`: the raw result for the five
operators, nothing for any other string (the `default: return` case). -/
def switchOperator (op : String) (previousValue currentValue : JSNumber) : Option JSNumber :=
  if op = "+" then some (add previousValue currentValue)
  else if op = "-" then some (sub previousValue currentValue)
  else if op = "*" then some (mul previousValue currentValue)
  else if op = "/" then
    some (if strictNeZero currentValue then div previousValue currentValue
          else JSNumber.fin false 0 0)
  else if op = "%" then some (mod previousValue currentValue)
  else none

/-- The method `calculate()`. -/
def calculate (s : BasicCalculator) : BasicCalculator :=
  match s.operator with
  | none => s
  | some op =>
    let currentValue := parseFloat s.currentInput
    let expr :=
      templateValue s.previousValue ++ " " ++ operatorSymbol op ++ " " ++ JS.toString currentValue
    match switchOperator op (toNumber s.previousValue) currentValue with
    | none => s
    | some raw =>
      let result := div (mathRound (mul raw (JS.ofNat 100000000))) (JS.ofNat 100000000)
      showResult expr result
        { s with
          currentInput := JS.toString result
          operator := none
          shouldResetDisplay := true
          display := JS.toString result }

/-- The method `onOperatorClick(op)`. -/
def onOperatorClick (op : String) (s : BasicCalculator) : BasicCalculator :=
  let s1 := if s.operator ≠ none ∧ s.shouldResetDisplay = false then calculate s else s
  { s1 with
    previousValue := some (parseFloat s1.currentInput)
    operator := some op
    shouldResetDisplay := true }

/-- The method `clearAll()`. -/
def clearAll (s : BasicCalculator) : BasicCalculator :=
  updateDisplay
    { s with
      currentInput := "0"
      operator := none
      previousValue := none
      shouldResetDisplay := false
      resultBox := "none" }

/-- The method `delete()`. -/
def delete (s : BasicCalculator) : BasicCalculator :=
  updateDisplay
    (if JS.length s.currentInput > 1 then
      { s with currentInput := sliceButLast s.currentInput }
    else { s with currentInput := "0" })

/-- The tokens of the number buttons: a digit or the decimal point. -/
def numberTokens : List String := ["0", "1", "2", "3", "4", "5", "6", "7", "8", "9", "."]

/-- The tokens of the digit buttons. -/
def digitTokens : List String := ["0", "1", "2", "3", "4", "5", "6", "7", "8", "9"]

/-- The tokens of the operator buttons. -/
def operatorTokens : List String := ["+", "-", "*", "/", "%"]

/-- Press a sequence of number buttons, one after the other. -/
def enter (tokens : List String) (s : BasicCalculator) : BasicCalculator :=
  tokens.foldl (fun st t => onNumberClick t st) s

/-- The states the widget can be in: the state left by the constructor and
every state one of the five transitions leads to from such a state, the
buttons carrying tokens of the constrained alphabet. -/
inductive Reachable : BasicCalculator → Prop where
  | init (display exprSpan resultSpan resultBox : String) :
      Reachable (constructor display exprSpan resultSpan resultBox)
  | number {s : BasicCalculator} (t : String) :
      Reachable s → t ∈ numberTokens → Reachable (onNumberClick t s)
  | operator {s : BasicCalculator} (op : String) :
      Reachable s → op ∈ operatorTokens → Reachable (onOperatorClick op s)
  | equals {s : BasicCalculator} : Reachable s → Reachable (calculate s)
  | clear {s : BasicCalculator} : Reachable s → Reachable (clearAll s)
  | backspace {s : BasicCalculator} : Reachable s → Reachable (delete s)

/-- The rounding `round8(x) = Math.round(x * 10^8) / 10^8` of the
specification. -/
def round8 (x : JSNumber) : JSNumber :=
  div (mathRound (mul x (JS.ofNat 100000000))) (JS.ofNat 100000000)

/-- The plain JavaScript operator `a op b` for the five operator tokens, as the
specification writes it (`/` being the plain quotient). -/
def jsOperator (op : String) (a b : JSNumber) : JSNumber :=
  if op = "+" then add a b
  else if op = "-" then sub a b
  else if op = "*" then mul a b
  else if op = "/" then div a b
  else mod a b

/-- The buffer a fresh calculator holds after the number buttons `tokens` were
pressed. -/
def typed (tokens : List String) : String :=
  (enter tokens (constructor "" "" "" "")).currentInput

/-- The buffer after a number button: a function of the old buffer and the
reset flag alone. -/
def nextInput (t cur : String) (reset : Bool) : String :=
  if reset then (if t = "." then "0." else t)
  else if t = "." then (if '.' ∈ cur.data then cur else cur ++ t)
  else (if cur = "0" then t else cur ++ t)

/-- The calculator's operation for an operator token: the plain operator,
except that a division by a zero right operand gives `0`. -/
def zeroDivide (op : String) (a b : JSNumber) : JSNumber :=
  if op = "/" ∧ strictNeZero b = false then JSNumber.fin false 0 0 else jsOperator op a b

end BasicCalculator

/-! ## Further predicates and the rounding of the specification -/

namespace JS

/-- A buffer that starts with a character other than the decimal point and
holds at most one decimal point. -/
def GoodBuffer (cs : List Char) : Prop :=
  (∃ c r, cs = c :: r ∧ c ≠ '.') ∧ cs.count '.' ≤ 1

end JS

/-! ## `AuthManager.validateRegistration` (auth.js) -/

namespace AuthManager

/-- The fields of `userData` that `validateRegistration` reads. -/
structure UserData where
  password : String
  confirmPassword : String
  email : String
  deriving DecidableEq, Repr

/-- The `length` of a JavaScript string: its number of UTF-16 code units. -/
def jsLength (s : String) : Nat :=
  (s.data.map fun c => if c.toNat < 65536 then 1 else 2).sum

/-- The test `/\d/.test(s)`: some character is one of `0`-`9`. -/
def hasDigit (s : String) : Bool :=
  s.data.any fun c => 48 ≤ c.toNat && c.toNat ≤ 57

/-- The test `/[a-zA-Z]/.test(s)`: some character is an ASCII letter. -/
def hasLetter (s : String) : Bool :=
  s.data.any fun c => (97 ≤ c.toNat && c.toNat ≤ 122) || (65 ≤ c.toNat && c.toNat ≤ 90)

/-- The method `validateRegistration(userData)`: the list `errors` after the
five checks, each pushing its message. -/
def validateRegistration (userData : UserData) : List String :=
  let errors : List String := []
  let errors :=
    if jsLength userData.password < 8 then
      errors ++ ["Password must be at least 8 characters long"]
    else errors
  let errors :=
    if !hasDigit userData.password then
      errors ++ ["Password must contain at least one number"]
    else errors
  let errors :=
    if !hasLetter userData.password then
      errors ++ ["Password must contain at least one letter"]
    else errors
  let errors :=
    if userData.password ≠ userData.confirmPassword then
      errors ++ ["Passwords do not match"]
    else errors
  let errors :=
    if !('@' ∈ userData.email.data) then
      errors ++ ["Please enter a valid email address"]
    else errors
  errors

/-- The five rules as the specification lists them, in their fixed order
(length, digit, letter, match, email): whether the rule is violated, and its
message. -/
def registrationRules (u : UserData) : List (Bool × String) :=
  [ (decide (jsLength u.password < 8), "Password must be at least 8 characters long"),
    (!hasDigit u.password, "Password must contain at least one number"),
    (!hasLetter u.password, "Password must contain at least one letter"),
    (decide (u.password ≠ u.confirmPassword), "Passwords do not match"),
    (decide ('@' ∉ u.email.data), "Please enter a valid email address") ]

/-- The messages of the violated rules, in the order of the rules. -/
def violatedMessages (u : UserData) : List String :=
  ((registrationRules u).filter fun r => r.1).map fun r => r.2

end AuthManager

/-! ## `Calculator.displayResult` (calculator.js) -/

namespace Calculator

/-- The JavaScript values a response field can hold here. -/
inductive JSValue where
  | undefined : JSValue
  | null : JSValue
  | number (x : JS.JSNumber) : JSValue
  | string (s : String) : JSValue
  deriving DecidableEq, Repr

/-- Truthiness: `undefined`, `null`, `±0`, `NaN` and `""` are falsy. -/
def JSValue.truthy : JSValue → Bool
  | JSValue.undefined => false
  | JSValue.null => false
  | JSValue.number JS.JSNumber.nan => false
  | JSValue.number (JS.JSNumber.inf _) => true
  | JSValue.number (JS.JSNumber.fin _ m _) => m != 0
  | JSValue.string s => s != ""

/-- The operator `a || b`. -/
def JSValue.or (a b : JSValue) : JSValue := if a.truthy then a else b

/-- The text an element shows after `textContent = value`. -/
def JSValue.text : JSValue → String
  | JSValue.undefined => ""
  | JSValue.null => ""
  | JSValue.number x => JS.toString x
  | JSValue.string s => s

/-- The fields of a server response that `displayResult` reads; an absent
field reads as `undefined`. -/
structure ResponseData where
  result : JSValue
  converted_value : JSValue
  expression : JSValue
  deriving DecidableEq, Repr

/-- What the three result elements show: the text of `resultExpression` and
`resultValue`, and `resultContainer.style.display`. -/
structure ResultElements where
  resultExpression : String
  resultValue : String
  resultContainer : String
  deriving DecidableEq, Repr

/-- The method `displayResult(data)`; `none` stands for a page on which one of
the three elements is missing, where the method does nothing. -/
def displayResult (data : ResponseData) : Option ResultElements → Option ResultElements
  | none => none
  | some _ =>
    some
      { resultExpression := (data.expression.or (JSValue.string "Result")).text
        resultValue :=
          ((data.result.or data.converted_value).or (JSValue.string "N/A")).text
        resultContainer := "block" }

end Calculator

namespace JS

/-- The test `isFinite(x)`: neither `NaN` nor an infinity. -/
def isFinite : JSNumber → Bool
  | JSNumber.fin _ _ _ => true
  | _ => false

/-- A digit string with an optional decimal point after at least one digit:
`digits`, `digits.` or `digits.digits`. -/
def DigitBuffer (cs : List Char) : Prop :=
  ∃ ip rest, cs = ip ++ rest ∧ ip ≠ [] ∧ (∀ c ∈ ip, isDigit c = true)
    ∧ (rest = [] ∨ ∃ fp, rest = '.' :: fp ∧ ∀ c ∈ fp, isDigit c = true)

end JS

namespace BasicCalculator

/-- The states in which an operand is being typed on a calculator that has not
computed anything yet: the state left by the constructor and the states
reached from it by the number buttons, `clearAll()` and `delete()`. -/
inductive Typing : BasicCalculator → Prop where
  | init (display exprSpan resultSpan resultBox : String) :
      Typing (constructor display exprSpan resultSpan resultBox)
  | number {s : BasicCalculator} (t : String) :
      Typing s → t ∈ numberTokens → Typing (onNumberClick t s)
  | clear {s : BasicCalculator} : Typing s → Typing (clearAll s)
  | backspace {s : BasicCalculator} : Typing s → Typing (delete s)

end BasicCalculator

namespace JS

/-- The rounding the specification describes, on exact values: the multiple
of `10^-8` nearest to `x`, a value exactly halfway between two multiples going
to the one of larger magnitude (half away from zero); the result is the Number
nearest to that multiple. -/
def roundHalfAwayFromZero8 : JSNumber → JSNumber
  | JSNumber.nan => JSNumber.nan
  | JSNumber.inf s => JSNumber.inf s
  | JSNumber.fin s m e =>
    ofRatio s ((2 * (m * 2 ^ e * 10 ^ 8) + unit) / (2 * unit)) (10 ^ 8)

/-- The number of characters after the decimal point of a numeral, up to its
exponent mark or its end (`0` when there is no decimal point). -/
def fractionDigits (str : String) : Nat :=
  (((str.data.dropWhile fun c => c != '.').drop 1).takeWhile fun c => c != 'e').length

end JS

/-! ## Binary64 rounding, `String(number)` and `parseFloat` -/

namespace JS

theorem log2Aux_spec (fuel n : Nat) (hf : n ≤ fuel) (hn : n ≠ 0) :
    2 ^ log2Aux fuel n ≤ n ∧ n < 2 ^ (log2Aux fuel n + 1) := by
  induction fuel generalizing n with
  | zero => omega
  | succ fuel ih =>
    unfold log2Aux
    split_ifs with h
    · constructor <;> simp <;> omega
    · have := ih (n / 2) (by omega) (by omega)
      rw [pow_succ, pow_succ]
      constructor <;> omega

theorem log2_spec (n : Nat) (hn : n ≠ 0) : 2 ^ log2 n ≤ n ∧ n < 2 ^ (log2 n + 1) :=
  log2Aux_spec n n le_rfl hn

theorem log2_unique (n k : Nat) (h1 : 2 ^ k ≤ n) (h2 : n < 2 ^ (k + 1)) : log2 n = k := by
  have hn : n ≠ 0 := by
    have : 0 < 2 ^ k := Nat.pow_pos (by norm_num)
    omega
  obtain ⟨h3, h4⟩ := log2_spec n hn
  have a : log2 n < k + 1 := by
    by_contra hc
    have : 2 ^ (k + 1) ≤ 2 ^ log2 n := Nat.pow_le_pow_right (by norm_num) (by omega)
    omega
  have b : k < log2 n + 1 := by
    by_contra hc
    have : 2 ^ (log2 n + 1) ≤ 2 ^ k := Nat.pow_le_pow_right (by norm_num) (by omega)
    omega
  omega

theorem log2_zero : log2 0 = 0 := rfl

theorem log2_lt_of_lt (n k : Nat) (h : n < 2 ^ (k + 1)) : log2 n ≤ k := by
  by_cases hn : n = 0
  · subst hn; simp [log2_zero]
  · obtain ⟨h3, _⟩ := log2_spec n hn
    by_contra hc
    have : 2 ^ (k + 1) ≤ 2 ^ log2 n := Nat.pow_le_pow_right (by norm_num) (by omega)
    omega

theorem roundHalfEven_scale (N D c : Nat) (hc : 0 < c) :
    roundHalfEven (N * c) (D * c) = roundHalfEven N D := by
  unfold roundHalfEven
  simp only [Nat.mul_div_mul_right _ _ hc, Nat.mul_mod_mul_right]
  have e1 : (2 * (N % D * c) < D * c) ↔ (2 * (N % D) < D) := by
    rw [← Nat.mul_assoc]; exact Nat.mul_lt_mul_right hc
  have e2 : (D * c < 2 * (N % D * c)) ↔ (D < 2 * (N % D)) := by
    rw [← Nat.mul_assoc]; exact Nat.mul_lt_mul_right hc
  simp only [e1, e2]

theorem roundScaled_scale (N D c : Nat) (hc : 0 < c) :
    roundScaled (N * c) (D * c) = roundScaled N D := by
  unfold roundScaled
  simp only [Nat.mul_div_mul_right _ _ hc]
  have : D * c * 2 ^ (log2 (N / D) - 52) = D * 2 ^ (log2 (N / D) - 52) * c := by ring
  rw [this, roundHalfEven_scale _ _ _ hc]

theorem roundHalfEven_exact (m D : Nat) (hD : 0 < D) : roundHalfEven (m * D) D = m := by
  unfold roundHalfEven
  simp [Nat.mul_div_cancel _ hD, hD]

theorem roundScaled_exact (m e : Nat) (h : Canon m e) : roundScaled (m * 2 ^ e) 1 = (m, e) := by
  obtain ⟨h1, h2⟩ := h
  have he : log2 (m * 2 ^ e / 1) - 52 = e := by
    rw [Nat.div_one]
    rcases h2 with h2 | h2
    · have : log2 (m * 2 ^ e) = 52 + e := by
        apply log2_unique
        · rw [pow_add]; exact Nat.mul_le_mul_right _ h2
        · rw [show 52 + e + 1 = 53 + e by ring, pow_add]
          exact Nat.mul_lt_mul_of_pos_right h1 (Nat.pow_pos (by norm_num))
      omega
    · subst h2
      have := log2_lt_of_lt (m * 2 ^ 0) 52 (by simpa using h1)
      omega
  unfold roundScaled
  simp only [he, one_mul]
  rw [roundHalfEven_exact m (2 ^ e) (Nat.pow_pos (by norm_num))]
  have h53 : m ≠ 2 ^ 53 := Nat.ne_of_lt h1
  rw [if_neg h53]

theorem roundHalfEven_bounds (N D : Nat) :
    N / D ≤ roundHalfEven N D ∧ roundHalfEven N D ≤ N / D + 1 := by
  unfold roundHalfEven
  simp only []
  split_ifs <;> omega

theorem roundScaled_canon (N D : Nat) :
    Canon (roundScaled N D).1 (roundScaled N D).2 := by
  unfold roundScaled
  simp only []
  set q := N / D with hq
  set e := log2 q - 52 with he
  have hb := roundHalfEven_bounds N (D * 2 ^ e)
  have hdiv : N / (D * 2 ^ e) = q / 2 ^ e := by rw [hq, Nat.div_div_eq_div_mul]
  rw [hdiv] at hb
  have h2e : 0 < 2 ^ e := Nat.pow_pos (by norm_num)
  have hq53 : q / 2 ^ e < 2 ^ 53 := by
    by_cases hq0 : q = 0
    · rw [hq0]; simp
    · obtain ⟨_, h4⟩ := log2_spec q hq0
      apply Nat.div_lt_of_lt_mul
      rw [← pow_add]
      refine lt_of_lt_of_le h4 (Nat.pow_le_pow_right (by norm_num) (by omega))
  have hlow : e ≠ 0 → 2 ^ 52 ≤ q / 2 ^ e := by
    intro hne
    have hq0 : q ≠ 0 := by
      intro h0; rw [h0, log2_zero] at he; omega
    obtain ⟨h3, _⟩ := log2_spec q hq0
    rw [Nat.le_div_iff_mul_le h2e, ← pow_add]
    refine le_trans (Nat.pow_le_pow_right (by norm_num) (by omega)) h3
  split_ifs with hm
  · exact ⟨by norm_num, Or.inl le_rfl⟩
  · refine ⟨by omega, ?_⟩
    by_cases he0 : e = 0
    · exact Or.inr he0
    · exact Or.inl (le_trans (hlow he0) hb.1)



theorem unit_eq : unit = 2 ^ 1074 := by unfold unit; rfl

theorem unit_pos : 0 < unit := by rw [unit_eq]; exact Nat.pow_pos (by norm_num)

theorem scale10_nonneg (N D : Nat) (p : Int) (h : 0 ≤ p) :
    scale10 N D p = (N * 10 ^ p.toNat, D) := by
  cases p with
  | ofNat j => rfl
  | negSucc j => exact absurd h (by simp [Int.negSucc_lt_zero])

theorem scale10_neg (N D : Nat) (p : Int) (h : p < 0) :
    scale10 N D p = (N, D * 10 ^ (-p).toNat) := by
  cases p with
  | ofNat j => exact absurd h (by simp)
  | negSucc j => rfl

theorem numDigitsAux_spec (fuel v k : Nat) (h : v < 10 ^ (k + fuel)) :
    v < 10 ^ numDigitsAux fuel v k ∧ k ≤ numDigitsAux fuel v k
      ∧ numDigitsAux fuel v k ≤ k + fuel := by
  induction fuel generalizing k with
  | zero => exact ⟨by simpa [numDigitsAux] using h, by simp [numDigitsAux], by simp [numDigitsAux]⟩
  | succ fuel ih =>
    unfold numDigitsAux
    split_ifs with hv
    · exact ⟨hv, le_rfl, by omega⟩
    · have := ih (k + 1) (by rw [show k + 1 + fuel = k + (fuel + 1) by ring]; exact h)
      exact ⟨this.1, by omega, by omega⟩

theorem numDigits_spec (v : Nat) (h : v < 10 ^ 400) :
    v < 10 ^ numDigits v ∧ 1 ≤ numDigits v ∧ numDigits v ≤ 401 := by
  have := numDigitsAux_spec 400 v 1 (lt_of_lt_of_le h (Nat.pow_le_pow_right (by norm_num) (by norm_num)))
  unfold numDigits
  exact ⟨this.1, this.2.1, by have := this.2.2; omega⟩

theorem leadingZeros_spec (fuel M j : Nat) (h : M * 10 ^ j < unit) :
    M * 10 ^ leadingZeros fuel M j < unit ∧ j ≤ leadingZeros fuel M j
      ∧ leadingZeros fuel M j ≤ j + fuel := by
  induction fuel generalizing j with
  | zero => exact ⟨by simpa [leadingZeros] using h, by simp [leadingZeros], by simp [leadingZeros]⟩
  | succ fuel ih =>
    unfold leadingZeros
    split_ifs with hv
    · exact ⟨h, le_rfl, by omega⟩
    · have := ih (j + 1) (by omega)
      exact ⟨this.1, by omega, by omega⟩

theorem decimalExponent_spec (M : Nat) (hM : M < unit * 10 ^ 400) :
    Below M (decimalExponent M) ∧ -400 ≤ decimalExponent M ∧ decimalExponent M ≤ 401 := by
  unfold decimalExponent
  split_ifs with h
  · have hq : M / unit < 10 ^ 400 := Nat.div_lt_of_lt_mul hM
    obtain ⟨h1, h2, h3⟩ := numDigits_spec (M / unit) hq
    refine ⟨?_, by omega, by omega⟩
    unfold Below
    rw [if_pos (by omega)]
    simp only [Int.toNat_ofNat]
    rw [Nat.div_lt_iff_lt_mul unit_pos] at h1
    rw [Nat.mul_comm]; exact h1
  · obtain ⟨h1, h2, h3⟩ := leadingZeros_spec 400 M 0 (by simpa using h)
    refine ⟨?_, by omega, by omega⟩
    unfold Below
    by_cases hz : leadingZeros 400 M 0 = 0
    · rw [hz]; simp; omega
    · rw [if_neg (by omega)]
      simpa using h1

theorem scaled_lt (M : Nat) (n : Int) (k : Nat) (h : Below M n) :
    (scale10 M unit ((k : Int) - n)).1 / (scale10 M unit ((k : Int) - n)).2 < 10 ^ k := by
  unfold Below at h
  split_ifs at h with hn
  · by_cases hp : 0 ≤ (k : Int) - n
    · rw [scale10_nonneg _ _ _ hp]
      simp only []
      apply Nat.div_lt_of_lt_mul
      have hk : k = n.toNat + ((k : Int) - n).toNat := by omega
      calc M * 10 ^ ((k : Int) - n).toNat
          < unit * 10 ^ n.toNat * 10 ^ ((k : Int) - n).toNat :=
            Nat.mul_lt_mul_of_pos_right h (Nat.pow_pos (by norm_num))
        _ = unit * 10 ^ k := by rw [Nat.mul_assoc, ← pow_add, ← hk]
    · have hp' : (k : Int) - n < 0 := by omega
      rw [scale10_neg _ _ _ hp']
      simp only []
      apply Nat.div_lt_of_lt_mul
      have hk : n.toNat = (-((k : Int) - n)).toNat + k := by omega
      rw [Nat.mul_assoc, ← pow_add, ← hk]
      exact h
  · have hp : 0 ≤ (k : Int) - n := by omega
    rw [scale10_nonneg _ _ _ hp]
    simp only []
    apply Nat.div_lt_of_lt_mul
    have hk : ((k : Int) - n).toNat = (-n).toNat + k := by omega
    rw [hk, pow_add, ← Nat.mul_assoc]
    exact Nat.mul_lt_mul_of_pos_right h (Nat.pow_pos (by norm_num))




theorem shortestAux_succ (m e : Nat) (n : Int) (fuel k : Nat) :
    shortestAux m e n (fuel + 1) k =
      (match candidate m e n k with
      | some s => some (s, k)
      | none => shortestAux m e n fuel (k + 1)) := rfl

theorem shortestAux_spec (m e : Nat) (n : Int) (fuel k k0 : Nat)
    (h1 : k ≤ k0) (h2 : k0 < k + fuel) (h3 : candidate m e n k0 ≠ none) :
    ∃ s k1, shortestAux m e n fuel k = some (s, k1) ∧ candidate m e n k1 = some s
      ∧ k ≤ k1 := by
  induction fuel generalizing k with
  | zero => omega
  | succ fuel ih =>
    rw [shortestAux_succ]
    cases hc : candidate m e n k with
    | some s =>
      exact ⟨s, k, rfl, hc, le_rfl⟩
    | none =>
      have hk : k ≠ k0 := by
        intro hk; rw [hk] at hc; exact h3 hc
      obtain ⟨s, k1, a, b, c⟩ := ih (k + 1) (by omega) (by omega)
      exact ⟨s, k1, a, b, by omega⟩



theorem candidate_def (m e : Nat) (n : Int) (k : Nat) :
    candidate m e n k =
      (if (roundTrips m e ((scale10 (m * 2 ^ e) unit ((k : Int) - n)).1
              / (scale10 (m * 2 ^ e) unit ((k : Int) - n)).2) ((k : Int) - n)
          && roundTrips m e ((scale10 (m * 2 ^ e) unit ((k : Int) - n)).1
              / (scale10 (m * 2 ^ e) unit ((k : Int) - n)).2 + 1) ((k : Int) - n)) = true then
        (if 2 * ((scale10 (m * 2 ^ e) unit ((k : Int) - n)).1
              % (scale10 (m * 2 ^ e) unit ((k : Int) - n)).2)
            < (scale10 (m * 2 ^ e) unit ((k : Int) - n)).2 then
          some ((scale10 (m * 2 ^ e) unit ((k : Int) - n)).1
              / (scale10 (m * 2 ^ e) unit ((k : Int) - n)).2)
        else if (scale10 (m * 2 ^ e) unit ((k : Int) - n)).2
            < 2 * ((scale10 (m * 2 ^ e) unit ((k : Int) - n)).1
              % (scale10 (m * 2 ^ e) unit ((k : Int) - n)).2) then
          some ((scale10 (m * 2 ^ e) unit ((k : Int) - n)).1
              / (scale10 (m * 2 ^ e) unit ((k : Int) - n)).2 + 1)
        else if ((scale10 (m * 2 ^ e) unit ((k : Int) - n)).1
              / (scale10 (m * 2 ^ e) unit ((k : Int) - n)).2) % 2 = 0 then
          some ((scale10 (m * 2 ^ e) unit ((k : Int) - n)).1
              / (scale10 (m * 2 ^ e) unit ((k : Int) - n)).2)
        else some ((scale10 (m * 2 ^ e) unit ((k : Int) - n)).1
              / (scale10 (m * 2 ^ e) unit ((k : Int) - n)).2 + 1))
      else if roundTrips m e ((scale10 (m * 2 ^ e) unit ((k : Int) - n)).1
              / (scale10 (m * 2 ^ e) unit ((k : Int) - n)).2) ((k : Int) - n) = true then
        some ((scale10 (m * 2 ^ e) unit ((k : Int) - n)).1
              / (scale10 (m * 2 ^ e) unit ((k : Int) - n)).2)
      else if roundTrips m e ((scale10 (m * 2 ^ e) unit ((k : Int) - n)).1
              / (scale10 (m * 2 ^ e) unit ((k : Int) - n)).2 + 1) ((k : Int) - n) = true then
        some ((scale10 (m * 2 ^ e) unit ((k : Int) - n)).1
              / (scale10 (m * 2 ^ e) unit ((k : Int) - n)).2 + 1)
      else none) := rfl

theorem candidate_some (m e : Nat) (n : Int) (k s : Nat) (h : candidate m e n k = some s) :
    roundTrips m e s ((k : Int) - n) = true
      ∧ s ≤ (scale10 (m * 2 ^ e) unit ((k : Int) - n)).1
            / (scale10 (m * 2 ^ e) unit ((k : Int) - n)).2 + 1 := by
  rw [candidate_def] at h
  generalize (scale10 (m * 2 ^ e) unit ((k : Int) - n)).1
            / (scale10 (m * 2 ^ e) unit ((k : Int) - n)).2 = lo at h ⊢
  generalize (2 * ((scale10 (m * 2 ^ e) unit ((k : Int) - n)).1
              % (scale10 (m * 2 ^ e) unit ((k : Int) - n)).2)) = r2 at h
  generalize (scale10 (m * 2 ^ e) unit ((k : Int) - n)).2 = dd at h
  generalize hp : ((k : Int) - n) = p at h ⊢
  generalize hA : roundTrips m e lo p = A at h
  generalize hB : roundTrips m e (lo + 1) p = B at h
  have hS : ∀ t : Nat, some t = some s → t = s := fun t ht => Option.some.inj ht
  cases A <;> cases B <;>
    simp only [Bool.and_self, Bool.and_true, Bool.and_false, Bool.false_eq_true,
      if_false, if_true] at h
  · exact absurd h (by simp)
  · rw [← hS _ h]; exact ⟨hB, le_rfl⟩
  · rw [← hS _ h]; exact ⟨hA, Nat.le_succ _⟩
  · by_cases c1 : r2 < dd
    · rw [if_pos c1] at h; rw [← hS _ h]; exact ⟨hA, Nat.le_succ _⟩
    · rw [if_neg c1] at h
      by_cases c2 : dd < r2
      · rw [if_pos c2] at h; rw [← hS _ h]; exact ⟨hB, le_rfl⟩
      · rw [if_neg c2] at h
        by_cases c3 : lo % 2 = 0
        · rw [if_pos c3] at h; rw [← hS _ h]; exact ⟨hA, Nat.le_succ _⟩
        · rw [if_neg c3] at h; rw [← hS _ h]; exact ⟨hB, le_rfl⟩

theorem candidate_of_roundTrips (m e : Nat) (n : Int) (k : Nat)
    (h : roundTrips m e ((scale10 (m * 2 ^ e) unit ((k : Int) - n)).1
            / (scale10 (m * 2 ^ e) unit ((k : Int) - n)).2) ((k : Int) - n) = true) :
    candidate m e n k ≠ none := by
  rw [candidate_def, h]
  simp only [Bool.true_and]
  split_ifs <;> exact Option.some_ne_none _



theorem roundTrips_iff (m e s : Nat) (p : Int) :
    roundTrips m e s p = true ↔
      roundScaled (scale10 (s * unit) 1 (-p)).1 (scale10 (s * unit) 1 (-p)).2 = (m, e) := by
  unfold roundTrips
  simp only [decide_eq_true_eq]

theorem ten_pow_unit : 10 ^ 1074 = 5 ^ 1074 * unit := by
  rw [unit_eq, ← Nat.mul_pow]

theorem two_pow_lt_ten_pow : (2 : Nat) ^ 1024 < 10 ^ 400 := by decide!

theorem canon_lt (m e : Nat) (hc : Canon m e) (he : e ≤ 2045) :
    m * 2 ^ e < unit * 10 ^ 400 := by
  have h1 : m * 2 ^ e < 2 ^ 53 * 2 ^ e :=
    Nat.mul_lt_mul_of_pos_right hc.1 (Nat.pow_pos (by norm_num))
  have h2 : 2 ^ 53 * 2 ^ e ≤ 2 ^ 2098 := by
    rw [← pow_add]; exact Nat.pow_le_pow_right (by norm_num) (by omega)
  have h3 : (2 : Nat) ^ 2098 = unit * 2 ^ 1024 := by rw [unit_eq, ← pow_add]
  have h4 : unit * 2 ^ 1024 < unit * 10 ^ 400 :=
    Nat.mul_lt_mul_of_pos_left two_pow_lt_ten_pow unit_pos
  omega

theorem roundScaled_shift (N : Nat) (p : Int) :
    roundScaled (scale10 (N * 10) 1 p).1 (scale10 (N * 10) 1 p).2
      = roundScaled (scale10 N 1 (p + 1)).1 (scale10 N 1 (p + 1)).2 := by
  by_cases hp : 0 ≤ p
  · have hp1 : 0 ≤ p + 1 := by omega
    rw [scale10_nonneg _ _ _ hp, scale10_nonneg _ _ _ hp1]
    have : (p + 1).toNat = p.toNat + 1 := by omega
    simp only [this, pow_succ]
    congr 1
    ring
  · have hp' : p < 0 := by omega
    rw [scale10_neg _ _ _ hp']
    by_cases hq : p + 1 < 0
    · rw [scale10_neg _ _ _ hq]
      have : (-p).toNat = (-(p + 1)).toNat + 1 := by omega
      simp only [this, pow_succ, one_mul]
      exact roundScaled_scale N _ 10 (by norm_num)
    · have hq0 : 0 ≤ p + 1 := by omega
      rw [scale10_nonneg _ _ _ hq0]
      have h1 : (-p).toNat = 1 := by omega
      have h2 : (p + 1).toNat = 0 := by omega
      simp only [h1, h2, pow_one, pow_zero, one_mul, mul_one]
      have := roundScaled_scale N 1 10 (by norm_num)
      simpa using this

theorem candidate_exact (m e : Nat) (n : Int) (hc : Canon m e) (k : Nat)
    (hk : (k : Int) - n = 1074) : candidate m e n k ≠ none := by
  apply candidate_of_roundTrips
  rw [hk, roundTrips_iff]
  have h1 : scale10 (m * 2 ^ e) unit 1074 = (m * 2 ^ e * 10 ^ 1074, unit) := by
    have := scale10_nonneg (m * 2 ^ e) unit 1074 (by norm_num)
    rw [show (1074 : Int).toNat = 1074 from rfl] at this
    exact this
  rw [h1]
  simp only []
  have h2 : m * 2 ^ e * 10 ^ 1074 / unit = m * 2 ^ e * 5 ^ 1074 := by
    rw [ten_pow_unit, ← Nat.mul_assoc]
    exact Nat.mul_div_cancel _ unit_pos
  rw [h2]
  have h3 : scale10 (m * 2 ^ e * 5 ^ 1074 * unit) 1 (-1074)
      = (m * 2 ^ e * 5 ^ 1074 * unit, 1 * 10 ^ 1074) := by
    have := scale10_neg (m * 2 ^ e * 5 ^ 1074 * unit) 1 (-1074) (by norm_num)
    rw [show (-(-1074 : Int)).toNat = 1074 from rfl] at this
    exact this
  rw [h3]
  simp only []
  have h4 : m * 2 ^ e * 5 ^ 1074 * unit = m * 2 ^ e * 10 ^ 1074 := by
    rw [ten_pow_unit]; ring
  rw [h4, roundScaled_scale _ _ _ (Nat.pow_pos (by norm_num))]
  exact roundScaled_exact m e hc

theorem shortest_def (m e : Nat) :
    shortest m e =
      (match shortestAux m e (decimalExponent (m * 2 ^ e)) 1500 1 with
      | some (s, k) =>
        if s = 10 ^ k then (10 ^ (k - 1), k, decimalExponent (m * 2 ^ e) + 1)
        else (s, k, decimalExponent (m * 2 ^ e))
      | none => (0, 1, 0)) := rfl

/-- The digits found for a canonical positive value: at least one digit, `s`
below `10^k`, a decimal that converts back to the value, and a decimal exponent
of moderate size. -/
theorem shortest_spec (m e : Nat) (hc : Canon m e) (he : e ≤ 2045) :
    1 ≤ (shortest m e).2.1 ∧ (shortest m e).1 < 10 ^ (shortest m e).2.1
      ∧ roundScaled
          (scale10 ((shortest m e).1 * unit) 1
            ((shortest m e).2.2 - ((shortest m e).2.1 : Nat))).1
          (scale10 ((shortest m e).1 * unit) 1
            ((shortest m e).2.2 - ((shortest m e).2.1 : Nat))).2 = (m, e)
      ∧ -400 ≤ (shortest m e).2.2 ∧ (shortest m e).2.2 ≤ 402 := by
  obtain ⟨hB, hn1, hn2⟩ := decimalExponent_spec (m * 2 ^ e) (canon_lt m e hc he)
  generalize hn : decimalExponent (m * 2 ^ e) = n at hB hn1 hn2
  have hk0 : ((n + 1074).toNat : Int) - n = 1074 := by omega
  obtain ⟨s, k, hs, hcand, hk⟩ := shortestAux_spec m e n 1500 1 (n + 1074).toNat
    (by omega) (by omega) (candidate_exact m e n hc _ hk0)
  obtain ⟨hrt, hle⟩ := candidate_some m e n k s hcand
  have hlt := scaled_lt (m * 2 ^ e) n k hB
  rw [roundTrips_iff] at hrt
  have hneg : -((k : Int) - n) = n - k := by ring
  rw [hneg] at hrt
  rw [shortest_def, hn, hs]
  dsimp only
  split_ifs with h10
  · dsimp only
    refine ⟨hk, Nat.pow_lt_pow_right (by norm_num) (by omega), ?_, by omega, by omega⟩
    have e1 : 10 ^ (k - 1) * unit * 10 = s * unit := by
      rw [h10]
      have : k = (k - 1) + 1 := by omega
      conv_rhs => rw [this, pow_succ]
      ring
    have hsh := roundScaled_shift (10 ^ (k - 1) * unit) (n - k)
    rw [e1, hrt] at hsh
    have hnk : n + 1 - (k : Int) = n - k + 1 := by ring
    rw [hnk]
    exact hsh.symm
  · dsimp only
    exact ⟨hk, by omega, hrt, by omega, by omega⟩



theorem digitChar_spec : ∀ d, d < 10 →
    isDigit (digitChar d) = true ∧ (digitChar d).toNat - 48 = d := by decide

theorem digitsK_isDigit (k s : Nat) : ∀ c ∈ digitsK k s, isDigit c = true := by
  induction k generalizing s with
  | zero => intro c hc; simp [digitsK] at hc
  | succ k ih =>
    intro c hc
    simp only [digitsK, List.mem_append, List.mem_singleton] at hc
    rcases hc with hc | hc
    · exact ih _ c hc
    · rw [hc]; exact (digitChar_spec _ (Nat.mod_lt _ (by norm_num))).1

theorem digitsK_length (k s : Nat) : (digitsK k s).length = k := by
  induction k generalizing s with
  | zero => rfl
  | succ k ih => simp [digitsK, ih]

theorem digitsK_ne_nil (k s : Nat) (hk : 1 ≤ k) : digitsK k s ≠ [] := by
  intro h
  have := digitsK_length k s
  rw [h] at this
  simp at this
  omega

theorem digitsToNat_foldl (l : List Char) (a : Nat) :
    l.foldl (fun acc c => 10 * acc + (c.toNat - 48)) a = a * 10 ^ l.length + digitsToNat l := by
  induction l generalizing a with
  | nil => simp [digitsToNat]
  | cons c l ih =>
    simp only [List.foldl_cons, List.length_cons, digitsToNat]
    rw [ih, ih (10 * 0 + (c.toNat - 48))]
    ring

theorem digitsToNat_append (l₁ l₂ : List Char) :
    digitsToNat (l₁ ++ l₂) = digitsToNat l₁ * 10 ^ l₂.length + digitsToNat l₂ := by
  unfold digitsToNat
  rw [List.foldl_append, digitsToNat_foldl]
  rfl

theorem digitsToNat_digitsK (k s : Nat) : digitsToNat (digitsK k s) = s % 10 ^ k := by
  induction k generalizing s with
  | zero => simp [digitsK, digitsToNat, Nat.mod_one]
  | succ k ih =>
    rw [digitsK, digitsToNat_append, ih]
    have h1 : digitsToNat [digitChar (s % 10)] = s % 10 := by
      have := (digitChar_spec (s % 10) (Nat.mod_lt _ (by norm_num))).2
      simp [digitsToNat, this]
    rw [h1]
    simp only [List.length_singleton, pow_one]
    rw [pow_succ, Nat.mul_comm (10 ^ k) 10, Nat.mod_mul, Nat.mul_comm]
    omega

theorem digitsToNat_digitsK_lt (k s : Nat) (h : s < 10 ^ k) : digitsToNat (digitsK k s) = s := by
  rw [digitsToNat_digitsK, Nat.mod_eq_of_lt h]

theorem digitsK_split (a b s : Nat) :
    digitsK a (s / 10 ^ b) ++ digitsK b s = digitsK (a + b) s := by
  induction b generalizing s with
  | zero => simp [digitsK]
  | succ b ih =>
    rw [show a + (b + 1) = (a + b) + 1 by ring, digitsK, digitsK, ← ih (s / 10),
      Nat.div_div_eq_div_mul, pow_succ, Nat.mul_comm 10 (10 ^ b), List.append_assoc]

theorem replicate_zero_isDigit (z : Nat) : ∀ c ∈ List.replicate z '0', isDigit c = true := by
  intro c hc
  rw [List.eq_of_mem_replicate hc]
  decide

theorem digitsToNat_replicate_zero (z : Nat) : digitsToNat (List.replicate z '0') = 0 := by
  induction z with
  | zero => rfl
  | succ z ih =>
    rw [List.replicate_succ, show ('0' :: List.replicate z '0') = ['0'] ++ List.replicate z '0' from rfl,
      digitsToNat_append, ih]
    simp [digitsToNat]

theorem takeWhile_digits (ip rest : List Char) (hd : ∀ c ∈ ip, isDigit c = true)
    (hr : rest.takeWhile isDigit = []) : (ip ++ rest).takeWhile isDigit = ip := by
  rw [List.takeWhile_append_of_pos hd, hr, List.append_nil]

theorem dropWhile_digits (ip rest : List Char) (hd : ∀ c ∈ ip, isDigit c = true)
    (hr : rest.dropWhile isDigit = rest) : (ip ++ rest).dropWhile isDigit = rest := by
  rw [List.dropWhile_append_of_pos hd, hr]

theorem infinity_not_leading (ip rest : List Char) (hne : ip ≠ [])
    (hd : ∀ c ∈ ip, isDigit c = true) : ¬ ("Infinity".data <+: ip ++ rest) := by
  cases ip with
  | nil => exact absurd rfl hne
  | cons c ip =>
    intro h
    have h1 : ('I' :: "nfinity".data) <+: c :: (ip ++ rest) := h
    rw [List.cons_prefix_cons] at h1
    have h2 := hd c (List.mem_cons_self _ _)
    rw [← h1.1] at h2
    revert h2
    decide



theorem parseExponent_nil : parseExponent [] = 0 := rfl

theorem parseExponent_plus (ex : List Char) (hne : ex ≠ []) (hd : ∀ c ∈ ex, isDigit c = true) :
    parseExponent ('e' :: '+' :: ex) = (digitsToNat ex : Int) := by
  have ht : ex.takeWhile isDigit = ex := List.takeWhile_eq_self_iff.2 hd
  unfold parseExponent
  simp [ht, hne]

theorem parseExponent_minus (ex : List Char) (hne : ex ≠ []) (hd : ∀ c ∈ ex, isDigit c = true) :
    parseExponent ('e' :: '-' :: ex) = -(digitsToNat ex : Int) := by
  have ht : ex.takeWhile isDigit = ex := List.takeWhile_eq_self_iff.2 hd
  unfold parseExponent
  simp [ht, hne]

theorem ExpTail.takeWhile {tail : List Char} (h : ExpTail tail) :
    tail.takeWhile isDigit = [] := by
  rcases h with h | ⟨r, h⟩ <;> subst h
  · rfl
  · exact List.takeWhile_cons_of_neg (by decide)

theorem ExpTail.dropWhile {tail : List Char} (h : ExpTail tail) :
    tail.dropWhile isDigit = tail := by
  rcases h with h | ⟨r, h⟩ <;> subst h
  · rfl
  · exact List.dropWhile_cons_of_neg (by decide)

theorem parseUnsigned_integer (neg : Bool) (ip tail : List Char) (hne : ip ≠ [])
    (hd : ∀ c ∈ ip, isDigit c = true) (ht : ExpTail tail) :
    parseUnsigned neg (ip ++ tail)
      = mkNumber neg (roundScaled
          (scale10 (digitsToNat ip * unit) 1 (parseExponent tail)).1
          (scale10 (digitsToNat ip * unit) 1 (parseExponent tail)).2) := by
  have h1 := takeWhile_digits ip tail hd ht.takeWhile
  have h2 := dropWhile_digits ip tail hd ht.dropWhile
  have h3 : ip.isEmpty = false := by
    cases ip with
    | nil => exact absurd rfl hne
    | cons c l => rfl
  unfold parseUnsigned
  rw [if_neg (infinity_not_leading ip tail hne hd)]
  simp only [h1, h2]
  rcases ht with ht | ⟨r, ht⟩ <;> subst ht <;> simp [h3]

theorem parseUnsigned_point (neg : Bool) (ip fp tail : List Char) (hne : ip ≠ [])
    (hd : ∀ c ∈ ip, isDigit c = true) (hf : ∀ c ∈ fp, isDigit c = true) (ht : ExpTail tail) :
    parseUnsigned neg (ip ++ '.' :: (fp ++ tail))
      = mkNumber neg (roundScaled
          (scale10 (digitsToNat (ip ++ fp) * unit) 1 (parseExponent tail - (fp.length : Int))).1
          (scale10 (digitsToNat (ip ++ fp) * unit) 1
            (parseExponent tail - (fp.length : Int))).2) := by
  have h1 : (ip ++ '.' :: (fp ++ tail)).takeWhile isDigit = ip :=
    takeWhile_digits ip _ hd (List.takeWhile_cons_of_neg (by decide))
  have h2 : (ip ++ '.' :: (fp ++ tail)).dropWhile isDigit = '.' :: (fp ++ tail) :=
    dropWhile_digits ip _ hd (List.dropWhile_cons_of_neg (by decide))
  have h3 := takeWhile_digits fp tail hf ht.takeWhile
  have h4 := dropWhile_digits fp tail hf ht.dropWhile
  have h5 : ip.isEmpty = false := by
    cases ip with
    | nil => exact absurd rfl hne
    | cons c l => rfl
  unfold parseUnsigned
  rw [if_neg (infinity_not_leading ip _ hne hd)]
  simp only [h1, h2, h3, h4, h5, Bool.false_and, Bool.false_eq_true, if_false]



theorem formatDecimal_exponent_digits (x : Int) (h1 : -402 ≤ x) (h2 : x ≤ 402) :
    digitsK (numDigits x.natAbs) x.natAbs ≠ []
      ∧ (∀ c ∈ digitsK (numDigits x.natAbs) x.natAbs, isDigit c = true)
      ∧ parseExponent ('e' :: (if 0 ≤ x then '+' else '-')
          :: digitsK (numDigits x.natAbs) x.natAbs) = x := by
  have hlt : x.natAbs < 10 ^ 400 :=
    lt_of_lt_of_le (show x.natAbs < 10 ^ 3 by norm_num; omega)
      (Nat.pow_le_pow_right (by norm_num) (by norm_num))
  obtain ⟨a, b, _⟩ := numDigits_spec x.natAbs hlt
  have hne := digitsK_ne_nil (numDigits x.natAbs) x.natAbs b
  have hd := digitsK_isDigit (numDigits x.natAbs) x.natAbs
  refine ⟨hne, hd, ?_⟩
  by_cases hx : 0 ≤ x
  · rw [if_pos hx, parseExponent_plus _ hne hd, digitsToNat_digitsK_lt _ _ a]
    omega
  · rw [if_neg hx, parseExponent_minus _ hne hd, digitsToNat_digitsK_lt _ _ a]
    omega

/-- Reading back the characters of `Number::toString`: the decimal
`s * 10^(n-k)` is what `parseFloat` converts. -/
theorem parseUnsigned_formatDecimal (neg : Bool) (s k : Nat) (n : Int) (hk : 1 ≤ k)
    (hs : s < 10 ^ k) (hn1 : -400 ≤ n) (hn2 : n ≤ 402) :
    parseUnsigned neg (formatDecimal s k n)
      = mkNumber neg (roundScaled
          (scale10 (s * unit) 1 (n - (k : Int))).1 (scale10 (s * unit) 1 (n - (k : Int))).2) := by
  unfold formatDecimal
  by_cases hr : -5 ≤ n ∧ n ≤ 21
  · rw [if_pos hr]
    by_cases hkn : (k : Int) ≤ n
    · rw [if_pos hkn]
      have hd : ∀ c ∈ digitsK k s ++ List.replicate (n.toNat - k) '0', isDigit c = true := by
        intro c hc
        rcases List.mem_append.1 hc with h | h
        · exact digitsK_isDigit k s c h
        · exact replicate_zero_isDigit _ c h
      have hne : digitsK k s ++ List.replicate (n.toNat - k) '0' ≠ [] := by
        intro h
        exact digitsK_ne_nil k s hk (List.append_eq_nil.1 h).1
      have := parseUnsigned_integer neg _ [] hne hd (Or.inl rfl)
      rw [List.append_nil] at this
      rw [this, parseExponent_nil, digitsToNat_append, digitsToNat_replicate_zero,
        digitsToNat_digitsK_lt k s hs, List.length_replicate,
        scale10_nonneg _ _ 0 le_rfl, scale10_nonneg _ _ (n - k) (by omega)]
      have hz : (n - (k : Int)).toNat = n.toNat - k := by omega
      rw [hz]
      simp only [Int.toNat_zero, pow_zero, mul_one, add_zero]
      congr 2
      ring
    · rw [if_neg hkn]
      by_cases hpos : 0 < n
      · rw [if_pos hpos]
        have hne : digitsK n.toNat (s / 10 ^ (k - n.toNat)) ≠ [] :=
          digitsK_ne_nil _ _ (by omega)
        have := parseUnsigned_point neg (digitsK n.toNat (s / 10 ^ (k - n.toNat)))
          (digitsK (k - n.toNat) s) [] hne (digitsK_isDigit _ _) (digitsK_isDigit _ _)
          (Or.inl rfl)
        rw [List.append_nil] at this
        rw [this, digitsK_split, show n.toNat + (k - n.toNat) = k by omega,
          digitsToNat_digitsK_lt k s hs, parseExponent_nil, digitsK_length]
        have hz : (0 : Int) - ((k - n.toNat : Nat) : Int) = n - k := by omega
        rw [hz]
      · rw [if_neg hpos]
        have hd : ∀ c ∈ List.replicate (-n).toNat '0' ++ digitsK k s, isDigit c = true := by
          intro c hc
          rcases List.mem_append.1 hc with h | h
          · exact replicate_zero_isDigit _ c h
          · exact digitsK_isDigit k s c h
        have := parseUnsigned_point neg ['0'] (List.replicate (-n).toNat '0' ++ digitsK k s) []
          (by simp) (by decide) hd (Or.inl rfl)
        rw [List.append_nil] at this
        have hcs : '0' :: '.' :: (List.replicate (-n).toNat '0' ++ digitsK k s)
            = ['0'] ++ '.' :: (List.replicate (-n).toNat '0' ++ digitsK k s) := rfl
        rw [hcs, this, digitsToNat_append, digitsToNat_append, digitsToNat_replicate_zero,
          digitsToNat_digitsK_lt k s hs, parseExponent_nil, List.length_append,
          List.length_replicate, digitsK_length]
        have h0 : digitsToNat ['0'] = 0 := by decide
        have hz : (0 : Int) - (((-n).toNat + k : Nat) : Int) = n - k := by omega
        rw [h0, hz]
        simp only [zero_mul, zero_add]
  · rw [if_neg hr]
    obtain ⟨xne, xd, xp⟩ := formatDecimal_exponent_digits (n - 1) (by omega) (by omega)
    simp only []
    by_cases hk1 : k = 1
    · rw [if_pos hk1]
      have := parseUnsigned_integer neg (digitsK 1 s)
        ('e' :: (if 0 ≤ n - 1 then '+' else '-')
          :: digitsK (numDigits (n - 1).natAbs) (n - 1).natAbs)
        (digitsK_ne_nil 1 s le_rfl) (digitsK_isDigit 1 s) (Or.inr ⟨_, rfl⟩)
      rw [this, xp, digitsToNat_digitsK_lt 1 s (by rw [← hk1]; exact hs), hk1]
      rfl
    · rw [if_neg hk1]
      have := parseUnsigned_point neg (digitsK 1 (s / 10 ^ (k - 1))) (digitsK (k - 1) s)
        ('e' :: (if 0 ≤ n - 1 then '+' else '-')
          :: digitsK (numDigits (n - 1).natAbs) (n - 1).natAbs)
        (digitsK_ne_nil 1 _ le_rfl) (digitsK_isDigit 1 _) (digitsK_isDigit _ _)
        (Or.inr ⟨_, rfl⟩)
      rw [this, xp, digitsK_split, show 1 + (k - 1) = k by omega,
        digitsToNat_digitsK_lt k s hs, digitsK_length]
      have hz : n - 1 - ((k - 1 : Nat) : Int) = n - k := by omega
      rw [hz]



theorem not_whiteSpace_of_range : ∀ n, n < 58 → 48 ≤ n →
    (n = 9 || n = 10 || n = 11 || n = 12 || n = 13 || n = 32 || n = 160 || n = 5760
      || (8192 ≤ n && n ≤ 8202) || n = 8232 || n = 8233 || n = 8239 || n = 8287
      || n = 12288 || n = 65279) = false := by decide

theorem isDigit_not_special (c : Char) (h : isDigit c = true) :
    isWhiteSpace c = false ∧ c ≠ '-' ∧ c ≠ '+' := by
  have h1 : isWhiteSpace c = false := by
    unfold isDigit at h
    simp only [Bool.and_eq_true, decide_eq_true_eq] at h
    exact not_whiteSpace_of_range c.toNat (by omega) h.1
  have h2 : c ≠ '-' := by
    intro hc; rw [hc] at h; exact absurd h (by decide)
  have h3 : c ≠ '+' := by
    intro hc; rw [hc] at h; exact absurd h (by decide)
  exact ⟨h1, h2, h3⟩

theorem head_digit (l rest : List Char) (hne : l ≠ []) (hd : ∀ c ∈ l, isDigit c = true) :
    ∃ c r, l ++ rest = c :: r ∧ isDigit c = true := by
  cases l with
  | nil => exact absurd rfl hne
  | cons c l => exact ⟨c, l ++ rest, rfl, hd c (List.mem_cons_self _ _)⟩

theorem formatDecimal_head (s k : Nat) (n : Int) (hk : 1 ≤ k) :
    ∃ c r, formatDecimal s k n = c :: r ∧ isDigit c = true := by
  unfold formatDecimal
  split_ifs with h1 h2 h3 h4
  · exact head_digit _ _ (digitsK_ne_nil k s hk) (digitsK_isDigit k s)
  · exact head_digit _ _ (digitsK_ne_nil _ _ (by omega)) (digitsK_isDigit _ _)
  · exact ⟨'0', _, rfl, by decide⟩
  · exact head_digit _ _ (digitsK_ne_nil 1 s le_rfl) (digitsK_isDigit 1 s)
  · exact head_digit _ _ (digitsK_ne_nil 1 _ le_rfl) (digitsK_isDigit 1 _)

theorem parseFloat_mk_digit (c : Char) (r : List Char) (h : isDigit c = true) :
    parseFloat (String.mk (c :: r)) = parseUnsigned false (c :: r) := by
  obtain ⟨h1, h2, h3⟩ := isDigit_not_special c h
  unfold parseFloat
  have hd : (String.mk (c :: r)).data.dropWhile isWhiteSpace = c :: r :=
    List.dropWhile_cons_of_neg (by simp [h1])
  rw [hd]
  split
  · next cs heq => exact absurd (List.cons.inj heq).1 h2
  · next cs heq => exact absurd (List.cons.inj heq).1 h3
  · rfl

theorem parseFloat_mk_minus (cs : List Char) :
    parseFloat (String.mk ('-' :: cs)) = parseUnsigned true cs := by
  unfold parseFloat
  have hd : (String.mk ('-' :: cs)).data.dropWhile isWhiteSpace = '-' :: cs :=
    List.dropWhile_cons_of_neg (by decide)
  rw [hd]
  rfl

theorem parseFloat_zero : parseFloat "0" = JSNumber.fin false 0 0 := by decide!

theorem toString_fin (s : Bool) (m e : Nat) (hm : m ≠ 0) :
    toString (JSNumber.fin s m e)
      = String.mk ((if s then ['-'] else [])
          ++ formatDecimal (shortest m e).1 (shortest m e).2.1 (shortest m e).2.2) := by
  show (if m = 0 then "0" else _) = _
  rw [if_neg hm]

/-- Converting a canonical Number to a string and parsing it gives the Number
back, except that `-0` is printed as `"0"` and read as `+0`. -/
theorem parseFloat_toString (x : JSNumber) (hx : Canonical x) :
    parseFloat (toString x)
      = (if x = JSNumber.fin true 0 0 then JSNumber.fin false 0 0 else x) := by
  cases x with
  | nan => decide!
  | inf s => cases s <;> decide!
  | fin s m e =>
    obtain ⟨hc, he⟩ := hx
    by_cases hm : m = 0
    · subst hm
      have he0 : e = 0 := by
        rcases hc.2 with h | h
        · exact absurd h (by norm_num)
        · exact h
      subst he0
      have : toString (JSNumber.fin s 0 0) = "0" := rfl
      rw [this, parseFloat_zero]
      cases s <;> rfl
    · have hne : JSNumber.fin s m e ≠ JSNumber.fin true 0 0 := by
        intro h; injection h with _ h2 _; exact hm h2
      rw [if_neg hne, toString_fin s m e hm]
      obtain ⟨hk, hs, hrt, hn1, hn2⟩ := shortest_spec m e hc he
      have hmk : mkNumber s (m, e) = JSNumber.fin s m e := by
        unfold mkNumber
        rw [if_neg (by simp only []; omega)]
      cases s with
      | true =>
        rw [if_pos rfl, List.singleton_append, parseFloat_mk_minus, parseUnsigned_formatDecimal true _ _ _ hk hs hn1 hn2, hrt, hmk]
      | false =>
        rw [if_neg (by simp)]
        obtain ⟨c, r, hcr, hdig⟩ :=
          formatDecimal_head (shortest m e).1 (shortest m e).2.1 (shortest m e).2.2 hk
        rw [List.nil_append, hcr, parseFloat_mk_digit c r hdig, ← hcr,
          parseUnsigned_formatDecimal false _ _ _ hk hs hn1 hn2, hrt, hmk]

theorem mkNumber_canonical (neg : Bool) (N D : Nat) :
    Canonical (mkNumber neg (roundScaled N D)) := by
  unfold mkNumber
  split_ifs with h
  · trivial
  · exact ⟨roundScaled_canon N D, by omega⟩

theorem div_canonical (a b : JSNumber) : Canonical (div a b) := by
  cases a with
  | nan => cases b <;> simp [div, Canonical]
  | inf s => cases b <;> simp [div, Canonical]
  | fin s m e =>
    cases b with
    | nan => simp [div, Canonical]
    | inf t => exact ⟨⟨by norm_num, Or.inr rfl⟩, by norm_num⟩
    | fin t n f =>
      simp only [div]
      split_ifs
      · trivial
      · trivial
      · exact mkNumber_canonical _ _ _

theorem roundHalfEven_zero (D : Nat) : roundHalfEven 0 D = 0 := by
  unfold roundHalfEven
  simp

theorem roundScaled_zero (D : Nat) : roundScaled 0 D = (0, 0) := by
  unfold roundScaled
  simp only [Nat.zero_div, roundHalfEven_zero]
  rfl

theorem mkNumber_zero (neg : Bool) (D : Nat) :
    mkNumber neg (roundScaled 0 D) = JSNumber.fin neg 0 0 := by
  rw [roundScaled_zero]; rfl

theorem scaledInt_zero (s : Bool) (e : Nat) : scaledInt s 0 e = 0 := by
  cases s <;> simp [scaledInt]

theorem add_zero_sign (s t : Bool) (c : JSNumber) :
    ZeroLike (add (JSNumber.fin s 0 0) c) (add (JSNumber.fin t 0 0) c) := by
  cases c with
  | nan => exact Or.inl rfl
  | inf u => exact Or.inl rfl
  | fin u n f =>
    unfold add
    simp only [scaledInt_zero, zero_add]
    split_ifs with h
    · exact Or.inr ⟨_, _, rfl, rfl⟩
    · exact Or.inl rfl

theorem mul_zero_sign (s t : Bool) (c : JSNumber) :
    ZeroLike (mul (JSNumber.fin s 0 0) c) (mul (JSNumber.fin t 0 0) c) := by
  cases c with
  | nan => exact Or.inl rfl
  | inf u => exact Or.inl rfl
  | fin u n f =>
    unfold mul
    simp only [Nat.zero_mul, mkNumber_zero]
    exact Or.inr ⟨_, _, rfl, rfl⟩

theorem div_zero_sign (s t : Bool) (c : JSNumber) :
    ZeroLike (div (JSNumber.fin s 0 0) c) (div (JSNumber.fin t 0 0) c) := by
  cases c with
  | nan => exact Or.inl rfl
  | inf u => exact Or.inr ⟨_, _, rfl, rfl⟩
  | fin u n f =>
    unfold div
    simp only [Nat.zero_mul, mkNumber_zero]
    split_ifs
    · exact Or.inl rfl
    · exact Or.inr ⟨_, _, rfl, rfl⟩

theorem mod_zero_sign (s t : Bool) (c : JSNumber) :
    ZeroLike (mod (JSNumber.fin s 0 0) c) (mod (JSNumber.fin t 0 0) c) := by
  cases c with
  | nan => exact Or.inl rfl
  | inf u => exact Or.inr ⟨_, _, rfl, rfl⟩
  | fin u n f =>
    unfold mod
    simp only [Nat.zero_mul, Nat.zero_mod, mkNumber_zero]
    split_ifs
    · exact Or.inl rfl
    · exact Or.inr ⟨_, _, rfl, rfl⟩

end JS

/-! ## The length of a string and `slice(0, -1)` -/

namespace JS

theorem length_mk (cs : List Char) :
    length (String.mk cs) = (cs.map fun c => if c.toNat < 65536 then 1 else 2).sum := rfl

theorem length_concat (cs : List Char) (c : Char) :
    length (String.mk (cs ++ [c]))
      = length (String.mk cs) + (if c.toNat < 65536 then 1 else 2) := by
  simp only [length_mk, List.map_append, List.sum_append, List.map_cons, List.map_nil,
    List.sum_cons, List.sum_nil, add_zero]

theorem length_pos (cs : List Char) (h : cs ≠ []) : 0 < length (String.mk cs) := by
  cases cs with
  | nil => exact absurd rfl h
  | cons c r =>
    rw [length_mk, List.map_cons, List.sum_cons]
    split_ifs <;> omega

theorem sliceButLast_concat (cs : List Char) (c : Char) :
    sliceButLast (String.mk (cs ++ [c]))
      = (if c.toNat < 65536 then String.mk cs else String.mk (cs ++ [Char.ofNat 65533])) := by
  unfold sliceButLast
  simp only [List.getLast?_append, List.getLast?_singleton, Option.or,
    List.dropLast_concat]

/-- The slice has one code unit less than the string. -/
theorem length_sliceButLast (str : String) (h : str.data ≠ []) :
    length (sliceButLast str) + 1 = length str := by
  rcases List.eq_nil_or_concat str.data with h0 | ⟨cs, c, hc⟩
  · exact absurd h0 h
  · have hs : str = String.mk (cs ++ [c]) := String.ext (by rw [hc, List.concat_eq_append])
    rw [hs, sliceButLast_concat, length_concat]
    by_cases hb : c.toNat < 65536
    · rw [if_pos hb, if_pos hb]
    · rw [if_neg hb, if_neg hb, length_concat, if_pos (by decide)]

end JS

/-! ## Frame lemmas for the transitions -/

namespace BasicCalculator

open JS

theorem updateDisplay_currentInput (s : BasicCalculator) :
    (updateDisplay s).currentInput = s.currentInput := by
  unfold updateDisplay; split <;> (try split_ifs) <;> rfl

theorem updateDisplay_operator (s : BasicCalculator) :
    (updateDisplay s).operator = s.operator := by
  unfold updateDisplay; split <;> (try split_ifs) <;> rfl

theorem updateDisplay_previousValue (s : BasicCalculator) :
    (updateDisplay s).previousValue = s.previousValue := by
  unfold updateDisplay; split <;> (try split_ifs) <;> rfl

theorem updateDisplay_shouldResetDisplay (s : BasicCalculator) :
    (updateDisplay s).shouldResetDisplay = s.shouldResetDisplay := by
  unfold updateDisplay; split <;> (try split_ifs) <;> rfl

theorem updateDisplay_exprSpan (s : BasicCalculator) :
    (updateDisplay s).exprSpan = s.exprSpan := by
  unfold updateDisplay; split <;> (try split_ifs) <;> rfl

theorem updateDisplay_resultSpan (s : BasicCalculator) :
    (updateDisplay s).resultSpan = s.resultSpan := by
  unfold updateDisplay; split <;> (try split_ifs) <;> rfl

theorem updateDisplay_resultBox (s : BasicCalculator) :
    (updateDisplay s).resultBox = s.resultBox := by
  unfold updateDisplay; split <;> (try split_ifs) <;> rfl

theorem onNumberClick_operator (t : String) (s : BasicCalculator) :
    (onNumberClick t s).operator = s.operator := by
  unfold onNumberClick; rw [updateDisplay_operator]; split_ifs <;> rfl

theorem onNumberClick_previousValue (t : String) (s : BasicCalculator) :
    (onNumberClick t s).previousValue = s.previousValue := by
  unfold onNumberClick; rw [updateDisplay_previousValue]; split_ifs <;> rfl

theorem onNumberClick_shouldResetDisplay (t : String) (s : BasicCalculator) :
    (onNumberClick t s).shouldResetDisplay = false := by
  unfold onNumberClick; rw [updateDisplay_shouldResetDisplay]
  split_ifs <;> simp_all

theorem onNumberClick_currentInput (t : String) (s : BasicCalculator) :
    (onNumberClick t s).currentInput = nextInput t s.currentInput s.shouldResetDisplay := by
  unfold onNumberClick nextInput; rw [updateDisplay_currentInput]
  split_ifs <;> rfl

theorem nextInput_fresh (t cur : String) : nextInput t cur true = nextInput t "0" false := by
  have h0 : '.' ∉ ("0" : String).data := by decide
  unfold nextInput
  by_cases ht : t = "." <;> simp [ht, h0]

theorem enter_operator (ts : List String) (s : BasicCalculator) :
    (enter ts s).operator = s.operator := by
  induction ts generalizing s with
  | nil => rfl
  | cons t ts ih =>
    show (enter ts (onNumberClick t s)).operator = _
    rw [ih, onNumberClick_operator]

theorem enter_previousValue (ts : List String) (s : BasicCalculator) :
    (enter ts s).previousValue = s.previousValue := by
  induction ts generalizing s with
  | nil => rfl
  | cons t ts ih =>
    show (enter ts (onNumberClick t s)).previousValue = _
    rw [ih, onNumberClick_previousValue]

theorem enter_currentInput_congr (ts : List String) (s₁ s₂ : BasicCalculator)
    (hc : s₁.currentInput = s₂.currentInput)
    (hr : s₁.shouldResetDisplay = s₂.shouldResetDisplay) :
    (enter ts s₁).currentInput = (enter ts s₂).currentInput := by
  induction ts generalizing s₁ s₂ with
  | nil => exact hc
  | cons t ts ih =>
    show (enter ts (onNumberClick t s₁)).currentInput = (enter ts (onNumberClick t s₂)).currentInput
    apply ih
    · rw [onNumberClick_currentInput, onNumberClick_currentInput, hc, hr]
    · rw [onNumberClick_shouldResetDisplay, onNumberClick_shouldResetDisplay]

/-- After an operator or a result (reset flag set), typing a non-empty operand
leaves the buffer a fresh calculator would hold. -/
theorem enter_after_reset (ts : List String) (hts : ts ≠ []) (s : BasicCalculator)
    (hr : s.shouldResetDisplay = true) :
    (enter ts s).currentInput = typed ts := by
  cases ts with
  | nil => exact absurd rfl hts
  | cons t ts =>
    show (enter ts (onNumberClick t s)).currentInput
      = (enter ts (onNumberClick t (constructor "" "" "" ""))).currentInput
    apply enter_currentInput_congr
    · rw [onNumberClick_currentInput, onNumberClick_currentInput, hr]
      exact nextInput_fresh t _
    · rw [onNumberClick_shouldResetDisplay, onNumberClick_shouldResetDisplay]

theorem enter_shouldResetDisplay (ts : List String) (hts : ts ≠ []) (s : BasicCalculator) :
    (enter ts s).shouldResetDisplay = false := by
  induction ts generalizing s with
  | nil => exact absurd rfl hts
  | cons t ts ih =>
    show (enter ts (onNumberClick t s)).shouldResetDisplay = false
    cases ts with
    | nil => exact onNumberClick_shouldResetDisplay t s
    | cons u us => exact ih (by simp) _

theorem enter_fresh (ts : List String) (d e r b : String) :
    (enter ts (constructor d e r b)).currentInput = typed ts :=
  enter_currentInput_congr ts _ _ rfl rfl

end BasicCalculator

/-! ## The calculator's transitions and the claims about them -/

namespace BasicCalculator

open JS

theorem round8_zero : round8 (JSNumber.fin false 0 0) = JSNumber.fin false 0 0 := by
  decide!

theorem calculate_of_operator_none (s : BasicCalculator) (h : s.operator = none) :
    calculate s = s := by
  unfold calculate; rw [h]

theorem operator_of_reachable {s : BasicCalculator} (h : Reachable s) :
    s.operator = none ∨ ∃ op ∈ operatorTokens, s.operator = some op := by
  induction h with
  | init d e r b => exact Or.inl rfl
  | number t _ _ ih => rw [onNumberClick_operator]; exact ih
  | operator op _ hop _ => exact Or.inr ⟨op, hop, rfl⟩
  | @equals s _ ih =>
    rcases ih with h | ⟨op, hop, h⟩
    · left; rw [calculate_of_operator_none s h]; exact h
    · left
      unfold calculate; rw [h]
      simp only [operatorTokens, List.mem_cons, List.mem_singleton, List.not_mem_nil,
        or_false] at hop
      rcases hop with rfl | rfl | rfl | rfl | rfl <;> rfl
  | clear _ _ => left; unfold clearAll; rw [updateDisplay_operator]
  | @backspace s _ ih =>
    have : (delete s).operator = s.operator := by
      unfold delete; rw [updateDisplay_operator]; split_ifs <;> rfl
    rw [this]; exact ih

theorem switchOperator_isSome {op : String} (hop : op ∈ operatorTokens) (a b : JSNumber) :
    ∃ raw, switchOperator op a b = some raw := by
  simp only [operatorTokens, List.mem_cons, List.mem_singleton, List.not_mem_nil,
    or_false] at hop
  rcases hop with rfl | rfl | rfl | rfl | rfl <;> exact ⟨_, rfl⟩

/-- What `calculate()` does when one of the five operators is pending. -/
theorem calculate_pending (s : BasicCalculator) (op : String) (raw : JSNumber)
    (h : s.operator = some op)
    (hraw : switchOperator op (toNumber s.previousValue) (parseFloat s.currentInput) = some raw) :
    calculate s =
      { s with
        currentInput := JS.toString (round8 raw)
        operator := none
        shouldResetDisplay := true
        display := JS.toString (round8 raw)
        exprSpan := templateValue s.previousValue ++ " " ++ operatorSymbol op ++ " "
          ++ JS.toString (parseFloat s.currentInput)
        resultSpan := JS.toString (round8 raw)
        resultBox := "block" } := by
  unfold calculate
  rw [h]
  simp only [hraw]
  rfl

theorem round8_signed_zero (s : Bool) : round8 (JSNumber.fin s 0 0) = JSNumber.fin s 0 0 := by
  cases s <;> decide!

theorem toString_round8_congr (x y : JSNumber) (h : ZeroLike x y) :
    JS.toString (round8 x) = JS.toString (round8 y) := by
  rcases h with h | ⟨s, t, hx, hy⟩
  · rw [h]
  · rw [hx, hy, round8_signed_zero, round8_signed_zero]
    rfl

theorem round8_canonical (x : JSNumber) : Canonical (round8 x) :=
  div_canonical _ _

theorem zeroDivide_zero_sign (op : String) (s t : Bool) (c : JSNumber) :
    ZeroLike (zeroDivide op (JSNumber.fin s 0 0) c) (zeroDivide op (JSNumber.fin t 0 0) c) := by
  unfold zeroDivide
  split_ifs with h
  · exact Or.inl rfl
  · unfold jsOperator
    split_ifs
    · exact add_zero_sign s t c
    · exact add_zero_sign s t (neg c)
    · exact mul_zero_sign s t c
    · exact div_zero_sign s t c
    · exact mod_zero_sign s t c

theorem switchOperator_eq {op : String} (hop : op ∈ operatorTokens) (a b : JSNumber) :
    switchOperator op a b = some (zeroDivide op a b) := by
  simp only [operatorTokens, List.mem_cons, List.mem_singleton, List.not_mem_nil,
    or_false] at hop
  rcases hop with rfl | rfl | rfl | rfl | rfl
  · rfl
  · rfl
  · rfl
  · unfold switchOperator zeroDivide
    cases strictNeZero b <;> rfl
  · rfl

/-- The buffer and flags after `calculate()` with one of the five operators
pending. -/
theorem calculate_fold (s : BasicCalculator) (op : String) (hop : op ∈ operatorTokens)
    (h : s.operator = some op) :
    (calculate s).currentInput
        = JS.toString (round8 (zeroDivide op (toNumber s.previousValue)
            (parseFloat s.currentInput)))
      ∧ (calculate s).operator = none ∧ (calculate s).shouldResetDisplay = true := by
  rw [calculate_pending s op _ h (switchOperator_eq hop _ _)]
  simp

/-- The state fields after the keys `operand op` pressed with no operator
pending. -/
theorem onOperatorClick_first (op : String) (s : BasicCalculator) (h : s.operator = none) :
    (onOperatorClick op s).operator = some op
      ∧ (onOperatorClick op s).previousValue = some (parseFloat s.currentInput)
      ∧ (onOperatorClick op s).shouldResetDisplay = true := by
  unfold onOperatorClick
  have hc : ¬ (s.operator ≠ none ∧ s.shouldResetDisplay = false) := by
    rw [h]; simp
  rw [if_neg hc]
  exact ⟨rfl, rfl, rfl⟩

/-- The state fields after an operator key that folds a pending operation. -/
theorem onOperatorClick_chain (op₁ op₂ : String) (hop : op₁ ∈ operatorTokens)
    (s : BasicCalculator) (h : s.operator = some op₁) (hr : s.shouldResetDisplay = false) :
    (onOperatorClick op₂ s).operator = some op₂
      ∧ (onOperatorClick op₂ s).previousValue
          = some (parseFloat (JS.toString (round8 (zeroDivide op₁ (toNumber s.previousValue)
              (parseFloat s.currentInput)))))
      ∧ (onOperatorClick op₂ s).shouldResetDisplay = true := by
  obtain ⟨h1, _, _⟩ := calculate_fold s op₁ hop h
  unfold onOperatorClick
  have hc : s.operator ≠ none ∧ s.shouldResetDisplay = false := ⟨by rw [h]; simp, hr⟩
  rw [if_pos hc]
  refine ⟨rfl, ?_, rfl⟩
  simp only [h1]

/-- C1: for operands `a` and `b` typed token by token and an operator among
`+`, `-`, `*`, `%`, the keys `a op b =` pressed on a fresh calculator leave
`currentInput` equal to the string form of `round8(a op b)`. -/
theorem calculate_binary (ta tb : List String) (op : String)
    (hop : op ∈ ["+", "-", "*", "%"]) (htb : tb ≠ []) (d e r b : String) :
    (calculate (enter tb (onOperatorClick op (enter ta (constructor d e r b))))).currentInput
      = JS.toString (round8 (jsOperator op (parseFloat (typed ta)) (parseFloat (typed tb)))) := by
  have hnone : (enter ta (constructor d e r b)).operator = none := by
    rw [enter_operator]; rfl
  have hfold : onOperatorClick op (enter ta (constructor d e r b))
      = { enter ta (constructor d e r b) with
          previousValue := some (parseFloat (typed ta))
          operator := some op
          shouldResetDisplay := true } := by
    unfold onOperatorClick
    simp only [hnone, ne_eq, not_true_eq_false, false_and, if_false, enter_fresh]
  have hcur : (enter tb (onOperatorClick op (enter ta (constructor d e r b)))).currentInput
      = typed tb := enter_after_reset tb htb _ (by rw [hfold])
  have hopr : (enter tb (onOperatorClick op (enter ta (constructor d e r b)))).operator
      = some op := by rw [enter_operator, hfold]
  have hprev : (enter tb (onOperatorClick op (enter ta (constructor d e r b)))).previousValue
      = some (parseFloat (typed ta)) := by rw [enter_previousValue, hfold]
  have hsw : switchOperator op
      (toNumber (enter tb (onOperatorClick op (enter ta (constructor d e r b)))).previousValue)
      (parseFloat (enter tb (onOperatorClick op (enter ta (constructor d e r b)))).currentInput)
      = some (jsOperator op (parseFloat (typed ta)) (parseFloat (typed tb))) := by
    rw [hprev, hcur]
    simp only [List.mem_cons, List.mem_singleton, List.not_mem_nil, or_false] at hop
    rcases hop with rfl | rfl | rfl | rfl <;> rfl
  rw [calculate_pending _ op _ hopr hsw]

/-- C1, at the keys `3 + 4 =`, which leave `"7"`. -/
theorem calculate_binary_witness :
    "+" ∈ ["+", "-", "*", "%"] ∧ ["4"] ≠ ([] : List String) ∧
    (calculate (enter ["4"] (onOperatorClick "+" (enter ["3"]
      (constructor "0" "" "" "none"))))).currentInput = "7" :=
  ⟨by decide, by decide,
    (calculate_binary ["3"] ["4"] "+" (by decide) (by decide) "0" "" "" "none").trans
      (by decide!)⟩

/-- C2 as stated fails for a division by zero in the chain: the keys
`6 / 0 + 1 =` leave `"1"` (the calculator takes `6 / 0` as `0`), while the
string form of `round8(round8(6 / 0) + 1)` is `"Infinity"`. -/
theorem calculate_chained_counterexample :
    (calculate (enter ["1"] (onOperatorClick "+" (enter ["0"] (onOperatorClick "/"
      (enter ["6"] (constructor "0" "" "" "none"))))))).currentInput = "1"
    ∧ JS.toString (round8 (jsOperator "+"
        (round8 (jsOperator "/" (parseFloat (typed ["6"])) (parseFloat (typed ["0"]))))
        (parseFloat (typed ["1"])))) = "Infinity"
    ∧ (calculate (enter ["1"] (onOperatorClick "+" (enter ["0"] (onOperatorClick "/"
        (enter ["6"] (constructor "0" "" "" "none"))))))).currentInput
      ≠ JS.toString (round8 (jsOperator "+"
        (round8 (jsOperator "/" (parseFloat (typed ["6"])) (parseFloat (typed ["0"]))))
        (parseFloat (typed ["1"])))) := by
  decide!

/-- C2, amended: the keys `a op1 b op2 c =` pressed on a fresh calculator leave
`currentInput` equal to the string form of `round8(round8(a op1 b) op2 c)`,
strictly left to right, where each operation is the calculator's: the plain
operator, a division by a zero right operand giving `0`; the keys
`3 + 4 * 2 =` yield `"14"`. -/
theorem calculate_chained (ta tb tc : List String) (op₁ op₂ : String)
    (h₁ : op₁ ∈ operatorTokens) (h₂ : op₂ ∈ operatorTokens)
    (htb : tb ≠ []) (htc : tc ≠ []) (d e r b : String) :
    (calculate (enter tc (onOperatorClick op₂ (enter tb (onOperatorClick op₁
      (enter ta (constructor d e r b))))))).currentInput
      = JS.toString (round8 (zeroDivide op₂
          (round8 (zeroDivide op₁ (parseFloat (typed ta)) (parseFloat (typed tb))))
          (parseFloat (typed tc))))
    ∧ (calculate (enter ["2"] (onOperatorClick "*" (enter ["4"] (onOperatorClick "+"
        (enter ["3"] (constructor d e r b))))))).currentInput = "14" := by
  have main : ∀ (ta tb tc : List String) (op₁ op₂ : String), op₁ ∈ operatorTokens →
      op₂ ∈ operatorTokens → tb ≠ [] → tc ≠ [] →
      (calculate (enter tc (onOperatorClick op₂ (enter tb (onOperatorClick op₁
        (enter ta (constructor d e r b))))))).currentInput
        = JS.toString (round8 (zeroDivide op₂
            (round8 (zeroDivide op₁ (parseFloat (typed ta)) (parseFloat (typed tb))))
            (parseFloat (typed tc)))) := by
    intro ta tb tc op₁ op₂ h₁ h₂ htb htc
    -- the first operand and operator
    have s0op : (enter ta (constructor d e r b)).operator = none := by
      rw [enter_operator]; rfl
    obtain ⟨a1, a2, a3⟩ := onOperatorClick_first op₁ _ s0op
    rw [enter_fresh] at a2
    -- the second operand
    have b1 : (enter tb (onOperatorClick op₁ (enter ta (constructor d e r b)))).operator
        = some op₁ := by rw [enter_operator, a1]
    have b2 : (enter tb (onOperatorClick op₁ (enter ta (constructor d e r b)))).previousValue
        = some (parseFloat (typed ta)) := by rw [enter_previousValue, a2]
    have b3 := enter_after_reset tb htb _ a3
    have b4 := enter_shouldResetDisplay tb htb
      (onOperatorClick op₁ (enter ta (constructor d e r b)))
    -- the second operator folds the first operation
    obtain ⟨c1, c2, c3⟩ := onOperatorClick_chain op₁ op₂ h₁ _ b1 b4
    rw [b2, b3] at c2
    -- the third operand
    have d1 : (enter tc (onOperatorClick op₂ (enter tb (onOperatorClick op₁
        (enter ta (constructor d e r b)))))).operator = some op₂ := by
      rw [enter_operator, c1]
    have d2 := (enter_previousValue tc (onOperatorClick op₂ (enter tb (onOperatorClick op₁
        (enter ta (constructor d e r b)))))).trans c2
    have d3 := enter_after_reset tc htc _ c3
    -- the final evaluation
    rw [(calculate_fold _ op₂ h₂ d1).1, d2, d3]
    simp only [toNumber]
    rw [parseFloat_toString _ (round8_canonical _)]
    split_ifs with hz
    · rw [hz]
      exact toString_round8_congr _ _ (zeroDivide_zero_sign op₂ false true _)
    · rfl
  refine ⟨main ta tb tc op₁ op₂ h₁ h₂ htb htc, ?_⟩
  rw [main ["3"] ["4"] ["2"] "+" "*" (by decide) (by decide) (by decide) (by decide)]
  decide!

/-- C2 amended, at the keys `6 / 0 + 1 =`, which leave `"1"`. -/
theorem calculate_chained_witness :
    "/" ∈ operatorTokens ∧ "+" ∈ operatorTokens ∧ ["0"] ≠ ([] : List String)
      ∧ ["1"] ≠ ([] : List String)
      ∧ (calculate (enter ["1"] (onOperatorClick "+" (enter ["0"] (onOperatorClick "/"
          (enter ["6"] (constructor "0" "" "" "none"))))))).currentInput = "1" :=
  ⟨by decide, by decide, by decide, by decide,
    (calculate_chained ["6"] ["0"] ["1"] "/" "+" (by decide) (by decide) (by decide)
      (by decide) "0" "" "" "none").1.trans (by decide!)⟩

/-- C3: when the pending operator is `/` and the buffer parses to zero,
`calculate()` gives the result `0` whatever the left operand is: the buffer,
the display and the result line read `"0"`; the keys `6 / 0 =` yield `"0"`. -/
theorem calculate_divide_by_zero (s : BasicCalculator) (h : s.operator = some "/")
    (hz : strictNeZero (parseFloat s.currentInput) = false) :
    (calculate s).currentInput = "0" ∧ (calculate s).resultSpan = "0"
      ∧ (calculate s).display = "0"
      ∧ ∀ d e r b : String, (calculate (enter ["0"] (onOperatorClick "/" (enter ["6"]
          (constructor d e r b))))).currentInput = "0" := by
  have key : ∀ t : BasicCalculator, t.operator = some "/" →
      strictNeZero (parseFloat t.currentInput) = false →
      (calculate t).currentInput = "0" ∧ (calculate t).resultSpan = "0"
        ∧ (calculate t).display = "0" := by
    intro t ht hz
    have hsw : switchOperator "/" (toNumber t.previousValue) (parseFloat t.currentInput)
        = some (JSNumber.fin false 0 0) := by
      unfold switchOperator; rw [hz]; rfl
    rw [calculate_pending t "/" _ ht hsw, round8_zero]
    exact ⟨rfl, rfl, rfl⟩
  refine ⟨(key s h hz).1, (key s h hz).2.1, (key s h hz).2.2, fun d e r b => ?_⟩
  have hopr : (enter ["0"] (onOperatorClick "/" (enter ["6"] (constructor d e r b)))).operator
      = some "/" := by rw [enter_operator]; rfl
  have hcur : (enter ["0"] (onOperatorClick "/" (enter ["6"] (constructor d e r b)))).currentInput
      = "0" := by
    rw [enter_after_reset ["0"] (by decide) _ rfl]; decide
  refine (key _ hopr ?_).1
  rw [hcur]; decide!

/-- C3, at the state reached by the keys `6 / 0`. -/
theorem calculate_divide_by_zero_witness :
    (enter ["0"] (onOperatorClick "/" (enter ["6"]
      (constructor "0" "" "" "none")))).operator = some "/" ∧
    strictNeZero (parseFloat (enter ["0"] (onOperatorClick "/" (enter ["6"]
      (constructor "0" "" "" "none")))).currentInput) = false ∧
    (calculate (enter ["0"] (onOperatorClick "/" (enter ["6"]
      (constructor "0" "" "" "none"))))).currentInput = "0" :=
  ⟨by decide, by decide!,
    (calculate_divide_by_zero
      (enter ["0"] (onOperatorClick "/" (enter ["6"] (constructor "0" "" "" "none"))))
      (by decide) (by decide!)).1⟩

/-- C4: `onOperatorClick(op)` folds the pending operation with `calculate()`
exactly when an operator is pending and `shouldResetDisplay` is false, and
ends with `operator = op`, `shouldResetDisplay = true` and `previousValue` the
number parsed from the (possibly folded) buffer; the remaining fields are
those of the folded state. -/
theorem onOperatorClick_spec (op : String) (s : BasicCalculator) :
    (onOperatorClick op s).operator = some op
      ∧ (onOperatorClick op s).shouldResetDisplay = true
      ∧ (onOperatorClick op s).previousValue
          = some (parseFloat (onOperatorClick op s).currentInput)
      ∧ (onOperatorClick op s).currentInput
          = (if s.operator ≠ none ∧ s.shouldResetDisplay = false
              then (calculate s).currentInput else s.currentInput)
      ∧ (onOperatorClick op s).display
          = (if s.operator ≠ none ∧ s.shouldResetDisplay = false
              then (calculate s).display else s.display)
      ∧ (onOperatorClick op s).exprSpan
          = (if s.operator ≠ none ∧ s.shouldResetDisplay = false
              then (calculate s).exprSpan else s.exprSpan)
      ∧ (onOperatorClick op s).resultSpan
          = (if s.operator ≠ none ∧ s.shouldResetDisplay = false
              then (calculate s).resultSpan else s.resultSpan)
      ∧ (onOperatorClick op s).resultBox
          = (if s.operator ≠ none ∧ s.shouldResetDisplay = false
              then (calculate s).resultBox else s.resultBox) := by
  unfold onOperatorClick
  refine ⟨rfl, rfl, rfl, ?_, ?_, ?_, ?_, ?_⟩ <;> split_ifs <;> rfl

/-- C5 as stated fails: on the freshly constructed (hence reachable) state no
operator is pending, `calculate()` returns at once and `shouldResetDisplay`
stays false. -/
theorem calculate_flag_counterexample :
    Reachable (constructor "0" "" "" "none")
      ∧ (calculate (constructor "0" "" "" "none")).shouldResetDisplay = false :=
  ⟨Reachable.init _ _ _ _, by decide⟩

/-- C5, amended: after `calculate()` from a reachable state the operator is
`null`; `shouldResetDisplay` is true whenever an operator was pending before
the call, and keeps its value when none was. -/
theorem calculate_clears_operator (s : BasicCalculator) (hs : Reachable s) :
    (calculate s).operator = none
      ∧ (s.operator ≠ none → (calculate s).shouldResetDisplay = true)
      ∧ (s.operator = none → (calculate s).shouldResetDisplay = s.shouldResetDisplay) := by
  rcases operator_of_reachable hs with h | ⟨op, hop, h⟩
  · rw [calculate_of_operator_none s h]
    exact ⟨h, fun hne => absurd h hne, fun _ => rfl⟩
  · obtain ⟨raw, hraw⟩ :=
      switchOperator_isSome hop (toNumber s.previousValue) (parseFloat s.currentInput)
    rw [calculate_pending s op raw h hraw]
    refine ⟨rfl, fun _ => rfl, fun hn => ?_⟩
    rw [h] at hn; exact absurd hn (by simp)

/-- C5 amended, at the state reached by the keys `3 +`. -/
theorem calculate_clears_operator_witness :
    Reachable (onOperatorClick "+" (onNumberClick "3" (constructor "0" "" "" "none")))
      ∧ (calculate (onOperatorClick "+"
          (onNumberClick "3" (constructor "0" "" "" "none")))).operator = none
      ∧ (calculate (onOperatorClick "+"
          (onNumberClick "3" (constructor "0" "" "" "none")))).shouldResetDisplay = true :=
  have hr : Reachable (onOperatorClick "+" (onNumberClick "3" (constructor "0" "" "" "none"))) :=
    Reachable.operator "+" (Reachable.number "3" (Reachable.init _ _ _ _) (by decide))
      (by decide)
  ⟨hr, (calculate_clears_operator _ hr).1, (calculate_clears_operator _ hr).2.1 (by decide)⟩

/-- C6: with no operator pending, `calculate()` changes nothing: the four
fields, the display and the result line are those of the state before. -/
theorem calculate_noop (s : BasicCalculator) (h : s.operator = none) :
    calculate s = s :=
  calculate_of_operator_none s h

/-- C6, at the state reached by the key `5`. -/
theorem calculate_noop_witness :
    (onNumberClick "5" (constructor "0" "" "" "none")).operator = none
      ∧ calculate (onNumberClick "5" (constructor "0" "" "" "none"))
          = onNumberClick "5" (constructor "0" "" "" "none") :=
  ⟨by decide, calculate_noop _ (by decide)⟩

/-- C7: with `shouldResetDisplay` false and a decimal point already in the
buffer, `onNumberClick(".")` leaves the buffer and every other field as they
were and only renders the display again; the keys `1 . . 5` yield `"1.5"`. -/
theorem onNumberClick_duplicate_point (s : BasicCalculator)
    (hr : s.shouldResetDisplay = false) (hp : '.' ∈ s.currentInput.data) :
    onNumberClick "." s = updateDisplay s
      ∧ (onNumberClick "." s).currentInput = s.currentInput
      ∧ (onNumberClick "." s).operator = s.operator
      ∧ (onNumberClick "." s).previousValue = s.previousValue
      ∧ (onNumberClick "." s).shouldResetDisplay = s.shouldResetDisplay
      ∧ (onNumberClick "." s).exprSpan = s.exprSpan
      ∧ (onNumberClick "." s).resultSpan = s.resultSpan
      ∧ (onNumberClick "." s).resultBox = s.resultBox
      ∧ ∀ d e r b : String,
          (enter ["1", ".", ".", "5"] (constructor d e r b)).currentInput = "1.5" := by
  have h : onNumberClick "." s = updateDisplay s := by
    unfold onNumberClick
    simp [hr, hp]
  rw [h]
  refine ⟨rfl, updateDisplay_currentInput s, updateDisplay_operator s,
    updateDisplay_previousValue s, updateDisplay_shouldResetDisplay s,
    updateDisplay_exprSpan s, updateDisplay_resultSpan s, updateDisplay_resultBox s,
    fun d e r b => ?_⟩
  rw [enter_fresh]; decide

/-- C7, at the state reached by the keys `1 .`. -/
theorem onNumberClick_duplicate_point_witness :
    (enter ["1", "."] (constructor "0" "" "" "none")).shouldResetDisplay = false
      ∧ '.' ∈ (enter ["1", "."] (constructor "0" "" "" "none")).currentInput.data
      ∧ (onNumberClick "." (enter ["1", "."] (constructor "0" "" "" "none"))).currentInput
          = (enter ["1", "."] (constructor "0" "" "" "none")).currentInput :=
  ⟨by decide, by decide,
    (onNumberClick_duplicate_point (enter ["1", "."] (constructor "0" "" "" "none"))
      (by decide) (by decide)).2.1⟩

/-- C8: with `shouldResetDisplay` false, a digit token replaces a buffer that
is exactly `"0"` and is appended to any other buffer; a decimal point is
appended when the buffer has none; the keys `0 5` yield `"5"`. -/
theorem onNumberClick_append (s : BasicCalculator) (hr : s.shouldResetDisplay = false) :
    (∀ d ∈ digitTokens, (onNumberClick d s).currentInput
        = (if s.currentInput = "0" then d else s.currentInput ++ d))
      ∧ ('.' ∉ s.currentInput.data →
          (onNumberClick "." s).currentInput = s.currentInput ++ ".")
      ∧ ∀ d e r b : String, (enter ["0", "5"] (constructor d e r b)).currentInput = "5" := by
  refine ⟨fun d hd => ?_, fun hp => ?_, fun d e r b => ?_⟩
  · have hd' : d ≠ "." := by
      intro h; rw [h] at hd; revert hd; decide
    rw [onNumberClick_currentInput, hr]
    unfold nextInput
    simp [hd']
  · rw [onNumberClick_currentInput, hr]
    unfold nextInput
    simp [hp]
  · rw [enter_fresh]; decide

/-- C8, at the state reached by the key `1`. -/
theorem onNumberClick_append_witness :
    (onNumberClick "1" (constructor "0" "" "" "none")).shouldResetDisplay = false
      ∧ (onNumberClick "2" (onNumberClick "1" (constructor "0" "" "" "none"))).currentInput
          = "12" :=
  ⟨by decide,
    ((onNumberClick_append (onNumberClick "1" (constructor "0" "" "" "none"))
      (by decide)).1 "2" (by decide)).trans (by decide)⟩

/-- C9: with `shouldResetDisplay` true, `onNumberClick(t)` replaces the buffer
by `t` (by `"0."` when `t` is the decimal point), clears the flag and leaves
the operator and the left operand as they were. -/
theorem onNumberClick_reset (s : BasicCalculator) (hr : s.shouldResetDisplay = true)
    (t : String) :
    (onNumberClick t s).currentInput = (if t = "." then "0." else t)
      ∧ (onNumberClick t s).shouldResetDisplay = false
      ∧ (onNumberClick t s).operator = s.operator
      ∧ (onNumberClick t s).previousValue = s.previousValue := by
  refine ⟨?_, onNumberClick_shouldResetDisplay t s, onNumberClick_operator t s,
    onNumberClick_previousValue t s⟩
  rw [onNumberClick_currentInput, hr]
  unfold nextInput
  simp

/-- C9, at the state reached by the keys `3 +`, for the decimal point. -/
theorem onNumberClick_reset_witness :
    (onOperatorClick "+" (onNumberClick "3" (constructor "0" "" "" "none"))).shouldResetDisplay
        = true
      ∧ (onNumberClick "." (onOperatorClick "+"
          (onNumberClick "3" (constructor "0" "" "" "none")))).currentInput = "0." :=
  ⟨by decide,
    (onNumberClick_reset (onOperatorClick "+" (onNumberClick "3" (constructor "0" "" "" "none")))
      (by decide) ".").1⟩

/-- C10: `delete()` takes the last character off a buffer whose length is
greater than 1 and resets a buffer of length 1 to `"0"`, the length and the
characters being those of JavaScript, UTF-16 code units: the result has one
code unit less; it is the buffer without its last character when that
character is one code unit, and keeps every character before the last one when
that one is two code units, of which `slice(0, -1)` removes the second.  The
result is never empty, the operator, the left operand and the reset flag are
untouched; from `"7"` it gives `"0"`, and from `"7"` followed by U+1F600 two
calls give `"7"`. -/
theorem delete_spec (s : BasicCalculator) :
    (delete s).currentInput
        = (if JS.length s.currentInput > 1 then sliceButLast s.currentInput else "0")
      ∧ (JS.length s.currentInput > 1 →
          JS.length (delete s).currentInput + 1 = JS.length s.currentInput)
      ∧ (JS.length s.currentInput > 1 →
          ∀ c : Char, s.currentInput.data.getLast? = some c → c.toNat < 65536 →
            s.currentInput = (delete s).currentInput.push c)
      ∧ (JS.length s.currentInput > 1 →
          ∀ c : Char, s.currentInput.data.getLast? = some c → 65536 ≤ c.toNat →
            (delete s).currentInput.data.dropLast = s.currentInput.data.dropLast)
      ∧ (JS.length s.currentInput = 1 → (delete s).currentInput = "0")
      ∧ (delete s).currentInput ≠ ""
      ∧ (delete s).operator = s.operator
      ∧ (delete s).previousValue = s.previousValue
      ∧ (delete s).shouldResetDisplay = s.shouldResetDisplay
      ∧ (∀ d e r b : String, (delete (enter ["7"] (constructor d e r b))).currentInput = "0")
      ∧ (s.currentInput = String.mk ['7', Char.ofNat 128512] →
          (delete (delete s)).currentInput = "7") := by
  have key : ∀ t : BasicCalculator, (delete t).currentInput
      = (if JS.length t.currentInput > 1 then sliceButLast t.currentInput else "0") := by
    intro t; unfold delete; rw [updateDisplay_currentInput]; split_ifs <;> rfl
  have hcur := key s
  have hne : JS.length s.currentInput > 1 → s.currentInput.data ≠ [] := by
    intro h h0
    have : s.currentInput = String.mk [] := String.ext h0
    rw [this] at h
    exact absurd h (by decide)
  have hlast : ∀ c : Char, s.currentInput.data.getLast? = some c →
      s.currentInput = String.mk (s.currentInput.data.dropLast ++ [c]) := by
    intro c hc
    apply String.ext
    show s.currentInput.data = s.currentInput.data.dropLast ++ [c]
    rcases List.eq_nil_or_concat s.currentInput.data with h0 | ⟨cs, d, hd⟩
    · rw [h0] at hc; exact absurd hc (by simp)
    · rw [List.concat_eq_append] at hd
      rw [hd] at hc ⊢
      rw [List.getLast?_append, List.getLast?_singleton] at hc
      have : d = c := by simpa [Option.or] using hc
      rw [List.dropLast_concat, this]
  refine ⟨hcur, fun h => ?_, fun h c hc hb => ?_, fun h c hc hb => ?_, fun h => ?_, ?_, ?_, ?_, ?_,
    fun d e r b => ?_, fun h => ?_⟩
  · rw [hcur, if_pos h]
    exact length_sliceButLast _ (hne h)
  · rw [hcur, if_pos h]
    have h1 := hlast c hc
    generalize s.currentInput.data.dropLast = cs at h1
    rw [h1, sliceButLast_concat, if_pos hb]
    rfl
  · rw [hcur, if_pos h]
    have h1 := hlast c hc
    have h2 : sliceButLast s.currentInput
        = String.mk (s.currentInput.data.dropLast ++ [Char.ofNat 65533]) := by
      generalize s.currentInput.data.dropLast = cs at h1 ⊢
      rw [h1, sliceButLast_concat, if_neg (by omega)]
    rw [h2]
    exact List.dropLast_concat
  · rw [hcur, if_neg (by omega)]
  · rw [hcur]
    split_ifs with h
    · intro h0
      have h1 := length_sliceButLast _ (hne h)
      rw [h0] at h1
      have h2 : JS.length "" = 0 := rfl
      omega
    · decide
  · unfold delete; rw [updateDisplay_operator]; split_ifs <;> rfl
  · unfold delete; rw [updateDisplay_previousValue]; split_ifs <;> rfl
  · unfold delete; rw [updateDisplay_shouldResetDisplay]; split_ifs <;> rfl
  · have h7 : (enter ["7"] (constructor d e r b)).currentInput = "7" := by
      rw [enter_fresh]; decide
    rw [key, h7]
    decide
  · rw [key, key, h]
    decide

end BasicCalculator

/-! ## Invariants of the reachable states and properties of the rounding -/

namespace JS

theorem shortestAux_ge (m e : Nat) (n : Int) (fuel k s k1 : Nat)
    (h : shortestAux m e n fuel k = some (s, k1)) : k ≤ k1 := by
  induction fuel generalizing k with
  | zero =>
    rw [show shortestAux m e n 0 k = none from rfl] at h
    cases h
  | succ fuel ih =>
    rw [shortestAux_succ] at h
    cases hc : candidate m e n k with
    | some s' =>
      rw [hc] at h
      have : (s', k) = (s, k1) := Option.some.inj h
      have := (Prod.mk.inj this).2
      omega
    | none =>
      rw [hc] at h
      have := ih (k + 1) h
      omega

theorem shortest_digits_pos (m e : Nat) : 1 ≤ (shortest m e).2.1 := by
  rw [shortest_def]
  cases h : shortestAux m e (decimalExponent (m * 2 ^ e)) 1500 1 with
  | none => exact le_rfl
  | some sk =>
    obtain ⟨s, k⟩ := sk
    have := shortestAux_ge _ _ _ _ _ _ _ h
    dsimp only
    split_ifs <;> exact this

theorem count_point_of_digits (l : List Char) (h : ∀ c ∈ l, isDigit c = true) :
    l.count '.' = 0 := by
  rw [List.count_eq_zero]
  intro hm
  exact absurd (h _ hm) (by decide)

theorem count_point_digitsK (k s : Nat) : (digitsK k s).count '.' = 0 :=
  count_point_of_digits _ (digitsK_isDigit k s)

theorem count_point_replicate (z : Nat) : (List.replicate z '0').count '.' = 0 :=
  count_point_of_digits _ (replicate_zero_isDigit z)

theorem count_point_formatDecimal (s k : Nat) (n : Int) :
    (formatDecimal s k n).count '.' ≤ 1 := by
  have hp : ('.' == '.') = true := rfl
  have he : ('e' == '.') = false := rfl
  have h0 : ('0' == '.') = false := rfl
  have hplus : ('+' == '.') = false := rfl
  have hminus : ('-' == '.') = false := rfl
  unfold formatDecimal
  simp only []
  split_ifs <;>
    simp [List.count_append, List.count_cons, count_point_digitsK, count_point_replicate,
      hp, he, h0, hplus, hminus]

theorem goodBuffer_zero : GoodBuffer ("0" : String).data :=
  ⟨⟨'0', [], rfl, by decide⟩, by decide⟩

theorem goodBuffer_toString (x : JSNumber) : GoodBuffer (toString x).data := by
  cases x with
  | nan => exact ⟨⟨'N', _, rfl, by decide⟩, by decide⟩
  | inf s => cases s
             · exact ⟨⟨'I', _, rfl, by decide⟩, by decide⟩
             · exact ⟨⟨'-', _, rfl, by decide⟩, by decide⟩
  | fin s m e =>
    by_cases hm : m = 0
    · subst hm
      have : toString (JSNumber.fin s 0 e) = "0" := rfl
      rw [this]
      exact goodBuffer_zero
    · rw [toString_fin s m e hm]
      obtain ⟨c, r, hcr, hd⟩ := formatDecimal_head (shortest m e).1 (shortest m e).2.1
        (shortest m e).2.2 (shortest_digits_pos m e)
      have hcnt := count_point_formatDecimal (shortest m e).1 (shortest m e).2.1
        (shortest m e).2.2
      cases s with
      | true =>
        refine ⟨⟨'-', _, rfl, by decide⟩, ?_⟩
        simp only [if_true, List.singleton_append, List.count_cons]
        have : ('-' == '.') = false := rfl
        simp only [this, Bool.false_eq_true, if_false, add_zero]
        exact hcnt
      | false =>
        simp only [Bool.false_eq_true, if_false, List.nil_append]
        refine ⟨⟨c, r, hcr, ?_⟩, hcnt⟩
        intro hc; rw [hc] at hd; exact absurd hd (by decide)

theorem goodBuffer_dropLast (cs : List Char) (h : GoodBuffer cs) (hl : 1 < cs.length) :
    GoodBuffer cs.dropLast := by
  obtain ⟨⟨c, r, hcr, hc⟩, hcnt⟩ := h
  subst hcr
  constructor
  · cases r with
    | nil => simp at hl
    | cons d r => exact ⟨c, (d :: r).dropLast, rfl, hc⟩
  · exact le_trans (List.Sublist.count_le (List.dropLast_sublist _) _) hcnt

theorem goodBuffer_sliceButLast (str : String) (h : GoodBuffer str.data)
    (hl : 1 < length str) : GoodBuffer (sliceButLast str).data := by
  rcases List.eq_nil_or_concat str.data with h0 | ⟨cs, c, hc⟩
  · obtain ⟨⟨a, r, har, _⟩, _⟩ := h
    rw [h0] at har
    exact absurd har (by simp)
  · rw [List.concat_eq_append] at hc
    have hs : str = String.mk (cs ++ [c]) := String.ext hc
    rw [hs] at hl ⊢
    rw [hc] at h
    rw [sliceButLast_concat]
    rw [length_concat] at hl
    by_cases hb : c.toNat < 65536
    · rw [if_pos hb] at hl ⊢
      have hne : cs ≠ [] := by
        intro h0
        rw [h0] at hl
        exact absurd hl (by decide)
      have h2 := goodBuffer_dropLast (cs ++ [c]) h (by
        cases cs with
        | nil => exact absurd rfl hne
        | cons a l => simp)
      rw [List.dropLast_concat] at h2
      exact h2
    · rw [if_neg hb]
      obtain ⟨⟨a, r, har, ha⟩, hcnt⟩ := h
      have hq : (Char.ofNat 65533 == '.') = false := by decide
      constructor
      · cases cs with
        | nil => exact ⟨Char.ofNat 65533, [], rfl, by decide⟩
        | cons b l =>
          have hab : b = a := by
            have := congrArg List.head? har
            simpa using this
          exact ⟨b, l ++ [Char.ofNat 65533], rfl, by rw [hab]; exact ha⟩
      · have h1 : (cs ++ [Char.ofNat 65533]).count '.' = cs.count '.' := by
          simp [List.count_append, List.count_cons, hq]
        have h2 : cs.count '.' ≤ (cs ++ [c]).count '.' := by
          rw [List.count_append]; omega
        show (cs ++ [Char.ofNat 65533]).count '.' ≤ 1
        omega

end JS

namespace BasicCalculator

open JS

theorem delete_operator (s : BasicCalculator) : (delete s).operator = s.operator := by
  unfold delete; rw [updateDisplay_operator]; split_ifs <;> rfl

theorem delete_previousValue (s : BasicCalculator) :
    (delete s).previousValue = s.previousValue := by
  unfold delete; rw [updateDisplay_previousValue]; split_ifs <;> rfl

theorem delete_shouldResetDisplay (s : BasicCalculator) :
    (delete s).shouldResetDisplay = s.shouldResetDisplay := by
  unfold delete; rw [updateDisplay_shouldResetDisplay]; split_ifs <;> rfl

theorem delete_currentInput (s : BasicCalculator) :
    (delete s).currentInput
      = (if JS.length s.currentInput > 1 then sliceButLast s.currentInput else "0") := by
  unfold delete; rw [updateDisplay_currentInput]; split_ifs <;> rfl

theorem calculate_previousValue (s : BasicCalculator) :
    (calculate s).previousValue = s.previousValue := by
  cases hop : s.operator with
  | none => rw [calculate_of_operator_none s hop]
  | some op =>
    cases hsw : switchOperator op (toNumber s.previousValue) (parseFloat s.currentInput) with
    | none =>
      unfold calculate
      simp only [hop, hsw]
    | some raw => rw [calculate_pending s op raw hop hsw]


theorem goodBuffer_nextInput (t cur : String) (reset : Bool) (ht : t ∈ numberTokens)
    (h : GoodBuffer cur.data) : GoodBuffer (nextInput t cur reset).data := by
  have hdig : t = "." ∨ (∃ c, t.data = [c] ∧ c ≠ '.') := by
    simp only [numberTokens, List.mem_cons, List.mem_singleton, List.not_mem_nil,
      or_false] at ht
    rcases ht with rfl | rfl | rfl | rfl | rfl | rfl | rfl | rfl | rfl | rfl | rfl
    all_goals first
      | exact Or.inl rfl
      | exact Or.inr ⟨_, rfl, by decide⟩
  obtain ⟨⟨c, r, hcr, hc⟩, hcnt⟩ := h
  unfold nextInput
  rcases hdig with rfl | ⟨d, hd, hdne⟩
  · cases reset
    · simp only [Bool.false_eq_true, if_false, if_true]
      split_ifs with hp
      · exact ⟨⟨c, r, hcr, hc⟩, hcnt⟩
      · refine ⟨⟨c, r ++ ['.'], by rw [String.data_append, hcr]; rfl, hc⟩, ?_⟩
        rw [String.data_append, List.count_append, List.count_eq_zero.2 hp]
        decide
    · simp only [if_true]
      exact ⟨⟨'0', _, rfl, by decide⟩, by decide⟩
  · have htne : t ≠ "." := by
      intro h; rw [h] at hd; cases hd; exact hdne rfl
    have hgood : GoodBuffer t.data := by
      rw [hd]
      refine ⟨⟨d, [], rfl, hdne⟩, ?_⟩
      rw [List.count_cons, List.count_nil]
      have : (d == '.') = false := by simpa using hdne
      simp [this]
    cases reset
    · simp only [Bool.false_eq_true, if_false, if_neg htne]
      split_ifs
      · exact hgood
      · refine ⟨⟨c, r ++ t.data, by rw [String.data_append, hcr]; rfl, hc⟩, ?_⟩
        rw [String.data_append, List.count_append, hd, List.count_cons, List.count_nil]
        have : (d == '.') = false := by simpa using hdne
        simp only [this, Bool.false_eq_true, if_false, add_zero]
        exact hcnt
    · simp only [if_true, if_neg htne]
      exact hgood

theorem calculate_currentInput_cases (s : BasicCalculator) :
    (calculate s).currentInput = s.currentInput
      ∨ ∃ x, (calculate s).currentInput = JS.toString x := by
  cases hop : s.operator with
  | none => left; rw [calculate_of_operator_none s hop]
  | some op =>
    cases hsw : switchOperator op (toNumber s.previousValue) (parseFloat s.currentInput) with
    | none =>
      left
      unfold calculate
      simp only [hop, hsw]
    | some raw =>
      right
      exact ⟨round8 raw, by rw [calculate_pending s op raw hop hsw]⟩

theorem goodBuffer_calculate (s : BasicCalculator) (h : GoodBuffer s.currentInput.data) :
    GoodBuffer (calculate s).currentInput.data := by
  rcases calculate_currentInput_cases s with h1 | ⟨x, h1⟩
  · rw [h1]; exact h
  · rw [h1]; exact goodBuffer_toString x

/-- In every reachable state the buffer starts with a character other than the
decimal point and holds at most one decimal point. -/
theorem goodBuffer_of_reachable {s : BasicCalculator} (h : Reachable s) :
    GoodBuffer s.currentInput.data := by
  induction h with
  | init d e r b => exact goodBuffer_zero
  | number t _ ht ih =>
    rw [onNumberClick_currentInput]
    exact goodBuffer_nextInput t _ _ ht ih
  | @operator s op _ _ ih =>
    have : (onOperatorClick op s).currentInput
        = (if s.operator ≠ none ∧ s.shouldResetDisplay = false
            then (calculate s).currentInput else s.currentInput) := by
      unfold onOperatorClick; split_ifs <;> rfl
    rw [this]
    split_ifs
    · exact goodBuffer_calculate s ih
    · exact ih
  | equals _ ih => exact goodBuffer_calculate _ ih
  | clear _ _ => exact goodBuffer_zero
  | @backspace s _ ih =>
    rw [delete_currentInput]
    split_ifs with hl
    · exact goodBuffer_sliceButLast _ ih hl
    · exact goodBuffer_zero

/-- In a reachable state a pending operator is one of the five tokens and comes
with a left operand. -/
theorem pending_of_reachable {s : BasicCalculator} (h : Reachable s) :
    ∀ op, s.operator = some op → op ∈ operatorTokens ∧ ∃ x, s.previousValue = some x := by
  induction h with
  | init d e r b => intro op h; exact absurd h (by simp [constructor])
  | number t _ _ ih =>
    intro op h
    rw [onNumberClick_operator] at h
    rw [onNumberClick_previousValue]
    exact ih op h
  | operator op' _ hop _ =>
    intro op h
    have h1 : (some op' : Option String) = some op := h
    cases h1
    exact ⟨hop, _, rfl⟩
  | @equals s hs ih =>
    intro op h
    rcases operator_of_reachable hs with h0 | ⟨op0, hop0, h0⟩
    · rw [calculate_of_operator_none s h0] at h ⊢
      exact ih op h
    · obtain ⟨raw, hraw⟩ :=
        switchOperator_isSome hop0 (toNumber s.previousValue) (parseFloat s.currentInput)
      rw [calculate_pending s op0 raw h0 hraw] at h
      exact absurd h (by simp)
  | clear _ _ =>
    intro op h
    unfold clearAll at h
    rw [updateDisplay_operator] at h
    exact absurd h (by simp)
  | @backspace s _ ih =>
    intro op h
    rw [delete_operator] at h
    rw [delete_previousValue]
    exact ih op h

end BasicCalculator

namespace JS

theorem digitsToNat_lt (l : List Char) (h : ∀ c ∈ l, isDigit c = true) :
    digitsToNat l < 10 ^ l.length := by
  induction l with
  | nil => simp [digitsToNat]
  | cons c l ih =>
    have hc := h c (List.mem_cons_self _ _)
    have hl := ih (fun d hd => h d (List.mem_cons_of_mem _ hd))
    have h1 : digitsToNat (c :: l) = digitsToNat [c] * 10 ^ l.length + digitsToNat l :=
      digitsToNat_append [c] l
    have h2 : digitsToNat [c] ≤ 9 := by
      unfold isDigit at hc
      simp only [Bool.and_eq_true, decide_eq_true_eq] at hc
      simp only [digitsToNat, List.foldl_cons, List.foldl_nil]
      omega
    rw [h1, List.length_cons, pow_succ]
    have h3 : digitsToNat [c] * 10 ^ l.length ≤ 9 * 10 ^ l.length := Nat.mul_le_mul_right _ h2
    omega

theorem mkNumber_ne_nan (neg : Bool) (me : Nat × Nat) : mkNumber neg me ≠ JSNumber.nan := by
  unfold mkNumber
  split_ifs <;> simp

theorem isFinite_mkNumber (neg : Bool) (me : Nat × Nat) (h : me.2 ≤ 2045) :
    isFinite (mkNumber neg me) = true := by
  unfold mkNumber
  rw [if_neg (by omega)]
  rfl

theorem finite_bound : (10 ^ 308 * 2 ^ 1074) / 2 ^ 2045 + 1 < 2 ^ 53
    ∧ 10 ^ 308 * 2 ^ 1074 < 2 ^ 2098 := by decide!

/-- A value below `10^308` rounds to a finite Number. -/
theorem roundScaled_finite (N D : Nat) (h : N < 10 ^ 308 * unit * D) :
    (roundScaled N D).2 ≤ 2045 := by
  have hq : N / D < 10 ^ 308 * unit := Nat.div_lt_of_lt_mul (by rw [Nat.mul_comm]; exact h)
  have hq2 : N / D < 2 ^ (2097 + 1) := by
    have := finite_bound.2
    rw [← unit_eq] at this
    exact lt_trans hq this
  have hlog := log2_lt_of_lt (N / D) 2097 hq2
  unfold roundScaled
  simp only []
  split_ifs with hm
  · simp only []
    by_contra hc
    have he : log2 (N / D) - 52 = 2045 := by omega
    rw [he] at hm
    have hb := (roundHalfEven_bounds N (D * 2 ^ 2045)).2
    rw [hm, ← Nat.div_div_eq_div_mul] at hb
    have h1 : N / D / 2 ^ 2045 ≤ (10 ^ 308 * unit) / 2 ^ 2045 :=
      Nat.div_le_div_right (le_of_lt hq)
    have h2 := finite_bound.1
    rw [← unit_eq] at h2
    omega
  · simp only []
    omega

theorem parseFloat_digitBuffer (cs : List Char) (h : DigitBuffer cs) :
    ∃ N D, 0 < D ∧ parseFloat (String.mk cs) = mkNumber false (roundScaled N D)
      ∧ N < 10 ^ cs.length * unit * D := by
  obtain ⟨ip, rest, hcs, hne, hd, hrest⟩ := h
  obtain ⟨c, r, hcr, hc⟩ := head_digit ip rest hne hd
  have hS := digitsToNat_lt ip hd
  have hpow : ∀ a b : Nat, a ≤ b → 10 ^ a ≤ 10 ^ b :=
    fun a b hab => Nat.pow_le_pow_right (by norm_num) hab
  rcases hrest with hr | ⟨fp, hr, hf⟩
  · subst hr
    refine ⟨digitsToNat ip * unit * 10 ^ 0, 1, by norm_num, ?_, ?_⟩
    · rw [hcs, hcr, parseFloat_mk_digit c r hc, ← hcr,
        parseUnsigned_integer false ip [] hne hd (Or.inl rfl), parseExponent_nil]
      rfl
    · rw [hcs, List.append_nil]
      simp only [pow_zero, mul_one]
      exact Nat.mul_lt_mul_of_pos_right hS unit_pos
  · subst hr
    have hS2 := digitsToNat_lt (ip ++ fp) (by
      intro d hd'
      rcases List.mem_append.1 hd' with h1 | h1
      · exact hd d h1
      · exact hf d h1)
    have hlen : (ip ++ fp).length ≤ cs.length := by
      rw [hcs]; simp
    have hparse : parseFloat (String.mk cs)
        = mkNumber false (roundScaled
            (scale10 (digitsToNat (ip ++ fp) * unit) 1 (0 - (fp.length : Int))).1
            (scale10 (digitsToNat (ip ++ fp) * unit) 1 (0 - (fp.length : Int))).2) := by
      have := parseUnsigned_point false ip fp [] hne hd hf (Or.inl rfl)
      rw [List.append_nil, parseExponent_nil] at this
      rw [hcs, hcr, parseFloat_mk_digit c r hc, ← hcr, this]
    have hlt : digitsToNat (ip ++ fp) * unit < 10 ^ cs.length * unit :=
      Nat.mul_lt_mul_of_pos_right (lt_of_lt_of_le hS2 (hpow _ _ hlen)) unit_pos
    by_cases hfp : fp.length = 0
    · refine ⟨digitsToNat (ip ++ fp) * unit * 10 ^ 0, 1, by norm_num, ?_, ?_⟩
      · rw [hparse, hfp]
        rfl
      · simp only [pow_zero, mul_one]
        exact hlt
    · refine ⟨digitsToNat (ip ++ fp) * unit, 1 * 10 ^ fp.length, ?_, ?_, ?_⟩
      · exact Nat.mul_pos (by norm_num) (Nat.pow_pos (by norm_num))
      · rw [hparse, scale10_neg _ _ _ (by omega)]
        have : (-(0 - (fp.length : Int))).toNat = fp.length := by omega
        rw [this]
      · calc digitsToNat (ip ++ fp) * unit
            < 10 ^ cs.length * unit := hlt
          _ ≤ 10 ^ cs.length * unit * (1 * 10 ^ fp.length) :=
            Nat.le_mul_of_pos_right _ (Nat.mul_pos (by norm_num) (Nat.pow_pos (by norm_num)))

theorem digitBuffer_zero : DigitBuffer ("0" : String).data :=
  ⟨['0'], [], rfl, by simp, by decide, Or.inl rfl⟩

theorem digitBuffer_dropLast (cs : List Char) (h : DigitBuffer cs) (hl : 1 < cs.length) :
    DigitBuffer cs.dropLast := by
  obtain ⟨ip, rest, hcs, hne, hd, hrest⟩ := h
  subst hcs
  rcases hrest with hr | ⟨fp, hr, hf⟩
  · subst hr
    rw [List.append_nil] at hl ⊢
    refine ⟨ip.dropLast, [], by simp, ?_, ?_, Or.inl rfl⟩
    · intro h0
      have := List.length_dropLast ip
      rw [h0] at this
      simp at this
      omega
    · intro c hc
      exact hd c (List.dropLast_subset _ hc)
  · subst hr
    by_cases hfp : fp = []
    · subst hfp
      refine ⟨ip, [], ?_, hne, hd, Or.inl rfl⟩
      rw [List.append_nil]
      exact List.dropLast_concat
    · refine ⟨ip, '.' :: fp.dropLast, ?_, hne, hd, Or.inr ⟨_, rfl, ?_⟩⟩
      · rw [List.dropLast_append_of_ne_nil _ (by simp)]
        congr 1
        cases fp with
        | nil => exact absurd rfl hfp
        | cons a l => rfl
      · intro c hc
        exact hf c (List.dropLast_subset _ hc)

theorem digit_lt (c : Char) (h : isDigit c = true) : c.toNat < 65536 := by
  unfold isDigit at h
  simp only [Bool.and_eq_true, decide_eq_true_eq] at h
  omega

theorem digitBuffer_sliceButLast (str : String) (h : DigitBuffer str.data)
    (hl : 1 < length str) : DigitBuffer (sliceButLast str).data := by
  have hall : ∀ c ∈ str.data, c.toNat < 65536 := by
    obtain ⟨ip, rest, hcs, _, hd, hrest⟩ := h
    intro c hc
    rw [hcs] at hc
    rcases List.mem_append.1 hc with h1 | h1
    · exact digit_lt c (hd c h1)
    · rcases hrest with hr | ⟨fp, hr, hf⟩
      · rw [hr] at h1; exact absurd h1 (List.not_mem_nil c)
      · rw [hr] at h1
        rcases List.mem_cons.1 h1 with h2 | h2
        · rw [h2]; decide
        · exact digit_lt c (hf c h2)
  rcases List.eq_nil_or_concat str.data with h0 | ⟨cs, c, hc⟩
  · obtain ⟨ip, rest, hcs, hne, _, _⟩ := h
    rw [h0] at hcs
    have : ip = [] := (List.append_eq_nil.1 hcs.symm).1
    exact absurd this hne
  · rw [List.concat_eq_append] at hc
    have hs : str = String.mk (cs ++ [c]) := String.ext hc
    have hb : c.toNat < 65536 := hall c (by rw [hc]; simp)
    rw [hs] at hl ⊢
    rw [hc] at h
    rw [sliceButLast_concat, if_pos hb]
    rw [length_concat, if_pos hb] at hl
    have hne : cs ≠ [] := by
      intro h0
      rw [h0] at hl
      exact absurd hl (by decide)
    have h2 := digitBuffer_dropLast (cs ++ [c]) h (by
      cases cs with
      | nil => exact absurd rfl hne
      | cons a l => simp)
    rw [List.dropLast_concat] at h2
    exact h2

end JS

namespace BasicCalculator

open JS

theorem digitBuffer_nextInput (t cur : String) (ht : t ∈ numberTokens)
    (h : DigitBuffer cur.data) : DigitBuffer (nextInput t cur false).data := by
  have hdig : t = "." ∨ (∃ c, t.data = [c] ∧ isDigit c = true ∧ t ≠ ".") := by
    simp only [numberTokens, List.mem_cons, List.mem_singleton, List.not_mem_nil,
      or_false] at ht
    rcases ht with rfl | rfl | rfl | rfl | rfl | rfl | rfl | rfl | rfl | rfl | rfl
    all_goals first
      | exact Or.inl rfl
      | exact Or.inr ⟨_, rfl, by decide, by decide⟩
  unfold nextInput
  simp only [Bool.false_eq_true, if_false]
  obtain ⟨ip, rest, hcs, hne, hd, hrest⟩ := h
  rcases hdig with rfl | ⟨d, hd1, hd2, htne⟩
  · simp only [if_true]
    split_ifs with hp
    · exact ⟨ip, rest, hcs, hne, hd, hrest⟩
    · rcases hrest with hr | ⟨fp, hr, hf⟩
      · subst hr
        refine ⟨ip, ['.'], ?_, hne, hd, Or.inr ⟨[], rfl, by simp⟩⟩
        rw [String.data_append, hcs, List.append_nil]
      · exfalso
        apply hp
        rw [hcs, hr]
        simp
  · rw [if_neg htne]
    split_ifs with h0
    · exact ⟨[d], [], by rw [hd1]; rfl, by simp, by simpa using hd2, Or.inl rfl⟩
    · rcases hrest with hr | ⟨fp, hr, hf⟩
      · subst hr
        refine ⟨ip ++ [d], [], ?_, by simp, ?_, Or.inl rfl⟩
        · rw [String.data_append, hcs, hd1]; simp
        · intro c hc
          rcases List.mem_append.1 hc with h1 | h1
          · exact hd c h1
          · rw [List.mem_singleton.1 h1]; exact hd2
      · subst hr
        refine ⟨ip, '.' :: (fp ++ [d]), ?_, hne, hd, Or.inr ⟨_, rfl, ?_⟩⟩
        · rw [String.data_append, hcs, hd1]; simp
        · intro c hc
          rcases List.mem_append.1 hc with h1 | h1
          · exact hf c h1
          · rw [List.mem_singleton.1 h1]; exact hd2

/-- While an operand is typed the reset flag is clear and the buffer is a digit
string with an optional decimal point. -/
theorem digitBuffer_of_typing {s : BasicCalculator} (h : Typing s) :
    s.shouldResetDisplay = false ∧ DigitBuffer s.currentInput.data := by
  induction h with
  | init d e r b => exact ⟨rfl, digitBuffer_zero⟩
  | number t _ ht ih =>
    refine ⟨onNumberClick_shouldResetDisplay _ _, ?_⟩
    rw [onNumberClick_currentInput, ih.1]
    exact digitBuffer_nextInput t _ ht ih.2
  | clear _ _ => exact ⟨rfl, digitBuffer_zero⟩
  | @backspace s _ ih =>
    refine ⟨by rw [delete_shouldResetDisplay]; exact ih.1, ?_⟩
    rw [delete_currentInput]
    split_ifs with hl
    · exact digitBuffer_sliceButLast _ ih.2 hl
    · exact digitBuffer_zero

end BasicCalculator

namespace JS

theorem canon_of_lt (k t : Nat) (hk : 0 < k) (hk2 : k < 2 ^ 53) (ht : 52 ≤ t) :
    ∃ m e, Canon m e ∧ m * 2 ^ e = k * 2 ^ t ∧ e ≤ t := by
  obtain ⟨h1, h2⟩ := log2_spec k (by omega)
  have hl : log2 k ≤ 52 := log2_lt_of_lt k 52 hk2
  refine ⟨k * 2 ^ (52 - log2 k), t - (52 - log2 k), ⟨?_, Or.inl ?_⟩, ?_, by omega⟩
  · calc k * 2 ^ (52 - log2 k) < 2 ^ (log2 k + 1) * 2 ^ (52 - log2 k) :=
          Nat.mul_lt_mul_of_pos_right h2 (Nat.pow_pos (by norm_num))
      _ = 2 ^ 53 := by rw [← pow_add]; congr 1; omega
  · calc 2 ^ 52 = 2 ^ log2 k * 2 ^ (52 - log2 k) := by rw [← pow_add]; congr 1; omega
      _ ≤ k * 2 ^ (52 - log2 k) := Nat.mul_le_mul_right _ h1
  · rw [Nat.mul_assoc, ← pow_add]
    congr 2
    omega

/-- An integer up to `2^52` is a Number: rounding it changes nothing. -/
theorem roundScaled_integer (K : Nat) (hK : K ≤ 2 ^ 52) :
    ∃ m e, roundScaled (K * unit) 1 = (m, e) ∧ Canon m e ∧ m * 2 ^ e = K * unit
      ∧ e ≤ 1074 := by
  by_cases h0 : K = 0
  · subst h0
    refine ⟨0, 0, ?_, ⟨by norm_num, Or.inr rfl⟩, by simp, by norm_num⟩
    rw [Nat.zero_mul, roundScaled_zero]
  · obtain ⟨m, e, hc, hv, he⟩ := canon_of_lt K 1074 (by omega)
      (lt_of_le_of_lt hK (by norm_num)) (by norm_num)
    refine ⟨m, e, ?_, hc, by rw [hv, unit_eq], he⟩
    rw [unit_eq, ← hv]
    exact roundScaled_exact m e hc

/-- A Number with exponent at least `1074` is an integer. -/
theorem scaled_integer (m e : Nat) (he : 1074 ≤ e) :
    m * 2 ^ e = m * 2 ^ (e - 1074) * unit := by
  rw [unit_eq, Nat.mul_assoc, ← pow_add]
  congr 2
  omega

theorem scaled_small (m e : Nat) (hc : Canon m e) (he : e < 1074) :
    m * 2 ^ e < 2 ^ 52 * unit := by
  have h1 : m * 2 ^ e < 2 ^ 53 * 2 ^ e :=
    Nat.mul_lt_mul_of_pos_right hc.1 (Nat.pow_pos (by norm_num))
  have h2 : 2 ^ 53 * 2 ^ e ≤ 2 ^ 53 * 2 ^ 1073 :=
    Nat.mul_le_mul_left _ (Nat.pow_le_pow_right (by norm_num) (by omega))
  have h3 : (2 : Nat) ^ 53 * 2 ^ 1073 = 2 ^ 52 * unit := by
    rw [unit_eq, ← pow_add, ← pow_add]
  omega

/-- The natural number `Math.round` takes for a non-negative value. -/
theorem mathRound_pos (m e : Nat) (hc : Canon m e) (he : e ≤ 2045) :
    ∃ m' e', mathRound (JSNumber.fin false m e) = JSNumber.fin false m' e'
      ∧ Canon m' e' ∧ e' ≤ 2045
      ∧ m' * 2 ^ e' = (2 * (m * 2 ^ e) + unit) / (2 * unit) * unit := by
  have hU := unit_pos
  have hdef : mathRound (JSNumber.fin false m e)
      = mkNumber false (roundScaled ((2 * (m * 2 ^ e) + unit) / (2 * unit) * unit) 1) := rfl
  by_cases h : 1074 ≤ e
  · have hM := scaled_integer m e h
    have hK : (2 * (m * 2 ^ e) + unit) / (2 * unit) = m * 2 ^ (e - 1074) := by
      rw [hM]
      apply Nat.div_eq_of_lt_le
      · calc m * 2 ^ (e - 1074) * (2 * unit) = 2 * (m * 2 ^ (e - 1074) * unit) := by ring
          _ ≤ 2 * (m * 2 ^ (e - 1074) * unit) + unit := Nat.le_add_right _ _
      · calc 2 * (m * 2 ^ (e - 1074) * unit) + unit
            < 2 * (m * 2 ^ (e - 1074) * unit) + 2 * unit := by omega
          _ = (m * 2 ^ (e - 1074) + 1) * (2 * unit) := by ring
    refine ⟨m, e, ?_, hc, he, ?_⟩
    · rw [hdef, hK, ← hM, roundScaled_exact m e hc]
      unfold mkNumber
      rw [if_neg (by simp only []; omega)]
    · rw [hK, ← hM]
  · have hsm := scaled_small m e hc (by omega)
    have hK : (2 * (m * 2 ^ e) + unit) / (2 * unit) ≤ 2 ^ 52 := by
      apply Nat.le_of_lt_succ
      apply Nat.div_lt_of_lt_mul
      calc 2 * (m * 2 ^ e) + unit < 2 * (2 ^ 52 * unit) + 2 * unit := by omega
        _ = 2 * unit * (2 ^ 52 + 1) := by ring
    obtain ⟨m', e', hr, hc', hv, he'⟩ := roundScaled_integer _ hK
    refine ⟨m', e', ?_, hc', by omega, hv⟩
    rw [hdef, hr]
    unfold mkNumber
    rw [if_neg (by simp only []; omega)]

/-- The natural number whose negative `Math.round` takes for a negative
value. -/
theorem mathRound_neg (m e : Nat) (hc : Canon m e) (he : e ≤ 2045) :
    ∃ m' e', mathRound (JSNumber.fin true m e) = JSNumber.fin true m' e'
      ∧ Canon m' e' ∧ e' ≤ 2045
      ∧ m' * 2 ^ e' = (2 * (m * 2 ^ e) + unit - 1) / (2 * unit) * unit := by
  have hU := unit_pos
  by_cases hz : 2 * (m * 2 ^ e) ≤ unit
  · have hdef : mathRound (JSNumber.fin true m e) = JSNumber.fin true 0 0 := by
      show (if 2 * (m * 2 ^ e) ≤ unit then JSNumber.fin true 0 0 else _) = _
      rw [if_pos hz]
    refine ⟨0, 0, hdef, ⟨by norm_num, Or.inr rfl⟩, by norm_num, ?_⟩
    have : (2 * (m * 2 ^ e) + unit - 1) / (2 * unit) = 0 :=
      Nat.div_eq_of_lt (by omega)
    rw [this]
    simp
  · have hnum : 2 * (m * 2 ^ e) - unit + (2 * unit - 1) = 2 * (m * 2 ^ e) + unit - 1 := by
      omega
    have hdef : mathRound (JSNumber.fin true m e)
        = mkNumber true
            (roundScaled ((2 * (m * 2 ^ e) + unit - 1) / (2 * unit) * unit) 1) := by
      show (if 2 * (m * 2 ^ e) ≤ unit then JSNumber.fin true 0 0 else _) = _
      rw [if_neg hz, hnum]
    by_cases h : 1074 ≤ e
    · have hM := scaled_integer m e h
      have hK : (2 * (m * 2 ^ e) + unit - 1) / (2 * unit) = m * 2 ^ (e - 1074) := by
        rw [hM]
        apply Nat.div_eq_of_lt_le
        · have : m * 2 ^ (e - 1074) * (2 * unit) = 2 * (m * 2 ^ (e - 1074) * unit) := by ring
          omega
        · have : (m * 2 ^ (e - 1074) + 1) * (2 * unit)
              = 2 * (m * 2 ^ (e - 1074) * unit) + 2 * unit := by ring
          omega
      refine ⟨m, e, ?_, hc, he, ?_⟩
      · rw [hdef, hK, ← hM, roundScaled_exact m e hc]
        unfold mkNumber
        rw [if_neg (by simp only []; omega)]
      · rw [hK, ← hM]
    · have hsm := scaled_small m e hc (by omega)
      have hK : (2 * (m * 2 ^ e) + unit - 1) / (2 * unit) ≤ 2 ^ 52 := by
        apply Nat.le_of_lt_succ
        apply Nat.div_lt_of_lt_mul
        have : 2 * unit * (2 ^ 52 + 1) = 2 * (2 ^ 52 * unit) + 2 * unit := by ring
        omega
      obtain ⟨m', e', hr, hc', hv, he'⟩ := roundScaled_integer _ hK
      refine ⟨m', e', ?_, hc', by omega, hv⟩
      rw [hdef, hr]
      unfold mkNumber
      rw [if_neg (by simp only []; omega)]

end JS

namespace JS

theorem mul_canonical (a b : JSNumber) : Canonical (mul a b) := by
  cases a with
  | nan => cases b <;> simp [mul, Canonical]
  | inf s =>
    cases b with
    | nan => simp [mul, Canonical]
    | inf t => simp [mul, Canonical]
    | fin t n f =>
      simp only [mul]
      split_ifs <;> trivial
  | fin s m e =>
    cases b with
    | nan => simp [mul, Canonical]
    | inf t =>
      simp only [mul]
      split_ifs <;> trivial
    | fin t n f =>
      simp only [mul]
      exact mkNumber_canonical _ _ _

end JS

namespace JS

theorem log2_mono (a b : Nat) (h : a ≤ b) : log2 a ≤ log2 b := by
  by_cases ha : a = 0
  · subst ha; rw [log2_zero]; exact Nat.zero_le _
  · obtain ⟨h1, _⟩ := log2_spec a ha
    obtain ⟨_, h4⟩ := log2_spec b (by omega)
    by_contra hc
    have : 2 ^ (log2 b + 1) ≤ 2 ^ log2 a := Nat.pow_le_pow_right (by norm_num) (by omega)
    omega

theorem roundHalfEven_mono (N₁ N₂ D : Nat) (h : N₁ ≤ N₂) :
    roundHalfEven N₁ D ≤ roundHalfEven N₂ D := by
  have hq : N₁ / D ≤ N₂ / D := Nat.div_le_div_right h
  have b1 := roundHalfEven_bounds N₁ D
  have b2 := roundHalfEven_bounds N₂ D
  by_cases hlt : N₁ / D < N₂ / D
  · omega
  · have heq : N₁ / D = N₂ / D := by omega
    have hr : N₁ % D ≤ N₂ % D := by
      have e1 := Nat.div_add_mod N₁ D
      have e2 := Nat.div_add_mod N₂ D
      rw [heq] at e1
      omega
    unfold roundHalfEven
    simp only [heq]
    generalize N₁ % D = r₁ at hr ⊢
    generalize N₂ % D = r₂ at hr ⊢
    generalize N₂ / D = q
    split_ifs <;> omega

/-- The value of a rounded pair, before the exponent is adjusted. -/
theorem roundScaled_value (N D : Nat) :
    (roundScaled N D).1 * 2 ^ (roundScaled N D).2
        = roundHalfEven N (D * 2 ^ (log2 (N / D) - 52)) * 2 ^ (log2 (N / D) - 52)
      ∧ roundHalfEven N (D * 2 ^ (log2 (N / D) - 52)) ≤ 2 ^ 53
      ∧ (log2 (N / D) - 52 ≠ 0 → 2 ^ 52 ≤ roundHalfEven N (D * 2 ^ (log2 (N / D) - 52))) := by
  have hc := roundScaled_canon N D
  have hdef : roundScaled N D
      = (if roundHalfEven N (D * 2 ^ (log2 (N / D) - 52)) = 2 ^ 53
          then (2 ^ 52, log2 (N / D) - 52 + 1)
          else (roundHalfEven N (D * 2 ^ (log2 (N / D) - 52)), log2 (N / D) - 52)) := rfl
  rw [hdef] at hc ⊢
  split_ifs at hc ⊢ with hm
  · refine ⟨?_, by omega, fun _ => by omega⟩
    simp only []
    rw [hm, pow_succ]
    ring
  · have hlt : roundHalfEven N (D * 2 ^ (log2 (N / D) - 52)) < 2 ^ 53 := hc.1
    refine ⟨rfl, le_of_lt hlt, fun he => ?_⟩
    rcases hc.2 with h | h
    · exact h
    · exact absurd h he

/-- Rounding is monotone: a larger value never rounds to a smaller Number. -/
theorem roundScaled_mono (N₁ N₂ D : Nat) (h : N₁ ≤ N₂) :
    (roundScaled N₁ D).1 * 2 ^ (roundScaled N₁ D).2
      ≤ (roundScaled N₂ D).1 * 2 ^ (roundScaled N₂ D).2 := by
  obtain ⟨v1, u1, _⟩ := roundScaled_value N₁ D
  obtain ⟨v2, _, l2⟩ := roundScaled_value N₂ D
  rw [v1, v2]
  have hq : N₁ / D ≤ N₂ / D := Nat.div_le_div_right h
  have ha : log2 (N₁ / D) - 52 ≤ log2 (N₂ / D) - 52 :=
    Nat.sub_le_sub_right (log2_mono _ _ hq) 52
  generalize log2 (N₁ / D) - 52 = a₁ at ha u1 ⊢
  generalize log2 (N₂ / D) - 52 = a₂ at ha l2 ⊢
  by_cases hlt : a₁ < a₂
  · calc roundHalfEven N₁ (D * 2 ^ a₁) * 2 ^ a₁ ≤ 2 ^ 53 * 2 ^ a₁ :=
          Nat.mul_le_mul_right _ u1
      _ = 2 ^ 52 * 2 ^ (a₁ + 1) := by rw [pow_succ]; ring
      _ ≤ 2 ^ 52 * 2 ^ a₂ :=
          Nat.mul_le_mul_left _ (Nat.pow_le_pow_right (by norm_num) hlt)
      _ ≤ roundHalfEven N₂ (D * 2 ^ a₂) * 2 ^ a₂ :=
          Nat.mul_le_mul_right _ (l2 (by omega))
  · have : a₁ = a₂ := by omega
    subst this
    exact Nat.mul_le_mul_right _ (roundHalfEven_mono _ _ _ h)

/-- A canonical pair is determined by its value. -/
theorem canon_unique (m₁ e₁ m₂ e₂ : Nat) (h₁ : Canon m₁ e₁) (h₂ : Canon m₂ e₂)
    (h : m₁ * 2 ^ e₁ = m₂ * 2 ^ e₂) : (m₁, e₁) = (m₂, e₂) := by
  have key : ∀ m e, Canon m e → 2 ^ 52 ≤ m → log2 (m * 2 ^ e) = 52 + e := by
    intro m e hc hm
    apply log2_unique
    · rw [pow_add]; exact Nat.mul_le_mul_right _ hm
    · rw [show 52 + e + 1 = 53 + e by ring, pow_add]
      exact Nat.mul_lt_mul_of_pos_right hc.1 (Nat.pow_pos (by norm_num))
  have small : ∀ m e, Canon m e → ¬ 2 ^ 52 ≤ m → e = 0 ∧ m * 2 ^ e < 2 ^ 52 := by
    intro m e hc hm
    rcases hc.2 with h | h
    · exact absurd h hm
    · subst h; exact ⟨rfl, by simpa using Nat.lt_of_not_le hm⟩
  have big : ∀ m e, 2 ^ 52 ≤ m → 2 ^ 52 ≤ m * 2 ^ e := by
    intro m e hm
    calc 2 ^ 52 ≤ m := hm
      _ ≤ m * 2 ^ e := Nat.le_mul_of_pos_right _ (Nat.pow_pos (by norm_num))
  by_cases c1 : 2 ^ 52 ≤ m₁ <;> by_cases c2 : 2 ^ 52 ≤ m₂
  · have k1 := key m₁ e₁ h₁ c1
    have k2 := key m₂ e₂ h₂ c2
    rw [h] at k1
    have he : e₁ = e₂ := by omega
    subst he
    have := Nat.eq_of_mul_eq_mul_right (Nat.pow_pos (by norm_num) : 0 < 2 ^ e₁) h
    rw [this]
  · have := big m₁ e₁ c1
    have := (small m₂ e₂ h₂ c2).2
    omega
  · have := big m₂ e₂ c2
    have := (small m₁ e₁ h₁ c1).2
    omega
  · obtain ⟨z1, _⟩ := small m₁ e₁ h₁ c1
    obtain ⟨z2, _⟩ := small m₂ e₂ h₂ c2
    subst z1 z2
    simp only [pow_zero, mul_one] at h
    rw [h]

/-- A value between two values that round to the same Number rounds to it
too. -/
theorem roundScaled_squeeze (N₁ N₂ N₃ D m e : Nat) (h12 : N₁ ≤ N₂) (h23 : N₂ ≤ N₃)
    (h1 : roundScaled N₁ D = (m, e)) (h3 : roundScaled N₃ D = (m, e)) :
    roundScaled N₂ D = (m, e) := by
  have a := roundScaled_mono N₁ N₂ D h12
  have b := roundScaled_mono N₂ N₃ D h23
  rw [h1] at a
  rw [h3] at b
  have hc := roundScaled_canon N₁ D
  rw [h1] at hc
  have := canon_unique _ _ m e (roundScaled_canon N₂ D) hc (by simp only [] at a b ⊢; omega)
  exact this

end JS

namespace JS

theorem ofNat_hundred_million :
    ofNat 100000000 = JSNumber.fin false 6710886400000000 1048
      ∧ 6710886400000000 * 2 ^ 1048 = 10 ^ 8 * 2 ^ 1074 := by decide!

theorem roundScaled_one_hundred_millionth :
    roundScaled (1 * 2 ^ 1074) (10 ^ 8) = (6044629098073146, 995)
      ∧ 2 ^ 1074 ≤ 6044629098073146 * 2 ^ 995 * 10 ^ 8 := by decide!

theorem roundScaled_ten_pow_21 :
    roundScaled (10 ^ 21 * 2 ^ 1074) 1 = (7629394531250000, 1091)
      ∧ 7629394531250000 * 2 ^ 1091 = 10 ^ 21 * 2 ^ 1074 := by decide!

theorem mkNumber_eq_fin (s sg : Bool) (me : Nat × Nat) (m e : Nat)
    (h : mkNumber s me = JSNumber.fin sg m e) : me = (m, e) ∧ e ≤ 2045 ∧ s = sg := by
  unfold mkNumber at h
  by_cases h1 : 2045 < me.2
  · rw [if_pos h1] at h
    cases h
  · rw [if_neg h1] at h
    cases h
    exact ⟨rfl, by omega, rfl⟩

theorem mathRound_fin (p : JSNumber) (hp : Canonical p) (s : Bool) (m e : Nat)
    (h : mathRound p = JSNumber.fin s m e) : ∃ K, m * 2 ^ e = K * unit := by
  cases p with
  | nan => cases h
  | inf t => cases h
  | fin t m₀ e₀ =>
    obtain ⟨hc, he⟩ := hp
    cases t with
    | false =>
      obtain ⟨m', e', hr, _, _, hv⟩ := mathRound_pos m₀ e₀ hc he
      rw [hr] at h
      injection h with _ b c
      subst b c
      exact ⟨_, hv⟩
    | true =>
      obtain ⟨m', e', hr, _, _, hv⟩ := mathRound_neg m₀ e₀ hc he
      rw [hr] at h
      injection h with _ b c
      subst b c
      exact ⟨_, hv⟩

theorem div_hundred_million (s : Bool) (m e : Nat) :
    div (JSNumber.fin s m e) (ofNat 100000000)
      = mkNumber (xor s false) (roundScaled (m * 2 ^ e * unit)
          (6710886400000000 * 2 ^ 1048)) := by
  rw [ofNat_hundred_million.1]
  simp only [div]
  rw [if_neg (by norm_num)]

end JS

namespace BasicCalculator

open JS

/-- A finite result of `round8` is the Number nearest to `K / 10^8` for a
natural number `K`. -/
theorem round8_structure (x : JSNumber) (sg : Bool) (m e : Nat)
    (h : round8 x = JSNumber.fin sg m e) :
    ∃ K, roundScaled (K * unit) (10 ^ 8) = (m, e) ∧ Canon m e ∧ e ≤ 2045 := by
  have hdef : round8 x
      = div (mathRound (mul x (JS.ofNat 100000000))) (JS.ofNat 100000000) := rfl
  rw [hdef] at h
  cases hy : mathRound (mul x (JS.ofNat 100000000)) with
  | nan =>
    rw [hy, ofNat_hundred_million.1] at h
    cases h
  | inf t =>
    rw [hy, ofNat_hundred_million.1] at h
    cases h
  | fin s m' e' =>
    obtain ⟨K, hK⟩ := mathRound_fin _ (mul_canonical _ _) s m' e' hy
    rw [hy, div_hundred_million, hK] at h
    obtain ⟨hpair, he, _⟩ := mkNumber_eq_fin _ _ _ _ _ h
    have h8 := ofNat_hundred_million.2
    rw [← unit_eq] at h8
    rw [h8, roundScaled_scale (K * unit) (10 ^ 8) unit unit_pos] at hpair
    refine ⟨K, hpair, ?_, he⟩
    have := roundScaled_canon (K * unit) (10 ^ 8)
    rw [hpair] at this
    exact this

end BasicCalculator

namespace JS

theorem leadingZeros_le (fuel M j j₀ : Nat) (h1 : j ≤ j₀) (h2 : j₀ < j + fuel)
    (h3 : unit ≤ M * 10 ^ (j₀ + 1)) : leadingZeros fuel M j ≤ j₀ := by
  induction fuel generalizing j with
  | zero => omega
  | succ fuel ih =>
    unfold leadingZeros
    split_ifs with hv
    · exact h1
    · have hj : j ≠ j₀ := by
        intro h; rw [h] at hv; exact hv h3
      exact ih (j + 1) (by omega) (by omega)

theorem numDigitsAux_le (fuel v k k₀ : Nat) (h1 : k ≤ k₀) (h2 : v < 10 ^ k₀) :
    numDigitsAux fuel v k ≤ k₀ := by
  induction fuel generalizing k with
  | zero => exact h1
  | succ fuel ih =>
    unfold numDigitsAux
    split_ifs with hv
    · exact h1
    · apply ih
      by_contra hc
      have : k = k₀ := by omega
      rw [this] at hv
      exact hv h2

theorem decimalExponent_bounds (M : Nat) :
    (unit ≤ M * 10 ^ 8 → -7 ≤ decimalExponent M)
      ∧ (M < 10 ^ 21 * unit → decimalExponent M ≤ 21) := by
  unfold decimalExponent
  constructor
  · intro h
    split_ifs with hM
    · omega
    · have := leadingZeros_le 400 M 0 7 (by norm_num) (by norm_num) h
      omega
  · intro h
    split_ifs with hM
    · have hq : M / unit < 10 ^ 21 := Nat.div_lt_of_lt_mul (by rw [Nat.mul_comm]; exact h)
      have := numDigitsAux_le 400 (M / unit) 1 21 (by norm_num) hq
      unfold numDigits
      omega
    · omega

theorem shortestAux_bound (m e : Nat) (n : Int) (fuel k k₀ : Nat)
    (h1 : k ≤ k₀) (h2 : k₀ < k + fuel) (h3 : candidate m e n k₀ ≠ none) :
    ∃ s k₁, shortestAux m e n fuel k = some (s, k₁) ∧ candidate m e n k₁ = some s
      ∧ k ≤ k₁ ∧ k₁ ≤ k₀ := by
  induction fuel generalizing k with
  | zero => omega
  | succ fuel ih =>
    rw [shortestAux_succ]
    cases hc : candidate m e n k with
    | some s =>
      exact ⟨s, k, rfl, hc, le_rfl, h1⟩
    | none =>
      have hk : k ≠ k₀ := by
        intro hk; rw [hk] at hc; exact h3 hc
      obtain ⟨s, k₁, a, b, c, d⟩ := ih (k + 1) (by omega) (by omega)
      exact ⟨s, k₁, a, b, by omega, d⟩

theorem candidate_of_either (m e : Nat) (n : Int) (k : Nat)
    (h : roundTrips m e ((scale10 (m * 2 ^ e) unit ((k : Int) - n)).1
            / (scale10 (m * 2 ^ e) unit ((k : Int) - n)).2) ((k : Int) - n) = true
      ∨ roundTrips m e ((scale10 (m * 2 ^ e) unit ((k : Int) - n)).1
            / (scale10 (m * 2 ^ e) unit ((k : Int) - n)).2 + 1) ((k : Int) - n) = true) :
    candidate m e n k ≠ none := by
  rcases h with h | h
  · exact candidate_of_roundTrips m e n k h
  · rw [candidate_def, h]
    simp only [Bool.and_true]
    split_ifs <;> exact Option.some_ne_none _

/-- With eight decimal places one of the two neighbouring decimals converts
back to a Number that is nearest to `K / 10^8`. -/
theorem candidate_eight_places (m e K : Nat) (n : Int) (k : Nat)
    (hrs : roundScaled (K * unit) (10 ^ 8) = (m, e)) (hk : (k : Int) - n = 8) :
    candidate m e n k ≠ none := by
  have hc : Canon m e := by
    have := roundScaled_canon (K * unit) (10 ^ 8)
    rw [hrs] at this
    exact this
  apply candidate_of_either
  rw [hk]
  have hsc : scale10 (m * 2 ^ e) unit 8 = (m * 2 ^ e * 10 ^ 8, unit) := by
    have := scale10_nonneg (m * 2 ^ e) unit 8 (by norm_num)
    rw [show (8 : Int).toNat = 8 from rfl] at this
    exact this
  have hneg : ∀ s : Nat, scale10 (s * unit) 1 (-8) = (s * unit, 1 * 10 ^ 8) := by
    intro s
    have := scale10_neg (s * unit) 1 (-8) (by norm_num)
    rw [show (-(-8 : Int)).toNat = 8 from rfl] at this
    exact this
  rw [hsc]
  simp only [roundTrips_iff, hneg, one_mul]
  have hexact : roundScaled (m * 2 ^ e * 10 ^ 8) (10 ^ 8) = (m, e) := by
    have := roundScaled_scale (m * 2 ^ e) 1 (10 ^ 8) (Nat.pow_pos (by norm_num))
    rw [one_mul] at this
    rw [this]
    exact roundScaled_exact m e hc
  have hlo : m * 2 ^ e * 10 ^ 8 / unit * unit ≤ m * 2 ^ e * 10 ^ 8 :=
    Nat.div_mul_le_self _ _
  have hhi : m * 2 ^ e * 10 ^ 8 < (m * 2 ^ e * 10 ^ 8 / unit + 1) * unit := by
    have := Nat.lt_div_mul_add (a := m * 2 ^ e * 10 ^ 8) (b := unit) unit_pos
    rw [Nat.add_mul, one_mul]
    exact this
  by_cases hcmp : K * unit ≤ m * 2 ^ e * 10 ^ 8
  · left
    have hKlo : K ≤ m * 2 ^ e * 10 ^ 8 / unit := (Nat.le_div_iff_mul_le unit_pos).2 hcmp
    exact roundScaled_squeeze (K * unit) _ (m * 2 ^ e * 10 ^ 8) (10 ^ 8) m e
      (Nat.mul_le_mul_right _ hKlo) hlo hrs hexact
  · right
    have hKhi : m * 2 ^ e * 10 ^ 8 / unit + 1 ≤ K := by
      by_contra hcon
      have h1 : K ≤ m * 2 ^ e * 10 ^ 8 / unit := by omega
      have h2 := Nat.mul_le_mul_right unit h1
      omega
    exact roundScaled_squeeze (m * 2 ^ e * 10 ^ 8) _ (K * unit) (10 ^ 8) m e
      (le_of_lt hhi) (Nat.mul_le_mul_right _ hKhi) hexact hrs

end JS

namespace JS

/-- The digits `String(number)` finds for a finite non-zero Number nearest to
`K / 10^8` and below `10^21`: at most eight more digits than the decimal
exponent, which is at most 21. -/
theorem shortest_eight_places (m e K : Nat)
    (hrs : roundScaled (K * unit) (10 ^ 8) = (m, e)) (hm : m ≠ 0)
    (hlt : m * 2 ^ e < 10 ^ 21 * unit) :
    1 ≤ (shortest m e).2.1 ∧ ((shortest m e).2.1 : Int) ≤ (shortest m e).2.2 + 8
      ∧ (shortest m e).2.2 ≤ 21 := by
  have hK : 1 ≤ K := by
    by_contra h0
    have : K = 0 := by omega
    rw [this, Nat.zero_mul, roundScaled_zero] at hrs
    exact hm (Prod.mk.inj hrs).1.symm
  have hmono := roundScaled_mono (1 * unit) (K * unit) (10 ^ 8)
    (Nat.mul_le_mul_right _ hK)
  have h1 := roundScaled_one_hundred_millionth
  rw [← unit_eq] at h1
  rw [h1.1, hrs] at hmono
  simp only [] at hmono
  have hlow : unit ≤ m * 2 ^ e * 10 ^ 8 :=
    le_trans h1.2 (Nat.mul_le_mul_right _ hmono)
  obtain ⟨hb1, hb2⟩ := decimalExponent_bounds (m * 2 ^ e)
  have hn1 := hb1 hlow
  have hn2 := hb2 hlt
  generalize hn : decimalExponent (m * 2 ^ e) = n at hn1 hn2
  have hk0 : ((n + 8).toNat : Int) - n = 8 := by omega
  obtain ⟨s, k, hs, hcand, hk1, hk2⟩ := shortestAux_bound m e n 1500 1 (n + 8).toNat
    (by omega) (by omega) (candidate_eight_places m e K n _ hrs hk0)
  rw [shortest_def, hn, hs]
  dsimp only
  split_ifs with h10
  · dsimp only
    refine ⟨hk1, by omega, ?_⟩
    by_contra hcon
    have hn21 : n = 21 := by omega
    obtain ⟨hrt, _⟩ := candidate_some m e n k s hcand
    rw [roundTrips_iff, h10, hn21] at hrt
    have h21 := roundScaled_ten_pow_21
    rw [← unit_eq] at h21
    have hval : roundScaled (10 ^ 21 * unit) 1 = (m, e) := by
      rw [← hrt]
      by_cases hle : k ≤ 21
      · have hp : (0 : Int) ≤ -((k : Int) - 21) := by omega
        have htn : (-((k : Int) - 21)).toNat = 21 - k := by omega
        have hpow : 10 ^ k * 10 ^ (21 - k) = 10 ^ 21 := by
          rw [← pow_add, show k + (21 - k) = 21 by omega]
        have hEq : 10 ^ k * unit * 10 ^ (21 - k) = 10 ^ 21 * unit := by
          rw [← hpow]; ring
        rw [scale10_nonneg _ _ _ hp, htn]
        simp only []
        rw [hEq]
      · have hp : -((k : Int) - 21) < 0 := by omega
        have htn : (-(-((k : Int) - 21))).toNat = k - 21 := by omega
        have hpow : 10 ^ 21 * 10 ^ (k - 21) = 10 ^ k := by
          rw [← pow_add, show 21 + (k - 21) = k by omega]
        have hEq : 10 ^ k * unit = 10 ^ 21 * unit * 10 ^ (k - 21) := by
          rw [← hpow]; ring
        rw [scale10_neg _ _ _ hp, htn]
        simp only []
        rw [hEq, roundScaled_scale _ _ _ (Nat.pow_pos (by norm_num))]
    rw [h21.1] at hval
    have hm' := (Prod.mk.inj hval).1
    have he' := (Prod.mk.inj hval).2
    rw [← hm', ← he', h21.2] at hlt
    exact lt_irrefl _ hlt
  · dsimp only
    exact ⟨hk1, by omega, hn2⟩

theorem isDigit_not_mark (c : Char) (h : isDigit c = true) : c ≠ '.' ∧ c ≠ 'e' := by
  constructor <;> (intro hc; rw [hc] at h; exact absurd h (by decide))

theorem dropWhile_to_point (l r : List Char) (h : ∀ c ∈ l, c ≠ '.') :
    (l ++ '.' :: r).dropWhile (fun c => c != '.') = '.' :: r := by
  rw [List.dropWhile_append_of_pos (fun c hc => by simpa using h c hc)]
  exact List.dropWhile_cons_of_neg (by simp)

theorem dropWhile_no_point (l : List Char) (h : ∀ c ∈ l, c ≠ '.') :
    l.dropWhile (fun c => c != '.') = [] :=
  List.dropWhile_eq_nil_iff.2 (fun c hc => by simpa using h c hc)

theorem takeWhile_to_mark (l r : List Char) (h : ∀ c ∈ l, c ≠ 'e') :
    (l ++ 'e' :: r).takeWhile (fun c => c != 'e') = l := by
  rw [List.takeWhile_append_of_pos (fun c hc => by simpa using h c hc),
    List.takeWhile_cons_of_neg (by simp), List.append_nil]

theorem takeWhile_no_mark (l : List Char) (h : ∀ c ∈ l, c ≠ 'e') :
    l.takeWhile (fun c => c != 'e') = l :=
  List.takeWhile_eq_self_iff.2 (fun c hc => by simpa using h c hc)

theorem sign_no_point (sg : Bool) : ∀ c ∈ (if sg = true then ['-'] else []), c ≠ '.' := by
  intro c hc
  cases sg
  · simp at hc
  · simp only [if_true, List.mem_singleton] at hc
    rw [hc]; decide

/-- The number of fraction digits written for digits `s` of length `k` and
decimal exponent `n`. -/
theorem fractionDigits_format (sg : Bool) (s k : Nat) (n : Int) (hk : 1 ≤ k)
    (h8 : (k : Int) ≤ n + 8) (hn : n ≤ 21) :
    fractionDigits (String.mk ((if sg = true then ['-'] else []) ++ formatDecimal s k n)) ≤ 8 := by
  have hsign := sign_no_point sg
  have hdp : ∀ (a b : Nat), ∀ c ∈ digitsK a b, c ≠ '.' :=
    fun a b c hc => (isDigit_not_mark c (digitsK_isDigit a b c hc)).1
  have hde : ∀ (a b : Nat), ∀ c ∈ digitsK a b, c ≠ 'e' :=
    fun a b c hc => (isDigit_not_mark c (digitsK_isDigit a b c hc)).2
  have hzp : ∀ z : Nat, ∀ c ∈ List.replicate z '0', c ≠ '.' :=
    fun z c hc => (isDigit_not_mark c (replicate_zero_isDigit z c hc)).1
  have hze : ∀ z : Nat, ∀ c ∈ List.replicate z '0', c ≠ 'e' :=
    fun z c hc => (isDigit_not_mark c (replicate_zero_isDigit z c hc)).2
  unfold fractionDigits formatDecimal
  simp only []
  by_cases hr : -5 ≤ n ∧ n ≤ 21
  · rw [if_pos hr]
    by_cases hkn : (k : Int) ≤ n
    · rw [if_pos hkn, dropWhile_no_point]
      · simp
      · intro c hc
        rcases List.mem_append.1 hc with h | h
        · exact hsign c h
        · rcases List.mem_append.1 h with h | h
          · exact hdp _ _ c h
          · exact hzp _ c h
    · rw [if_neg hkn]
      by_cases hpos : 0 < n
      · rw [if_pos hpos, ← List.append_assoc, dropWhile_to_point]
        · rw [List.drop_one, List.tail_cons, takeWhile_no_mark _ (hde _ _), digitsK_length]
          omega
        · intro c hc
          rcases List.mem_append.1 hc with h | h
          · exact hsign c h
          · exact hdp _ _ c h
      · rw [if_neg hpos]
        have hcs : (if sg = true then ['-'] else [])
              ++ '0' :: '.' :: (List.replicate (-n).toNat '0' ++ digitsK k s)
            = ((if sg = true then ['-'] else []) ++ ['0'])
              ++ '.' :: (List.replicate (-n).toNat '0' ++ digitsK k s) := by simp
        rw [hcs, dropWhile_to_point]
        · rw [List.drop_one, List.tail_cons, takeWhile_no_mark, List.length_append,
            List.length_replicate, digitsK_length]
          · omega
          · intro c hc
            rcases List.mem_append.1 hc with h | h
            · exact hze _ c h
            · exact hde _ _ c h
        · intro c hc
          rcases List.mem_append.1 hc with h | h
          · exact hsign c h
          · rw [List.mem_singleton.1 h]; decide
  · rw [if_neg hr]
    have hex : ∀ c ∈ 'e' :: (if 0 ≤ n - 1 then '+' else '-')
        :: digitsK (numDigits (n - 1).natAbs) (n - 1).natAbs, c ≠ '.' := by
      intro c hc
      rcases List.mem_cons.1 hc with h | h
      · rw [h]; decide
      · rcases List.mem_cons.1 h with h | h
        · rw [h]; split_ifs <;> decide
        · exact hdp _ _ c h
    by_cases hk1 : k = 1
    · rw [if_pos hk1, dropWhile_no_point]
      · simp
      · intro c hc
        rcases List.mem_append.1 hc with h | h
        · exact hsign c h
        · rcases List.mem_append.1 h with h | h
          · exact hdp _ _ c h
          · exact hex c h
    · rw [if_neg hk1, ← List.append_assoc, dropWhile_to_point]
      · rw [List.drop_one, List.tail_cons, takeWhile_to_mark _ _ (hde _ _), digitsK_length]
        omega
      · intro c hc
        rcases List.mem_append.1 hc with h | h
        · exact hsign c h
        · exact hdp _ _ c h

end JS

/-! ## The claims about the display, the invariants and the other modules -/

namespace BasicCalculator

open JS

/-- C11: `clearAll()` leaves, from any state, the fields the constructor sets
(`currentInput = "0"`, no operator, no left operand, flag false), shows `"0"`
and hides the result box: the state is the freshly constructed one. -/
theorem clearAll_spec (s : BasicCalculator) :
    (clearAll s).currentInput = "0" ∧ (clearAll s).operator = none
      ∧ (clearAll s).previousValue = none ∧ (clearAll s).shouldResetDisplay = false
      ∧ (clearAll s).display = "0"
      ∧ clearAll s = constructor "0" s.exprSpan s.resultSpan "none" := by
  have h : clearAll s = constructor "0" s.exprSpan s.resultSpan "none" := rfl
  rw [h]
  exact ⟨rfl, rfl, rfl, rfl, rfl, rfl⟩

/-- C14: with one of the five operators pending, `calculate()` hands
`showResult` the expression `"<left> <symbol> <right>"` (the left operand, the
glyph of the operator, the parsed right operand) and the rounded result, and
shows the result box; the glyphs are `×`, `÷`, `−`, and `+`, `%` themselves. -/
theorem calculate_expression (s : BasicCalculator) (op : String)
    (hop : op ∈ operatorTokens) (h : s.operator = some op) :
    (calculate s).exprSpan
        = templateValue s.previousValue ++ " " ++ operatorSymbol op ++ " "
            ++ JS.toString (parseFloat s.currentInput)
      ∧ (calculate s).resultSpan
          = JS.toString (round8 (zeroDivide op (toNumber s.previousValue)
              (parseFloat s.currentInput)))
      ∧ (calculate s).resultBox = "block"
      ∧ operatorSymbol "*" = "×" ∧ operatorSymbol "/" = "÷" ∧ operatorSymbol "-" = "−"
      ∧ operatorSymbol "+" = "+" ∧ operatorSymbol "%" = "%" := by
  rw [calculate_pending s op _ h (switchOperator_eq hop _ _)]
  exact ⟨rfl, rfl, rfl, by decide, by decide, by decide, by decide, by decide⟩

/-- C14, at the state reached by the keys `3 * 4`: the expression is
`"3 × 4"`. -/
theorem calculate_expression_witness :
    "*" ∈ operatorTokens
      ∧ (enter ["4"] (onOperatorClick "*" (enter ["3"]
          (constructor "0" "" "" "none")))).operator = some "*"
      ∧ (calculate (enter ["4"] (onOperatorClick "*" (enter ["3"]
          (constructor "0" "" "" "none"))))).exprSpan = "3 × 4" :=
  ⟨by decide, by decide,
    (calculate_expression _ "*" (by decide) (by decide)).1.trans (by decide!)⟩

/-- C15: `updateDisplay()` writes only the display, and in a reachable state
the text it writes is `"<previousValue> <symbol>"` when an operator is pending
and `shouldResetDisplay` is true, `"<previousValue> <symbol> <currentInput>"`
when an operator is pending and the flag is false, and `currentInput`
otherwise. -/
theorem updateDisplay_spec (s : BasicCalculator) (hs : Reachable s) :
    updateDisplay s = { s with display := (updateDisplay s).display }
      ∧ (∀ op, s.operator = some op → s.shouldResetDisplay = true →
          (updateDisplay s).display
            = templateValue s.previousValue ++ " " ++ operatorSymbol op)
      ∧ (∀ op, s.operator = some op → s.shouldResetDisplay = false →
          (updateDisplay s).display
            = templateValue s.previousValue ++ " " ++ operatorSymbol op ++ " "
                ++ s.currentInput)
      ∧ (s.operator = none → (updateDisplay s).display = s.currentInput)
      ∧ (∀ op, s.operator = some op → ∃ x, templateValue s.previousValue = JS.toString x) := by
  have hne : ∀ op, op ∈ operatorTokens → truthy (some op) = true := by
    intro op hop
    simp only [operatorTokens, List.mem_cons, List.mem_singleton, List.not_mem_nil,
      or_false] at hop
    rcases hop with rfl | rfl | rfl | rfl | rfl <;> decide
  refine ⟨?_, ?_, ?_, ?_, ?_⟩
  · unfold updateDisplay
    split <;> (try split_ifs) <;> rfl
  · intro op h hr
    obtain ⟨hop, x, hx⟩ := pending_of_reachable hs op h
    unfold updateDisplay
    simp [h, hr, hne op hop, hx]
  · intro op h hr
    obtain ⟨hop, x, hx⟩ := pending_of_reachable hs op h
    unfold updateDisplay
    simp [h, hr, hne op hop, hx]
  · intro h
    unfold updateDisplay
    simp [h]
  · intro op h
    obtain ⟨_, x, hx⟩ := pending_of_reachable hs op h
    exact ⟨x, by rw [hx]; rfl⟩

/-- C15, at the state reached by the keys `3 + 4`: the display is `"3 + 4"`. -/
theorem updateDisplay_spec_witness :
    Reachable (onNumberClick "4" (onOperatorClick "+" (onNumberClick "3"
        (constructor "0" "" "" "none"))))
      ∧ (updateDisplay (onNumberClick "4" (onOperatorClick "+" (onNumberClick "3"
          (constructor "0" "" "" "none"))))).display = "3 + 4" :=
  have hr : Reachable (onNumberClick "4" (onOperatorClick "+" (onNumberClick "3"
      (constructor "0" "" "" "none")))) :=
    Reachable.number "4" (Reachable.operator "+"
      (Reachable.number "3" (Reachable.init _ _ _ _) (by decide)) (by decide)) (by decide)
  ⟨hr, ((updateDisplay_spec _ hr).2.2.1 "+" (by decide) (by decide)).trans (by decide!)⟩

/-- C16 fails on the code: `onOperatorClick` never calls `updateDisplay()`, so
after the keys `3 +` on a fresh calculator the display still reads `"3"`, not
`"3 +"`; the branch of `updateDisplay()` written for this state would show
`"3 +"`. -/
theorem onOperatorClick_display_stale :
    (onOperatorClick "+" (onNumberClick "3" (constructor "0" "" "" "none"))).display = "3"
      ∧ (updateDisplay (onOperatorClick "+"
          (onNumberClick "3" (constructor "0" "" "" "none")))).display = "3 +"
      ∧ ∀ (op : String) (s : BasicCalculator),
          (onOperatorClick op s).display
            = (if s.operator ≠ none ∧ s.shouldResetDisplay = false
                then (calculate s).display else s.display) := by
  refine ⟨by decide!, by decide!, fun op s => ?_⟩
  unfold onOperatorClick
  split_ifs <;> rfl

/-- C20 as stated fails: after the keys `3 + 4 =` (a reachable state) no
operator is pending, yet `previousValue` still holds the left operand. -/
theorem previousValue_stale_counterexample :
    Reachable (calculate (onNumberClick "4" (onOperatorClick "+" (onNumberClick "3"
        (constructor "0" "" "" "none")))))
      ∧ (calculate (onNumberClick "4" (onOperatorClick "+" (onNumberClick "3"
          (constructor "0" "" "" "none"))))).operator = none
      ∧ (calculate (onNumberClick "4" (onOperatorClick "+" (onNumberClick "3"
          (constructor "0" "" "" "none"))))).previousValue ≠ none :=
  ⟨Reachable.equals (Reachable.number "4" (Reachable.operator "+"
      (Reachable.number "3" (Reachable.init _ _ _ _) (by decide)) (by decide)) (by decide)),
    by decide!, by decide!⟩

/-- C20, amended: in every reachable state a pending operator comes with a left
operand (`operator` non-null implies `previousValue` non-null), and the
operator is one of the five tokens. -/
theorem previousValue_of_operator (s : BasicCalculator) (hs : Reachable s) :
    (s.operator ≠ none → s.previousValue ≠ none)
      ∧ ∀ op, s.operator = some op → op ∈ operatorTokens := by
  refine ⟨fun h => ?_, fun op h => (pending_of_reachable hs op h).1⟩
  cases hop : s.operator with
  | none => exact absurd hop h
  | some op =>
    obtain ⟨_, x, hx⟩ := pending_of_reachable hs op hop
    rw [hx]; simp

/-- C20 amended, at the state reached by the keys `3 +`. -/
theorem previousValue_of_operator_witness :
    Reachable (onOperatorClick "+" (onNumberClick "3" (constructor "0" "" "" "none")))
      ∧ (onOperatorClick "+"
          (onNumberClick "3" (constructor "0" "" "" "none"))).previousValue ≠ none :=
  have hr : Reachable (onOperatorClick "+" (onNumberClick "3" (constructor "0" "" "" "none"))) :=
    Reachable.operator "+" (Reachable.number "3" (Reachable.init _ _ _ _) (by decide))
      (by decide)
  ⟨hr, (previousValue_of_operator _ hr).1 (by decide)⟩

/-- C18: in every reachable state `currentInput` is neither the empty string
nor just `"."`. -/
theorem currentInput_nonempty (s : BasicCalculator) (hs : Reachable s) :
    s.currentInput ≠ "" ∧ s.currentInput ≠ "." := by
  obtain ⟨⟨c, r, hcr, hc⟩, _⟩ := goodBuffer_of_reachable hs
  constructor
  · intro h; rw [h] at hcr; cases hcr
  · intro h
    rw [h] at hcr
    have h1 : (['.'] : List Char) = c :: r := hcr
    cases h1
    exact hc rfl

/-- C18, at the state reached by the key `.` on a fresh calculator, whose
buffer is `"0."`. -/
theorem currentInput_nonempty_witness :
    Reachable (onNumberClick "." (constructor "0" "" "" "none"))
      ∧ (onNumberClick "." (constructor "0" "" "" "none")).currentInput ≠ ""
      ∧ (onNumberClick "." (constructor "0" "" "" "none")).currentInput ≠ "." :=
  have hr : Reachable (onNumberClick "." (constructor "0" "" "" "none")) :=
    Reachable.number "." (Reachable.init _ _ _ _) (by decide)
  ⟨hr, (currentInput_nonempty _ hr).1, (currentInput_nonempty _ hr).2⟩

/-- C19: in every reachable state `currentInput` contains at most one decimal
point. -/
theorem currentInput_one_point (s : BasicCalculator) (hs : Reachable s) :
    s.currentInput.data.count '.' ≤ 1 :=
  (goodBuffer_of_reachable hs).2

/-- C19, at the state reached by the keys `1 . . 5`. -/
theorem currentInput_one_point_witness :
    Reachable (onNumberClick "5" (onNumberClick "." (onNumberClick "."
        (onNumberClick "1" (constructor "0" "" "" "none")))))
      ∧ (onNumberClick "5" (onNumberClick "." (onNumberClick "." (onNumberClick "1"
          (constructor "0" "" "" "none"))))).currentInput.data.count '.' ≤ 1 :=
  have hr : Reachable (onNumberClick "5" (onNumberClick "." (onNumberClick "."
      (onNumberClick "1" (constructor "0" "" "" "none"))))) :=
    Reachable.number "5" (Reachable.number "." (Reachable.number "."
      (Reachable.number "1" (Reachable.init _ _ _ _) (by decide)) (by decide)) (by decide))
      (by decide)
  ⟨hr, currentInput_one_point _ hr⟩

/-- C21 as stated fails: after the keys `1 2 + delete` an operator is pending
and `shouldResetDisplay` is true, the left operand captured by `+` is `12`, and
`onOperatorClick("-")` replaces it by `1`, the number parsed from the shortened
buffer. -/
theorem onOperatorClick_recapture_counterexample :
    Reachable (delete (onOperatorClick "+" (onNumberClick "2" (onNumberClick "1"
        (constructor "0" "" "" "none")))))
      ∧ (delete (onOperatorClick "+" (onNumberClick "2" (onNumberClick "1"
          (constructor "0" "" "" "none"))))).operator = some "+"
      ∧ (delete (onOperatorClick "+" (onNumberClick "2" (onNumberClick "1"
          (constructor "0" "" "" "none"))))).shouldResetDisplay = true
      ∧ (delete (onOperatorClick "+" (onNumberClick "2" (onNumberClick "1"
          (constructor "0" "" "" "none"))))).previousValue = some (parseFloat "12")
      ∧ (onOperatorClick "-" (delete (onOperatorClick "+" (onNumberClick "2"
          (onNumberClick "1" (constructor "0" "" "" "none")))))).previousValue
          = some (parseFloat "1")
      ∧ parseFloat "1" ≠ parseFloat "12" :=
  ⟨Reachable.backspace (Reachable.operator "+" (Reachable.number "2"
      (Reachable.number "1" (Reachable.init _ _ _ _) (by decide)) (by decide)) (by decide)),
    by decide, by decide, by decide!, by decide!, by decide!⟩

/-- C21, amended: with an operator pending and `shouldResetDisplay` true,
`onOperatorClick(op2)` performs no calculation: it leaves `currentInput`, the
display and the result line as they are, sets `previousValue` to the number
parsed from `currentInput` and replaces the operator by `op2`.  The left
operand is therefore kept whenever the buffer still reads as it, in particular
when `op2` directly follows another operator key. -/
theorem onOperatorClick_replace (op₂ : String) (s : BasicCalculator)
    (_hp : s.operator ≠ none) (hr : s.shouldResetDisplay = true) :
    onOperatorClick op₂ s
        = { s with previousValue := some (parseFloat s.currentInput), operator := some op₂ }
      ∧ (onOperatorClick op₂ s).currentInput = s.currentInput
      ∧ (onOperatorClick op₂ s).operator = some op₂
      ∧ (onOperatorClick op₂ s).shouldResetDisplay = true
      ∧ (s.previousValue = some (parseFloat s.currentInput) →
          (onOperatorClick op₂ s).previousValue = s.previousValue)
      ∧ ∀ (op₁ : String) (t : BasicCalculator),
          onOperatorClick op₂ (onOperatorClick op₁ t)
            = { onOperatorClick op₁ t with operator := some op₂ } := by
  have key : ∀ u : BasicCalculator, u.shouldResetDisplay = true →
      onOperatorClick op₂ u
        = { u with previousValue := some (parseFloat u.currentInput), operator := some op₂ } := by
    intro u hu
    unfold onOperatorClick
    have hc : ¬ (u.operator ≠ none ∧ u.shouldResetDisplay = false) := by
      rw [hu]; simp
    rw [if_neg hc]
    cases u
    simp only at hu
    subst hu
    rfl
  refine ⟨key s hr, ?_, ?_, ?_, ?_, ?_⟩
  · rw [key s hr]
  · rw [key s hr]
  · rw [key s hr]; exact hr
  · intro h; rw [key s hr]; exact h.symm
  · intro op₁ t
    rw [key _ rfl]
    rfl

/-- C21 amended, at the state reached by the keys `3 +`: pressing `-` keeps the
left operand `3`. -/
theorem onOperatorClick_replace_witness :
    (onOperatorClick "+" (onNumberClick "3" (constructor "0" "" "" "none"))).operator ≠ none
      ∧ (onOperatorClick "+"
          (onNumberClick "3" (constructor "0" "" "" "none"))).shouldResetDisplay = true
      ∧ (onOperatorClick "-" (onOperatorClick "+"
          (onNumberClick "3" (constructor "0" "" "" "none")))).previousValue
          = (onOperatorClick "+"
              (onNumberClick "3" (constructor "0" "" "" "none"))).previousValue :=
  ⟨by decide, by decide,
    (onOperatorClick_replace "-"
      (onOperatorClick "+" (onNumberClick "3" (constructor "0" "" "" "none")))
      (by decide) (by decide)).2.2.2.2.1 rfl⟩

end BasicCalculator

namespace AuthManager

/-- C22: `validateRegistration` returns exactly the messages of the violated
rules, each once, in the fixed order length, digit, letter, match, email; the
list is empty if and only if the password has at least 8 characters (UTF-16
code units), contains a digit and an ASCII letter, equals `confirmPassword`,
and the email contains `"@"`. -/
theorem validateRegistration_spec (u : UserData) :
    validateRegistration u = violatedMessages u
      ∧ (validateRegistration u).Nodup
      ∧ (validateRegistration u = [] ↔
          (8 ≤ jsLength u.password ∧ hasDigit u.password = true
            ∧ hasLetter u.password = true ∧ u.password = u.confirmPassword
            ∧ '@' ∈ u.email.data)) := by
  unfold validateRegistration violatedMessages registrationRules
  by_cases h4 : u.password = u.confirmPassword
  · replace h4 := eq_true h4
    by_cases h1 : jsLength u.password < 8 <;>
    by_cases h2 : hasDigit u.password = true <;>
    by_cases h3 : hasLetter u.password = true <;>
    by_cases h5 : '@' ∈ u.email.data <;>
    first
      | (simp [h1, h2, h3, h4, h5]; done)
      | (simp [h1, h2, h3, h4, h5]; omega)
  · replace h4 := eq_false h4
    by_cases h1 : jsLength u.password < 8 <;>
    by_cases h2 : hasDigit u.password = true <;>
    by_cases h3 : hasLetter u.password = true <;>
    by_cases h5 : '@' ∈ u.email.data <;>
    simp [h1, h2, h3, h4, h5]

end AuthManager

namespace Calculator

open JS

/-- C23 fails on the code for a result of `0`: `data.result || …` treats the
number `0` as absent, so a response `{result: 0, expression: "5 - 5"}` shows
`"N/A"` where the result text should read `"0"`; a result that is neither zero
nor `NaN` is shown as is. -/
theorem displayResult_zero_result :
    (displayResult
        { result := JSValue.number (JSNumber.fin false 0 0)
          converted_value := JSValue.undefined
          expression := JSValue.string "5 - 5" }
        (some { resultExpression := "", resultValue := "", resultContainer := "none" }))
      = some { resultExpression := "5 - 5", resultValue := "N/A", resultContainer := "block" }
    ∧ JS.toString (JSNumber.fin false 0 0) = "0"
    ∧ ∀ (x : JSNumber) (data : ResponseData) (dom : ResultElements),
        data.result = JSValue.number x → (JSValue.number x).truthy = true →
        ∃ dom', displayResult data (some dom) = some dom'
          ∧ dom'.resultValue = JS.toString x := by
  refine ⟨by decide, by decide, fun x data dom hx ht => ?_⟩
  refine ⟨_, rfl, ?_⟩
  simp only [hx, JSValue.or, ht, if_true]
  rfl

end Calculator

namespace BasicCalculator

open JS

/-- C17 as stated fails: the keys `5 % 0 =` lead to a reachable state whose
buffer is `"NaN"`, which does not parse to a finite number. -/
theorem currentInput_finite_counterexample :
    Reachable (calculate (onNumberClick "0" (onOperatorClick "%" (onNumberClick "5"
        (constructor "0" "" "" "none")))))
      ∧ (calculate (onNumberClick "0" (onOperatorClick "%" (onNumberClick "5"
          (constructor "0" "" "" "none"))))).currentInput = "NaN"
      ∧ isFinite (parseFloat (calculate (onNumberClick "0" (onOperatorClick "%"
          (onNumberClick "5" (constructor "0" "" "" "none"))))).currentInput) = false :=
  ⟨Reachable.equals (Reachable.number "0" (Reachable.operator "%"
      (Reachable.number "5" (Reachable.init _ _ _ _) (by decide)) (by decide)) (by decide)),
    by decide!, by decide!⟩

/-- C17, amended: in every state reached from the initial state by the number
buttons, `clearAll()` and `delete()` alone (a reachable state in which the
calculator has not computed anything yet), `currentInput` is a digit string
with an optional decimal point; it parses to a Number that is not `NaN`, and
to a finite one whenever it has at most 308 characters. -/
theorem currentInput_typing_finite (s : BasicCalculator) (hs : Typing s) :
    Reachable s ∧ DigitBuffer s.currentInput.data
      ∧ parseFloat s.currentInput ≠ JSNumber.nan
      ∧ (s.currentInput.length ≤ 308 → isFinite (parseFloat s.currentInput) = true) := by
  have hreach : Reachable s := by
    induction hs with
    | init d e r b => exact Reachable.init d e r b
    | number t _ ht ih => exact Reachable.number t ih ht
    | clear _ ih => exact Reachable.clear ih
    | backspace _ ih => exact Reachable.backspace ih
  obtain ⟨_, hbuf⟩ := digitBuffer_of_typing hs
  obtain ⟨N, D, _, hparse, hlt⟩ := parseFloat_digitBuffer _ hbuf
  have hparse' : parseFloat s.currentInput = mkNumber false (roundScaled N D) := hparse
  refine ⟨hreach, hbuf, ?_, fun hlen => ?_⟩
  · rw [hparse']; exact mkNumber_ne_nan _ _
  · rw [hparse']
    apply isFinite_mkNumber
    apply roundScaled_finite
    have hlen' : s.currentInput.data.length ≤ 308 := hlen
    have h1 : 10 ^ s.currentInput.data.length ≤ 10 ^ 308 :=
      Nat.pow_le_pow_right (by norm_num) hlen'
    calc N < 10 ^ s.currentInput.data.length * unit * D := hlt
      _ ≤ 10 ^ 308 * unit * D :=
        Nat.mul_le_mul_right _ (Nat.mul_le_mul_right _ h1)

/-- C17 amended, at the state reached by the keys `1 . 5`. -/
theorem currentInput_typing_finite_witness :
    Typing (onNumberClick "5" (onNumberClick "." (onNumberClick "1"
        (constructor "0" "" "" "none"))))
      ∧ isFinite (parseFloat (onNumberClick "5" (onNumberClick "." (onNumberClick "1"
          (constructor "0" "" "" "none")))).currentInput) = true :=
  have ht : Typing (onNumberClick "5" (onNumberClick "." (onNumberClick "1"
      (constructor "0" "" "" "none")))) :=
    Typing.number "5" (Typing.number "." (Typing.number "1" (Typing.init _ _ _ _)
      (by decide)) (by decide)) (by decide)
  ⟨ht, (currentInput_typing_finite _ ht).2.2.2 (by decide)⟩

/-- C12 as stated fails for a negative halfway value: the keys
`0 - 0.001953125 =` give the raw result `-1/512`, exactly halfway between
`-0.00195312` and `-0.00195313`; `calculate()` leaves `"-0.00195312"`, the
multiple of smaller magnitude, while rounding half away from zero gives
`"-0.00195313"`. -/
theorem round8_negative_half_counterexample :
    (calculate (enter ["0", ".", "0", "0", "1", "9", "5", "3", "1", "2", "5"]
        (onOperatorClick "-" (enter ["0"] (constructor "0" "" "" "none"))))).currentInput
        = "-0.00195312"
      ∧ JS.toString (roundHalfAwayFromZero8 (sub (parseFloat (typed ["0"]))
          (parseFloat (typed ["0", ".", "0", "0", "1", "9", "5", "3", "1", "2", "5"]))))
        = "-0.00195313" := by
  decide!

/-- C12, amended: the result `calculate()` stores for a raw result `x` is
`Math.round(p) / 10^8` with `p` the binary64 product `x * 10^8`, and
`Math.round(p)` is the integer `K` with `p - 1/2 < K ≤ p + 1/2`: the integer
nearest to `p`, a value exactly halfway between two integers going to the
greater one (towards `+Infinity`), that is to the larger magnitude for positive
`p` and to the smaller magnitude for negative `p`; `1/512` gives `0.00195313`
and `-1/512` gives `-0.00195312`. -/
theorem round8_half_up :
    (∀ (s : BasicCalculator) (op : String), op ∈ operatorTokens → s.operator = some op →
        (calculate s).currentInput
          = JS.toString (div (mathRound (mul (zeroDivide op (toNumber s.previousValue)
              (parseFloat s.currentInput)) (JS.ofNat 100000000))) (JS.ofNat 100000000)))
      ∧ (∀ x : JSNumber, Canonical (mul x (JS.ofNat 100000000)))
      ∧ (∀ (s : Bool) (m e : Nat), Canon m e → e ≤ 2045 →
          ∃ (m' e' : Nat) (K : Int),
            mathRound (JSNumber.fin s m e) = JSNumber.fin s m' e'
              ∧ scaledInt s m' e' = K * (unit : Int)
              ∧ 2 * scaledInt s m e - (unit : Int) < 2 * (K * (unit : Int))
              ∧ 2 * (K * (unit : Int)) ≤ 2 * scaledInt s m e + (unit : Int))
      ∧ JS.toString (round8 (parseFloat "0.001953125")) = "0.00195313"
      ∧ JS.toString (round8 (parseFloat "-0.001953125")) = "-0.00195312" := by
  refine ⟨fun s op hop h => (calculate_fold s op hop h).1, fun x => mul_canonical _ _,
    fun s m e hc he => ?_, by decide!, by decide!⟩
  have hU := unit_pos
  cases s with
  | false =>
    obtain ⟨m', e', hr, _, _, hv⟩ := mathRound_pos m e hc he
    refine ⟨m', e', (((2 * (m * 2 ^ e) + unit) / (2 * unit) : Nat) : Int), hr, ?_⟩
    have h1 := Nat.lt_div_mul_add (a := 2 * (m * 2 ^ e) + unit) (b := 2 * unit) (by omega)
    have h2 := Nat.div_mul_le_self (2 * (m * 2 ^ e) + unit) (2 * unit)
    have h3 : (2 * (m * 2 ^ e) + unit) / (2 * unit) * (2 * unit)
        = 2 * ((2 * (m * 2 ^ e) + unit) / (2 * unit) * unit) := by ring
    rw [h3] at h1 h2
    simp only [scaledInt, Bool.false_eq_true, if_false]
    rw [hv, ← Nat.cast_mul]
    generalize (2 * (m * 2 ^ e) + unit) / (2 * unit) * unit = T at h1 h2 ⊢
    generalize m * 2 ^ e = M at h1 h2 ⊢
    refine ⟨rfl, ?_, ?_⟩ <;> omega
  | true =>
    obtain ⟨m', e', hr, _, _, hv⟩ := mathRound_neg m e hc he
    refine ⟨m', e', -(((2 * (m * 2 ^ e) + unit - 1) / (2 * unit) : Nat) : Int), hr, ?_⟩
    have h1 := Nat.lt_div_mul_add (a := 2 * (m * 2 ^ e) + unit - 1) (b := 2 * unit) (by omega)
    have h2 := Nat.div_mul_le_self (2 * (m * 2 ^ e) + unit - 1) (2 * unit)
    have h3 : (2 * (m * 2 ^ e) + unit - 1) / (2 * unit) * (2 * unit)
        = 2 * ((2 * (m * 2 ^ e) + unit - 1) / (2 * unit) * unit) := by ring
    rw [h3] at h1 h2
    simp only [scaledInt, if_true]
    rw [hv, neg_mul, ← Nat.cast_mul]
    generalize (2 * (m * 2 ^ e) + unit - 1) / (2 * unit) * unit = T at h1 h2 ⊢
    generalize m * 2 ^ e = M at h1 h2 ⊢
    refine ⟨rfl, ?_, ?_⟩ <;> omega

/-- C13 as stated fails for large results: the keys
`1234567890123456789012 + 0 =` leave `"1.2345678901234568e+21"`, which has 16
digits after the decimal point. -/
theorem round8_fraction_digits_counterexample :
    (calculate (enter ["0"] (onOperatorClick "+"
        (enter ["1", "2", "3", "4", "5", "6", "7", "8", "9", "0", "1", "2", "3", "4", "5", "6",
          "7", "8", "9", "0", "1", "2"] (constructor "0" "" "" "none"))))).currentInput
        = "1.2345678901234568e+21"
      ∧ fractionDigits "1.2345678901234568e+21" = 16 := by
  decide!

/-- C13, amended: the value `calculate()` stores is `round8` of the raw result;
when finite it is the Number nearest to `K / 10^8` for a natural number `K`
(up to sign), and whenever its magnitude is below `10^21` its string form, the
new `currentInput`, has at most 8 digits after the decimal point; the keys
`1 / 3 =` yield `"0.33333333"`. -/
theorem round8_fraction_digits :
    (∀ (s : BasicCalculator) (op : String), op ∈ operatorTokens → s.operator = some op →
        (calculate s).currentInput
          = JS.toString (round8 (zeroDivide op (toNumber s.previousValue)
              (parseFloat s.currentInput))))
      ∧ (∀ (x : JSNumber) (sg : Bool) (m e : Nat), round8 x = JSNumber.fin sg m e →
          ∃ K, roundScaled (K * unit) (10 ^ 8) = (m, e))
      ∧ (∀ (x : JSNumber) (sg : Bool) (m e : Nat), round8 x = JSNumber.fin sg m e →
          m * 2 ^ e < 10 ^ 21 * unit → fractionDigits (JS.toString (round8 x)) ≤ 8)
      ∧ (calculate (enter ["3"] (onOperatorClick "/" (enter ["1"]
          (constructor "0" "" "" "none"))))).currentInput = "0.33333333" := by
  refine ⟨fun s op hop h => (calculate_fold s op hop h).1, fun x sg m e h => ?_,
    fun x sg m e h hlt => ?_, by decide!⟩
  · obtain ⟨K, hK, _, _⟩ := round8_structure x sg m e h
    exact ⟨K, hK⟩
  · obtain ⟨K, hK, _, _⟩ := round8_structure x sg m e h
    rw [h]
    by_cases hm : m = 0
    · subst hm
      have : JS.toString (JSNumber.fin sg 0 e) = "0" := rfl
      rw [this]
      decide
    · rw [toString_fin sg m e hm]
      obtain ⟨h1, h2, h3⟩ := shortest_eight_places m e K hK hm hlt
      exact fractionDigits_format sg _ _ _ h1 h2 h3

end BasicCalculator
